import Mathlib

/-!
# A replicated key-value store: ABD and lease-based blocking protocols

Shallow embedding of the replica servers (`abd_server.cpp`, `blocking_server.cpp`),
of the wire framing (`network.cpp` and the `istringstream` extractions the handlers use)
and of the two clients (`abd_client.cpp`, `blocking_client.cpp`), followed by the
properties proved about them.

Conventions of the embedding.

* `std::string` is a list of characters (`Str`).
* `int` is a 32-bit two's complement integer (`CInt`, a subtype of `Int`); the only
  arithmetic of the sources, `max_ti + 1`, wraps around (`CInt.succ`).
* `steady_clock::time_point` is an integer count of nanoseconds.
* `unordered_map<string, KeyState>` is a total function from keys to cells: a key that
  was never touched maps to the default-constructed `KeyState`, which is what
  `operator[]` inserts on first touch.
* A local `int` that is read without having been assigned (an extraction that did
  nothing because the stream had already failed) holds an indeterminate value; that value
  is an explicit argument of the handler.
-/

set_option maxRecDepth 100000

namespace PA2

/-! ## Basic types -/

/-- A `std::string`. -/
abbrev Str := List Char

/-- The `int` of the sources: the integers from `INT_MIN` to `INT_MAX`. -/
abbrev CInt := {x : Int // -2147483648 ≤ x ∧ x ≤ 2147483647}

/-- Conversion of an integer in range, saturating outside (what `operator>>` stores on
overflow). -/
def CInt.clamp (v : Int) : CInt :=
  if h1 : v < -2147483648 then ⟨-2147483648, by decide⟩
  else if h2 : 2147483647 < v then ⟨2147483647, by decide⟩
  else ⟨v, by omega⟩

/-- The value of `x + 1` computed in `int` (wrap-around at `INT_MAX`). -/
def CInt.succ (x : CInt) : CInt :=
  ⟨(x.val + 1 + 2147483648) % 4294967296 - 2147483648, by omega⟩

/-- The `int` constant `0`. -/
def CInt.zero : CInt := ⟨0, by decide⟩

/-- The `int` constant `-1`. -/
def CInt.negOne : CInt := ⟨-1, by decide⟩

/-- A tag `(lamport, cid)` as a pair of integers. -/
abbrev Tag := Int × Int

/-- The strict lexicographic order on tags: the `newer` test of the servers. -/
def Tag.lt (a b : Tag) : Prop := a.1 < b.1 ∨ (a.1 = b.1 ∧ a.2 < b.2)

/-- The lexicographic order on tags. -/
def Tag.le (a b : Tag) : Prop := Tag.lt a b ∨ a = b

instance (a b : Tag) : Decidable (Tag.lt a b) := by unfold Tag.lt; exact inferInstance

instance (a b : Tag) : Decidable (Tag.le a b) := by unfold Tag.le; exact inferInstance

/-- The `ReadResp` of `types.h`. -/
structure ReadResp where
  t_int : CInt := CInt.zero
  t_client : CInt := CInt.zero
  value : Str := []
  valid : Bool := false
deriving DecidableEq

/-- The `KeyState` of `types.h`; `locked_by = -1` means that nobody holds the lock. -/
structure KeyState where
  tag_lamport : CInt := CInt.zero
  tag_cid : CInt := CInt.zero
  value : Str := []
  locked_by : CInt := CInt.negOne
  lock_expiry : Int := 0
deriving DecidableEq

/-- The tag stored in a cell. -/
def KeyState.tag (ks : KeyState) : Tag := (ks.tag_lamport.val, ks.tag_cid.val)

/-- The tag carried by a read response. -/
def ReadResp.tag (r : ReadResp) : Tag := (r.t_int.val, r.t_client.val)

/-- The key-value map of a replica (`kv`, `kv_store`). -/
abbrev Store := Str → KeyState

/-- The map of a freshly started replica. -/
def Store.empty : Store := fun _ => {}

/-- The constant `Config::LOCK_LEASE_SEC`. -/
def LOCK_LEASE_SEC : Int := 5

/-- The duration `chrono::seconds(s)` in ticks of the steady clock (nanoseconds). -/
def seconds (s : Int) : Int := s * 1000000000

/-! ## Text streams -/

/-- The `isspace` of the C locale. -/
def isspace (c : Char) : Bool :=
  c == ' ' || c == '\t' || c == '\n' || c == '\x0b' || c == '\x0c' || c == '\r'

/-- An `istringstream`: the characters not read yet and whether the stream has failed. -/
structure IStream where
  buf : Str
  fail : Bool := false
deriving DecidableEq

/-- The value of a string of decimal digits. -/
def digitsVal (ds : Str) : Nat := ds.foldl (fun a c => 10 * a + (c.toNat - 48)) 0

/-- The extraction `iss >> s` of a string: skips white space and reads up to the next white
space. On a failed or exhausted stream nothing is read and the target keeps `old`. -/
def extractString (s : IStream) (old : Str) : IStream × Str :=
  if s.fail then (s, old)
  else
    match s.buf.dropWhile isspace with
    | [] => ({ buf := [], fail := true }, old)
    | c :: cs =>
      ({ buf := (c :: cs).dropWhile (fun x => !isspace x), fail := false },
        (c :: cs).takeWhile (fun x => !isspace x))

/-- The extraction `iss >> n` of an `int`: skips white space, reads an optional sign and
decimal digits. On a failed or exhausted stream the target keeps `old`; with no digit the
target is `0` and the stream fails; out of range the target saturates and the stream
fails. -/
def extractInt (s : IStream) (old : CInt) : IStream × CInt :=
  if s.fail then (s, old)
  else
    match s.buf.dropWhile isspace with
    | [] => ({ buf := [], fail := true }, old)
    | c :: cs =>
      let body := if c = '-' ∨ c = '+' then cs else c :: cs
      let ds := body.takeWhile Char.isDigit
      let rest := body.dropWhile Char.isDigit
      if ds = [] then ({ buf := rest, fail := true }, CInt.zero)
      else
        let v : Int := if c = '-' then -(digitsVal ds : Int) else (digitsVal ds : Int)
        ({ buf := rest, fail := decide (v < -2147483648 ∨ 2147483647 < v) }, CInt.clamp v)

/-- The manipulator `iss >> ws`. -/
def ws (s : IStream) : IStream :=
  if s.fail then s else { buf := s.buf.dropWhile isspace, fail := false }

/-- The call `getline(iss, s)`: the rest of the line. On a failed or exhausted stream the
target keeps `old`. -/
def getline (s : IStream) (old : Str) : IStream × Str :=
  if s.fail then (s, old)
  else
    match s.buf with
    | [] => ({ buf := [], fail := true }, old)
    | c :: cs =>
      ({ buf := ((c :: cs).dropWhile (fun x => x != '\n')).drop 1, fail := false },
        (c :: cs).takeWhile (fun x => x != '\n'))

/-- The text `operator<<` writes for an `int`. -/
def showInt (v : Int) : Str :=
  if v < 0 then '-' :: Nat.toDigits 10 v.natAbs else Nat.toDigits 10 v.natAbs

namespace Network

/-- The function `Network::recv_line` on a socket whose peer sent `bytes` and then closed:
the characters before the first newline, and the empty string when no newline arrives. -/
def recv_line (bytes : Str) : Str :=
  if '\n' ∈ bytes then bytes.takeWhile (fun x => x != '\n') else []

end Network

/-! ## The ABD replica server -/

namespace AbdServer

/-- Lines 49-55 of `handle_client`: the fields of a `WRITE_REQ` line. `u1` and `u2` are the
indeterminate initial contents of the locals `ti` and `tc`. -/
def parse_write (iss : IStream) (u1 u2 : CInt) : Str × CInt × CInt × Str :=
  let r1 := extractString iss []
  let r2 := extractInt r1.1 u1
  let r3 := extractInt r2.1 u2
  let r4 := getline (ws r3.1) []
  (r1.2, r2.2, r3.2, r4.2)

/-- Lines 60-65: the compare-and-assign of a write on a cell. -/
def write_cell (ks : KeyState) (ti tc : CInt) (val : Str) : KeyState :=
  let newer : Bool := decide (ti.val > ks.tag_lamport.val) ||
    (decide (ti.val = ks.tag_lamport.val) && decide (tc.val > ks.tag_cid.val))
  if newer then { ks with tag_lamport := ti, tag_cid := tc, value := val } else ks

/-- The reply line of a read. -/
def read_resp (ks : KeyState) : Str :=
  "READ_RESP ".toList ++ showInt ks.tag_lamport.val ++ " ".toList ++ showInt ks.tag_cid.val ++
    " ".toList ++ ks.value ++ "\n".toList

/-- The handler `handle_client` of `abd_server.cpp`: the state of the map after the request
and the reply sent, if any. `sock` is what the client sent on the connection. -/
def handle_client (kv : Store) (sock : Str) (u1 u2 : CInt) : Store × Option Str :=
  let msg := Network.recv_line sock
  if msg = [] then (kv, none)
  else
    let r := extractString { buf := msg } []
    if r.2 = "READ_REQ".toList then
      let k := extractString r.1 []
      (kv, some (read_resp (kv k.2)))
    else if r.2 = "WRITE_REQ".toList then
      let p := parse_write r.1 u1 u2
      (Function.update kv p.1 (write_cell (kv p.1) p.2.1 p.2.2.1 p.2.2.2), some "ACK\n".toList)
    else (kv, some "ERR\n".toList)

/-- One accepted connection of the ABD server: what the client sent, and the indeterminate
contents of the handler's uninitialised locals. -/
structure Conn where
  sock : Str
  u1 : CInt
  u2 : CInt

/-- The map after one connection has been handled. -/
def serve (kv : Store) (c : Conn) : Store := (handle_client kv c.sock c.u1 c.u2).1

/-- The map after a sequence of connections, in the order in which the handlers run. -/
def run (kv : Store) (cs : List Conn) : Store := cs.foldl serve kv

end AbdServer

/-! ## The Blocking replica server -/

namespace BlockingServer

/-- The function `lock_expired`; `now` is the reading of the steady clock. -/
def lock_expired (ks : KeyState) (now : Int) : Bool :=
  decide (ks.locked_by ≠ CInt.negOne) && decide (now > ks.lock_expiry)

/-- The expiry clean-up that opens the critical sections:
`if (lock_expired(ks)) ks.locked_by = -1`. -/
def expire (ks : KeyState) (now : Int) : KeyState :=
  if lock_expired ks now then { ks with locked_by := CInt.negOne } else ks

/-- Lines 37 and 65: the fields of a `LOCK_REQ` or `UNLOCK` line; `u` is the indeterminate
initial content of the local `client_id`. -/
def parse_lock (iss : IStream) (u : CInt) : Str × CInt :=
  let r1 := extractString iss []
  let r2 := extractInt r1.1 u
  (r1.2, r2.2)

/-- Lines 44-53: the critical section of `LOCK_REQ` on a cell, with the `granted` flag.
`now` is the clock reading of `lock_expired`, `now2` the reading taken for the lease. -/
def lock_cell (ks : KeyState) (client_id : CInt) (now now2 : Int) : KeyState × Bool :=
  let ks1 := expire ks now
  if ks1.locked_by = CInt.negOne then
    ({ ks1 with locked_by := client_id, lock_expiry := now2 + seconds LOCK_LEASE_SEC }, true)
  else (ks1, false)

/-- Lines 71-73: the critical section of `UNLOCK` on a cell. -/
def unlock_cell (ks : KeyState) (client_id : CInt) (now : Int) : KeyState :=
  if ks.locked_by = client_id ∨ lock_expired ks now = true then
    { ks with locked_by := CInt.negOne }
  else ks

/-- Lines 122-138: the critical section of `WRITE_REQ` on a cell, with the `ok` flag. -/
def write_cell (ks : KeyState) (new_t_int new_t_client : CInt) (new_value : Str) (now : Int) :
    KeyState × Bool :=
  let ks1 := expire ks now
  if ks1.locked_by = new_t_client then
    let newer : Bool := decide (new_t_int.val > ks1.tag_lamport.val) ||
      (decide (new_t_int.val = ks1.tag_lamport.val) &&
        decide (new_t_client.val > ks1.tag_cid.val))
    (if newer then
        { ks1 with tag_lamport := new_t_int, tag_cid := new_t_client, value := new_value }
      else ks1, true)
  else (ks1, false)

/-- The handler `handle_client` of `blocking_server.cpp`: the state of the map after the
request and the reply sent, if any. `now` is the reading of the steady clock inside
`lock_expired`, `now2` the reading taken when a lock is granted. -/
def handle_client (kv : Store) (sock : Str) (now now2 : Int) (u1 u2 : CInt) :
    Store × Option Str :=
  let msg := Network.recv_line sock
  if msg = [] then (kv, none)
  else
    let r := extractString { buf := msg } []
    if r.2 = "LOCK_REQ".toList then
      let p := parse_lock r.1 u1
      let c := lock_cell (kv p.1) p.2 now now2
      (Function.update kv p.1 c.1,
        some (if c.2 then "LOCK_GRANTED\n".toList else "LOCK_DENIED\n".toList))
    else if r.2 = "UNLOCK".toList then
      let p := parse_lock r.1 u1
      (Function.update kv p.1 (unlock_cell (kv p.1) p.2 now), some "ACK\n".toList)
    else if r.2 = "READ_REQ".toList then
      let k := extractString r.1 []
      let ks := expire (kv k.2) now
      (Function.update kv k.2 ks, some (AbdServer.read_resp ks))
    else if r.2 = "WRITE_REQ".toList then
      let p := AbdServer.parse_write r.1 u1 u2
      let c := write_cell (kv p.1) p.2.1 p.2.2.1 p.2.2.2 now
      (Function.update kv p.1 c.1,
        some (if c.2 then "ACK\n".toList else "WRITE_DENIED\n".toList))
    else (kv, some "ERR\n".toList)

/-- One accepted connection of the Blocking server: what the client sent, the clock
readings of the handler and the indeterminate contents of its uninitialised locals. -/
structure Conn where
  sock : Str
  now : Int
  now2 : Int
  u1 : CInt
  u2 : CInt

/-- The map after one connection has been handled. -/
def serve (kv : Store) (c : Conn) : Store :=
  (handle_client kv c.sock c.now c.now2 c.u1 c.u2).1

/-- The map after a sequence of connections, in the order in which the handlers run. -/
def run (kv : Store) (cs : List Conn) : Store := cs.foldl serve kv

end BlockingServer

/-! ## The ABD client -/

namespace ABD

/-- What happens to one connection attempt of a client (`connect_to_server`,
`send_message`, `recv_line`): the connection fails, the request is not sent, the request is
handled by the replica but its reply does not arrive, or the exchange succeeds. -/
inductive Rpc where
  | connect_fails
  | send_fails
  | recv_fails
  | ok
deriving DecidableEq

/-- The environment of one client operation: the fate of the connection of its read phase
and of its write phase to each replica, and the indeterminate contents of the
uninitialised locals of the handler that serves them. -/
structure Net where
  read : Nat → Rpc
  write : Nat → Rpc
  u1 : Nat → CInt
  u2 : Nat → CInt

/-- The replicas behind `servers`: the map of the replica at each index. -/
abbrev Cluster := Nat → Store

/-- The request line of a read. -/
def read_req_line (key : Str) : Str := "READ_REQ ".toList ++ key ++ "\n".toList

/-- The request line of a write. -/
def write_req_line (key : Str) (tag_lamport tag_cid : CInt) (value : Str) : Str :=
  "WRITE_REQ ".toList ++ key ++ " ".toList ++ showInt tag_lamport.val ++ " ".toList ++
    showInt tag_cid.val ++ " ".toList ++ value ++ "\n".toList

/-- Lines 37-50 of `ABD::read_task`: the slot `out[i]`, whose content was `cur`, after the
line `resp` has been parsed (`resp` is empty when no reply arrived). The locals `tlc` and
`tcid` are only read after both extractions have succeeded. -/
def parse_resp (resp : Str) (cur : ReadResp) : ReadResp :=
  let r1 := extractString { buf := resp } []
  let r2 := extractInt r1.1 CInt.zero
  let r3 := extractInt r2.1 CInt.zero
  if r3.1.fail = true ∨ r1.2 ≠ "READ_RESP".toList then { cur with valid := false }
  else { t_int := r2.2, t_client := r3.2, value := (getline (ws r3.1) []).2, valid := true }

/-- The function `ABD::read_task`: one read connection to the replica `servers_idx[i]`,
whose outcome goes to the slot `out[i]`. -/
def read_task (i : Nat) (key : Str) (servers_idx : List Nat) (net : Net) (cl : Cluster)
    (out : List ReadResp) : Cluster × List ReadResp :=
  let idx := servers_idx.getD i 0
  let cur := out.getD i {}
  let h := AbdServer.handle_client (cl idx) (read_req_line key) (net.u1 idx) (net.u2 idx)
  match net.read idx with
  | Rpc.connect_fails => (cl, out.set i { cur with valid := false })
  | Rpc.send_fails => (cl, out.set i { cur with valid := false })
  | Rpc.recv_fails => (Function.update cl idx h.1, out.set i (parse_resp [] cur))
  | Rpc.ok =>
    (Function.update cl idx h.1, out.set i (parse_resp (Network.recv_line (h.2.getD [])) cur))

/-- The function `read_phase`: the `R` read tasks, joined. The tasks talk to distinct
replicas, so they are run one after the other. -/
def read_phase (key : Str) (servers_idx : List Nat) (net : Net) (cl : Cluster) :
    Cluster × List ReadResp :=
  (List.range servers_idx.length).foldl
    (fun st i => read_task i key servers_idx net st.1 st.2)
    (cl, List.replicate servers_idx.length {})

/-- The body of a thread of `write_phase`: one write connection to the replica `i`. -/
def write_task (i : Nat) (key : Str) (tag_lamport tag_cid : CInt) (value : Str) (net : Net)
    (cl : Cluster) : Cluster :=
  let h := AbdServer.handle_client (cl i) (write_req_line key tag_lamport tag_cid value)
    (net.u1 i) (net.u2 i)
  match net.write i with
  | Rpc.connect_fails => cl
  | Rpc.send_fails => cl
  | Rpc.recv_fails => Function.update cl i h.1
  | Rpc.ok => Function.update cl i h.1

/-- The function `write_phase`: one write task for each index of `servers_idx`, joined. -/
def write_phase (key : Str) (tag_lamport tag_cid : CInt) (value : Str)
    (servers_idx : List Nat) (net : Net) (cl : Cluster) : Cluster :=
  servers_idx.foldl (fun c i => write_task i key tag_lamport tag_cid value net c) cl

/-- The state of the loop of `find_highest_tag`: `best_i`, `best_ti`, `best_tc`,
`best_val`. -/
structure Best where
  best_i : Int
  best_ti : CInt
  best_tc : CInt
  best_val : Str
deriving DecidableEq

/-- One iteration of the loop of `find_highest_tag`, at index `i`. -/
def find_step (resps : List ReadResp) (b : Best) (i : Nat) : Best :=
  let r := resps.getD i {}
  if r.valid = false then b
  else if b.best_i = -1 ∨ r.t_int.val > b.best_ti.val ∨
      (r.t_int.val = b.best_ti.val ∧ r.t_client.val > b.best_tc.val) then
    { best_i := i, best_ti := r.t_int, best_tc := r.t_client, best_val := r.value }
  else b

/-- The function `ABD::find_highest_tag`: the result and the final contents of the
reference arguments `best_ti`, `best_tc`, `best_val`. -/
def find_highest_tag (resps : List ReadResp) (R : Nat) (best_ti best_tc : CInt)
    (best_val : Str) : Bool × CInt × CInt × Str :=
  let b := (List.range R).foldl (find_step resps)
    { best_i := -1, best_ti := best_ti, best_tc := best_tc, best_val := best_val }
  (decide (b.best_i ≠ -1), b.best_ti, b.best_tc, b.best_val)

/-- The function `ABD::get` over `N` servers: the replicas after the call, the result, and
the final content of the reference argument `out`. -/
def get (key : Str) (N : Nat) (out : Str) (net : Net) (cl : Cluster) :
    Cluster × Bool × Str :=
  let R := N / 2 + 1
  let idxs := List.range R
  let rp := read_phase key idxs net cl
  let f := find_highest_tag rp.2 R CInt.negOne CInt.negOne []
  if f.1 = false then (rp.1, false, out)
  else (write_phase key f.2.1 f.2.2.1 f.2.2.2 idxs net rp.1, true, f.2.2.2)

/-- Lines 147-152 of `ABD::put`: the tag `(new_ti, new_tc)` formed from the responses. -/
def new_tag (resps : List ReadResp) (R : Nat) (client_id : CInt) : CInt × CInt :=
  let f := find_highest_tag resps R CInt.negOne CInt.negOne []
  (CInt.succ f.2.1, client_id)

/-- The function `ABD::put` over `N` servers: the replicas after the call and the
result. -/
def put (key value : Str) (client_id : CInt) (N : Nat) (net : Net) (cl : Cluster) :
    Cluster × Bool :=
  let R := N / 2 + 1
  let idxs := List.range R
  let rp := read_phase key idxs net cl
  let t := new_tag rp.2 R client_id
  (write_phase key t.1 t.2 value idxs net rp.1, true)

/-- A call of the client interface, with the environment in which it runs. -/
inductive Op where
  | get (key : Str) (out : Str) (net : Net)
  | put (key value : Str) (client_id : CInt) (net : Net)

/-- The replicas after one call. -/
def exec (N : Nat) (cl : Cluster) : Op → Cluster
  | Op.get key out net => (get key N out net cl).1
  | Op.put key value client_id net => (put key value client_id N net cl).1

/-- The replicas after a sequence of calls run one after the other. -/
def execAll (N : Nat) (cl : Cluster) (ops : List Op) : Cluster := ops.foldl (exec N) cl

/-- The tag `(best_ti, best_tc)` a `get` selects, when it selects one. -/
def selected (key : Str) (N : Nat) (net : Net) (cl : Cluster) : Option Tag :=
  let R := N / 2 + 1
  let rp := read_phase key (List.range R) net cl
  let f := find_highest_tag rp.2 R CInt.negOne CInt.negOne []
  if f.1 = false then none else some (f.2.1.val, f.2.2.1.val)

/-- An environment in which every connection succeeds. -/
def Net.allOk : Net :=
  { read := fun _ => Rpc.ok, write := fun _ => Rpc.ok,
    u1 := fun _ => CInt.zero, u2 := fun _ => CInt.zero }

/-- An environment in which no connection can be made. -/
def Net.allDown : Net :=
  { read := fun _ => Rpc.connect_fails, write := fun _ => Rpc.connect_fails,
    u1 := fun _ => CInt.zero, u2 := fun _ => CInt.zero }

/-- The request of the connection reaches the replica. -/
def Rpc.delivered : Rpc → Bool
  | Rpc.connect_fails => false
  | Rpc.send_fails => false
  | Rpc.recv_fails => true
  | Rpc.ok => true

/-- The response a read of the cell `ks` leaves in a fresh slot, for the fate `o` of the
connection: the tag and the transmitted value of the cell, or an invalid response. -/
def slot (o : Rpc) (ks : KeyState) : ReadResp :=
  if o = Rpc.ok then
    { t_int := ks.tag_lamport, t_client := ks.tag_cid,
      value := (ks.value.takeWhile (fun x => x != '\n')).dropWhile isspace, valid := true }
  else {}

/-- Every tag stored in `cl2` is at least the tag stored at the same replica and key in
`cl1`. -/
def ClusterLe (cl1 cl2 : Cluster) : Prop := ∀ j k, Tag.le (cl1 j k).tag (cl2 j k).tag

end ABD

/-! ## The Blocking client -/

namespace Blocking

/-- The request line of `acquire_locks`. -/
def lock_req_line (key : Str) (client_id : CInt) : Str :=
  "LOCK_REQ ".toList ++ key ++ " ".toList ++ showInt client_id.val ++ "\n".toList

/-- The request line of `unlock_quorum`. -/
def unlock_line (key : Str) (client_id : CInt) : Str :=
  "UNLOCK ".toList ++ key ++ " ".toList ++ showInt client_id.val ++ "\n".toList

/-- The request line of `write_quorum`. -/
def write_req_line (key : Str) (t_int t_client : CInt) (value : Str) : Str :=
  "WRITE_REQ ".toList ++ key ++ " ".toList ++ showInt t_int.val ++ " ".toList ++
    showInt t_client.val ++ " ".toList ++ value ++ "\n".toList

/-- The quorum size `R = N/2 + 1` that `ABD::get`, `ABD::put`, `Blocking::acquire_locks`,
`Blocking::get` and `Blocking::put` compute from the number `N` of servers. -/
def quorum (N : Nat) : Nat := N / 2 + 1

/-- A step of a thread of `acquire_locks` that the other threads can observe: thread `i`
runs its first statement, the test of the stop flag, and, if the flag is not raised, makes
its exchange with its replica; or thread `i`, having read the reply, enters the section
guarded by the mutex. -/
inductive Event where
  | start (i : Nat)
  | reply (i : Nat)
deriving DecidableEq

/-- The environment of one operation of the Blocking client: the fate of its connections of
each phase to each replica, the order in which the threads of `acquire_locks` take their
steps, the readings of the steady clock of each replica when it handles the request of each
phase, and the indeterminate contents of the uninitialised locals of the handlers. -/
structure Net where
  lock : Nat → ABD.Rpc
  read : Nat → ABD.Rpc
  write : Nat → ABD.Rpc
  unlock : Nat → ABD.Rpc
  sched : List Event
  t_lock : Nat → Int
  t_lock2 : Nat → Int
  t_read : Nat → Int
  t_write : Nat → Int
  t_unlock : Nat → Int
  u1 : Nat → CInt
  u2 : Nat → CInt

/-- Lines 31-43 of `acquire_locks`: the line `resp` that thread `i` reads from its replica,
and `none` when the thread returns before reading, the connection or the send having
failed. Each thread talks to its own replica, so the line does not depend on the steps of
the other threads. -/
def lock_resp (key : Str) (client_id : CInt) (net : Net) (cl : ABD.Cluster) (i : Nat) :
    Option Str :=
  match net.lock i with
  | ABD.Rpc.connect_fails => none
  | ABD.Rpc.send_fails => none
  | ABD.Rpc.recv_fails => some []
  | ABD.Rpc.ok =>
    some (Network.recv_line
      ((BlockingServer.handle_client (cl i) (lock_req_line key client_id)
        (net.t_lock i) (net.t_lock2 i) (net.u1 i) (net.u2 i)).2.getD []))

/-- The shared state of the threads of `acquire_locks`: the flag `stop`, the vector
`granted`, the threads that have taken their first step, those among them that found the
flag down and made their exchange, and those that have a reply to process. -/
structure Acq where
  stop : Bool
  granted : List Nat
  ran : List Nat
  tried : List Nat
  inflight : List Nat

/-- One step of a thread of `acquire_locks` over `N` servers, `R` being the quorum size and
`resp i` the line thread `i` reads. A thread runs once; a reply is processed once. -/
def acquire_step (N R : Nat) (resp : Nat → Option Str) (s : Acq) : Event → Acq
  | Event.start i =>
    if N ≤ i ∨ i ∈ s.ran then s
    else if s.stop = true then { s with ran := i :: s.ran }
    else
      match resp i with
      | none => { s with ran := i :: s.ran, tried := i :: s.tried }
      | some _ =>
        { s with ran := i :: s.ran, tried := i :: s.tried, inflight := i :: s.inflight }
  | Event.reply i =>
    if i ∈ s.inflight then
      if resp i = some "LOCK_GRANTED".toList then
        if s.stop = false then
          { s with inflight := s.inflight.filter (fun j => j ≠ i),
                   granted := s.granted ++ [i],
                   stop := decide (R ≤ (s.granted ++ [i]).length) }
        else { s with inflight := s.inflight.filter (fun j => j ≠ i) }
      else { s with inflight := s.inflight.filter (fun j => j ≠ i) }
    else s

/-- The state of the threads of `acquire_locks` when all have been joined. -/
def acquire_run (N : Nat) (resp : Nat → Option Str) (sched : List Event) : Acq :=
  sched.foldl (acquire_step N (N / 2 + 1) resp)
    { stop := false, granted := [], ran := [], tried := [], inflight := [] }

/-- The function `Blocking::acquire_locks` over `N` servers: the replicas after the call,
each replica whose thread made its exchange having handled the lock request if it reached
it, and the vector `granted`. -/
def acquire_locks (key : Str) (client_id : CInt) (N : Nat) (net : Net) (cl : ABD.Cluster) :
    ABD.Cluster × List Nat :=
  let s := acquire_run N (lock_resp key client_id net cl) net.sched
  (fun i =>
    if i ∈ s.tried ∧ (net.lock i).delivered = true then
      (BlockingServer.handle_client (cl i) (lock_req_line key client_id)
        (net.t_lock i) (net.t_lock2 i) (net.u1 i) (net.u2 i)).1
    else cl i,
    s.granted)

/-- The schedule lets thread `i` run and, after its first step, process its reply. -/
def followed (i : Nat) : List Event → Bool
  | [] => false
  | e :: es => if e = Event.start i then decide (Event.reply i ∈ es) else followed i es

/-- The schedule joins all `N` threads: each of them runs and processes its reply. -/
def joins (N : Nat) (sched : List Event) : Prop := ∀ i, i < N → followed i sched = true

instance (N : Nat) (sched : List Event) : Decidable (joins N sched) := by
  unfold joins; exact inferInstance

/-- The body of a thread of `read_quorum`: one read connection to the replica
`server_idxs[k]`, whose outcome goes to the slot `out[k]`. -/
def read_task (k : Nat) (key : Str) (server_idxs : List Nat) (net : Net) (cl : ABD.Cluster)
    (out : List ReadResp) : ABD.Cluster × List ReadResp :=
  let idx := server_idxs.getD k 0
  let cur := out.getD k {}
  let h := BlockingServer.handle_client (cl idx) (ABD.read_req_line key)
    (net.t_read idx) (net.t_read idx) (net.u1 idx) (net.u2 idx)
  match net.read idx with
  | ABD.Rpc.connect_fails => (cl, out.set k { cur with valid := false })
  | ABD.Rpc.send_fails => (cl, out.set k { cur with valid := false })
  | ABD.Rpc.recv_fails => (Function.update cl idx h.1, out.set k (ABD.parse_resp [] cur))
  | ABD.Rpc.ok =>
    (Function.update cl idx h.1,
      out.set k (ABD.parse_resp (Network.recv_line (h.2.getD [])) cur))

/-- The function `read_quorum`: one read task for each entry of `server_idxs`, joined. -/
def read_quorum (key : Str) (server_idxs : List Nat) (net : Net) (cl : ABD.Cluster) :
    ABD.Cluster × List ReadResp :=
  (List.range server_idxs.length).foldl
    (fun st k => read_task k key server_idxs net st.1 st.2)
    (cl, List.replicate server_idxs.length {})

/-- The body of a thread of `write_quorum`: one write connection to the replica
`server_idxs[k]`; the counter `success` is the second component. -/
def write_task (k : Nat) (key : Str) (t_int t_client : CInt) (value : Str)
    (server_idxs : List Nat) (net : Net) (st : ABD.Cluster × Nat) : ABD.Cluster × Nat :=
  let idx := server_idxs.getD k 0
  let h := BlockingServer.handle_client (st.1 idx) (write_req_line key t_int t_client value)
    (net.t_write idx) (net.t_write idx) (net.u1 idx) (net.u2 idx)
  match net.write idx with
  | ABD.Rpc.connect_fails => st
  | ABD.Rpc.send_fails => st
  | ABD.Rpc.recv_fails => (Function.update st.1 idx h.1, st.2)
  | ABD.Rpc.ok =>
    (Function.update st.1 idx h.1,
      if Network.recv_line (h.2.getD []) = "ACK".toList then st.2 + 1 else st.2)

/-- The function `write_quorum`: the replicas after the write tasks and whether all of them
were acknowledged. -/
def write_quorum (key : Str) (t_int t_client : CInt) (value : Str) (server_idxs : List Nat)
    (net : Net) (cl : ABD.Cluster) : ABD.Cluster × Bool :=
  let st := (List.range server_idxs.length).foldl
    (fun st k => write_task k key t_int t_client value server_idxs net st) (cl, 0)
  (st.1, decide (server_idxs.length ≤ st.2))

/-- The body of a thread of `unlock_quorum`: one unlock connection to the replica `idx`. -/
def unlock_task (idx : Nat) (key : Str) (client_id : CInt) (net : Net) (cl : ABD.Cluster) :
    ABD.Cluster :=
  let h := BlockingServer.handle_client (cl idx) (unlock_line key client_id)
    (net.t_unlock idx) (net.t_unlock idx) (net.u1 idx) (net.u2 idx)
  match net.unlock idx with
  | ABD.Rpc.connect_fails => cl
  | ABD.Rpc.send_fails => cl
  | ABD.Rpc.recv_fails => Function.update cl idx h.1
  | ABD.Rpc.ok => Function.update cl idx h.1

/-- The function `unlock_quorum`: one unlock task for each index of `server_idxs`. -/
def unlock_quorum (key : Str) (client_id : CInt) (server_idxs : List Nat) (net : Net)
    (cl : ABD.Cluster) : ABD.Cluster :=
  server_idxs.foldl (fun c idx => unlock_task idx key client_id net c) cl

/-- The state of the loop of `Blocking::find_highest_tag`: the state of the loop of the ABD
client and the counter `valid`. -/
def find_step (resps : List ReadResp) (st : ABD.Best × Nat) (i : Nat) : ABD.Best × Nat :=
  let r := resps.getD i {}
  if r.valid = false then st
  else if st.1.best_i = -1 ∨ r.t_int.val > st.1.best_ti.val ∨
      (r.t_int.val = st.1.best_ti.val ∧ r.t_client.val > st.1.best_tc.val) then
    ({ best_i := i, best_ti := r.t_int, best_tc := r.t_client, best_val := r.value },
      st.2 + 1)
  else (st.1, st.2 + 1)

/-- The function `Blocking::find_highest_tag`: the result, which requires all `R` responses
to be valid, and the final contents of the reference arguments. -/
def find_highest_tag (resps : List ReadResp) (R : Nat) (best_ti best_tc : CInt)
    (best_val : Str) : Bool × CInt × CInt × Str :=
  let st := (List.range R).foldl (find_step resps)
    ({ best_i := -1, best_ti := best_ti, best_tc := best_tc, best_val := best_val }, 0)
  (decide (R ≤ st.2) && decide (st.1.best_i ≠ -1), st.1.best_ti, st.1.best_tc, st.1.best_val)

/-- The call `granted.resize(R)`. -/
def resize (granted : List Nat) (R : Nat) : List Nat :=
  granted.take R ++ List.replicate (R - granted.length) 0

/-- What an operation of the Blocking client leaves: the replicas, the result, and the
content of the reference argument `out_value`. -/
structure Outcome where
  cl : ABD.Cluster
  ok : Bool
  out : Str

/-- The function `Blocking::get` over `N` servers. -/
def get (key : Str) (client_id : CInt) (N : Nat) (out_value : Str) (net : Net)
    (cl : ABD.Cluster) : Outcome :=
  let R := N / 2 + 1
  let a := acquire_locks key client_id N net cl
  if a.2.length < R then
    { cl := unlock_quorum key client_id a.2 net a.1, ok := false, out := out_value }
  else
    let granted := resize a.2 R
    let rq := read_quorum key granted net a.1
    let f := find_highest_tag rq.2 R CInt.negOne CInt.negOne []
    if f.1 = false then
      { cl := unlock_quorum key client_id granted net rq.1, ok := false, out := out_value }
    else
      { cl := unlock_quorum key client_id granted net rq.1, ok := true, out := f.2.2.2 }

/-- The function `Blocking::put` over `N` servers. -/
def put (key value : Str) (client_id : CInt) (N : Nat) (net : Net) (cl : ABD.Cluster) :
    Outcome :=
  let R := N / 2 + 1
  let a := acquire_locks key client_id N net cl
  if a.2.length < R then
    { cl := unlock_quorum key client_id a.2 net a.1, ok := false, out := [] }
  else
    let granted := resize a.2 R
    let rq := read_quorum key granted net a.1
    let f := find_highest_tag rq.2 R CInt.negOne CInt.negOne []
    if f.1 = false then
      { cl := unlock_quorum key client_id granted net rq.1, ok := false, out := [] }
    else
      let wq := write_quorum key (CInt.succ f.2.1) client_id value granted net rq.1
      { cl := unlock_quorum key client_id granted net wq.1, ok := wq.2, out := [] }

/-- An environment in which every connection succeeds, the threads of `acquire_locks` all
start before the replies are processed in the order of the indices, and every request is
handled at the clock reading `0`. -/
def Net.allOk (N : Nat) : Net :=
  { lock := fun _ => ABD.Rpc.ok, read := fun _ => ABD.Rpc.ok, write := fun _ => ABD.Rpc.ok,
    unlock := fun _ => ABD.Rpc.ok,
    sched := (List.range N).map Event.start ++ (List.range N).map Event.reply,
    t_lock := fun _ => 0, t_lock2 := fun _ => 0, t_read := fun _ => 0, t_write := fun _ => 0,
    t_unlock := fun _ => 0, u1 := fun _ => CInt.zero, u2 := fun _ => CInt.zero }

end Blocking

/-- The invariant of the threads of `acquire_locks`: while the stop flag is down fewer than
`R` grants are recorded, a raised flag means `R` grants are recorded, every recorded grant
is the grant of a replica, recorded once, by a thread that made its exchange and is no
longer in flight, and the threads in flight are threads of the call that made their
exchange. -/
structure AcqInv (N R : Nat) (resp : Nat → Option Str) (s : Blocking.Acq) : Prop where
  down : s.stop = false → s.granted.length < R
  up : s.stop = true → R ≤ s.granted.length
  le : s.granted.length ≤ R
  grant : ∀ i ∈ s.granted, i < N ∧ resp i = some "LOCK_GRANTED".toList
  flight : ∀ i ∈ s.inflight, i < N
  nodup : s.granted.Nodup
  flightOk : ∀ i ∈ s.inflight, i ∈ s.tried ∧ i ∈ s.ran ∧ i ∉ s.granted
  grantOk : ∀ i ∈ s.granted, i ∈ s.tried ∧ i ∈ s.ran

/-! ## Statements about the Blocking replica -/

namespace BlockingServer

/-- The cell has a holder, that holder is `cid`, and the lease has not expired at `now`. -/
def holds (ks : KeyState) (cid : CInt) (now : Int) : Prop :=
  ks.locked_by ≠ CInt.negOne ∧ ks.locked_by = cid ∧ ¬ now > ks.lock_expiry

instance (ks : KeyState) (cid : CInt) (now : Int) : Decidable (holds ks cid now) := by
  unfold holds; exact inferInstance

/-- The lock gate of a write: `res` is the outcome of a `WRITE_REQ` on `key` carrying the
client id `cid`, handled at `now` in the state `kv`. The reply is `ACK` exactly when `cid`
holds the cell; otherwise the reply is `WRITE_DENIED` and the tag and value of the cell are
unchanged. -/
def WriteGated (kv : Store) (key : Str) (cid : CInt) (now : Int)
    (res : Store × Option Str) : Prop :=
  (res.2 = some "ACK\n".toList ↔ holds (kv key) cid now) ∧
  (¬ holds (kv key) cid now →
    res.2 = some "WRITE_DENIED\n".toList ∧ (res.1 key).tag = (kv key).tag ∧
      (res.1 key).value = (kv key).value)

/-- The outcome `res` of a `LOCK_REQ` on `key` by `cid` in the state `kv`, with the clock
reading `now` in the expiry test and `now2` when the lease is set: an expired holder is
cleared first; the lock is granted exactly when the cell then has no holder; a grant sets
the holder to `cid` and the deadline to `now2` plus the lease of 5 seconds; a denial
changes nothing; past the deadline of the current holder the request is granted; the tag
and value of the cell and the other cells are unchanged. -/
def LockReqSpec (kv : Store) (key : Str) (cid : CInt) (now now2 : Int)
    (res : Store × Option Str) : Prop :=
  ((expire (kv key) now).locked_by = CInt.negOne ↔
    ((kv key).locked_by = CInt.negOne ∨ now > (kv key).lock_expiry)) ∧
  (res.2 = some "LOCK_GRANTED\n".toList ↔ (expire (kv key) now).locked_by = CInt.negOne) ∧
  (res.2 = some "LOCK_GRANTED\n".toList →
    (res.1 key).locked_by = cid ∧ (res.1 key).lock_expiry = now2 + 5000000000) ∧
  (res.2 ≠ some "LOCK_GRANTED\n".toList →
    res.2 = some "LOCK_DENIED\n".toList ∧ res.1 key = kv key) ∧
  ((kv key).locked_by ≠ CInt.negOne → now > (kv key).lock_expiry →
    res.2 = some "LOCK_GRANTED\n".toList) ∧
  ((res.1 key).tag = (kv key).tag ∧ (res.1 key).value = (kv key).value) ∧
  (∀ k, k ≠ key → res.1 k = kv k)

/-- The outcome `res` of an `UNLOCK` on `key` by `cid`, handled at `now` in the state `kv`:
the reply is `ACK`; a held lock is cleared exactly when its holder is `cid` or its lease
has expired; an unlock by another client leaves a holder whose lease has not expired, and
the cell, as they were; the tag, the value and the deadline of the cell never change, nor do
the other cells. -/
def UnlockSpec (kv : Store) (key : Str) (cid : CInt) (now : Int)
    (res : Store × Option Str) : Prop :=
  res.2 = some "ACK\n".toList ∧
  ((kv key).locked_by ≠ CInt.negOne →
    ((res.1 key).locked_by = CInt.negOne ↔
      ((kv key).locked_by = cid ∨ now > (kv key).lock_expiry))) ∧
  ((kv key).locked_by ≠ cid → ¬ now > (kv key).lock_expiry → res.1 key = kv key) ∧
  ((res.1 key).tag = (kv key).tag ∧ (res.1 key).value = (kv key).value ∧
    (res.1 key).lock_expiry = (kv key).lock_expiry) ∧
  (∀ k, k ≠ key → res.1 k = kv k)

/-- The connection carries an `UNLOCK` of `key` by `cid`. -/
def unlocks (c : Conn) (key : Str) (cid : CInt) : Prop :=
  (extractString { buf := Network.recv_line c.sock } []).2 = "UNLOCK".toList ∧
  parse_lock (extractString { buf := Network.recv_line c.sock } []).1 c.u1 = (key, cid)

instance (c : Conn) (key : Str) (cid : CInt) : Decidable (unlocks c key cid) := by
  unfold unlocks; exact inferInstance

/-- The cell is free or records client `cid` as its holder. -/
def free_or (ks : KeyState) (cid : CInt) : Prop :=
  ks.locked_by = cid ∨ ks.locked_by = CInt.negOne

end BlockingServer

/-! ## Wire format -/

/-- A key that the framing transmits: not empty and without white space. -/
def wfKey (k : Str) : Prop := k ≠ [] ∧ ∀ c ∈ k, isspace c = false

instance (k : Str) : Decidable (wfKey k) := by unfold wfKey; exact inferInstance

/-- What the framing transmits of a value: the text before the first newline, without its
leading white space. -/
def wireValue (v : Str) : Str := (v.takeWhile (fun x => x != '\n')).dropWhile isspace

/-! ## Properties of the replica servers -/

theorem Tag.le_refl (a : Tag) : Tag.le a a := Or.inr rfl

theorem Tag.le_trans {a b c : Tag} (h1 : Tag.le a b) (h2 : Tag.le b c) : Tag.le a c := by
  unfold Tag.le Tag.lt at *
  rcases a with ⟨a1, a2⟩
  rcases b with ⟨b1, b2⟩
  rcases c with ⟨c1, c2⟩
  simp only [Prod.mk.injEq] at *
  omega

theorem Tag.lt_irrefl (a : Tag) : ¬ Tag.lt a a := by
  unfold Tag.lt
  omega

theorem Tag.not_lt_of_le {a b : Tag} (h : Tag.le a b) : ¬ Tag.lt b a := by
  unfold Tag.le Tag.lt at *
  rcases a with ⟨a1, a2⟩
  rcases b with ⟨b1, b2⟩
  simp only [Prod.mk.injEq] at *
  omega

theorem Tag.le_total (a b : Tag) : Tag.le a b ∨ Tag.lt b a := by
  unfold Tag.le Tag.lt
  rcases a with ⟨a1, a2⟩
  rcases b with ⟨b1, b2⟩
  simp only [Prod.mk.injEq]
  omega

/-- The `newer` test of the servers is the strict order on tags. -/
theorem newer_iff (ti tc l c : CInt) :
    (decide (ti.val > l.val) || (decide (ti.val = l.val) && decide (tc.val > c.val))) = true ↔
      Tag.lt (l.val, c.val) (ti.val, tc.val) := by
  unfold Tag.lt
  simp only [Bool.or_eq_true, Bool.and_eq_true, decide_eq_true_eq]
  omega

theorem abd_write_cell_tag_le (ks : KeyState) (ti tc : CInt) (val : Str) :
    Tag.le ks.tag (AbdServer.write_cell ks ti tc val).tag := by
  unfold AbdServer.write_cell
  simp only []
  split
  · next h => exact Or.inl ((newer_iff ti tc _ _).1 h)
  · exact Tag.le_refl _

theorem blk_expire_tag (ks : KeyState) (now : Int) :
    (BlockingServer.expire ks now).tag = ks.tag := by
  unfold BlockingServer.expire
  split <;> rfl

theorem blk_write_cell_tag_le (ks : KeyState) (ti tc : CInt) (val : Str)
    (now : Int) : Tag.le ks.tag (BlockingServer.write_cell ks ti tc val now).1.tag := by
  unfold BlockingServer.write_cell
  simp only []
  split
  · split
    · next h =>
      have := (newer_iff ti tc _ _).1 h
      exact Or.inl (by rw [← blk_expire_tag ks now]; exact this)
    · rw [blk_expire_tag]; exact Tag.le_refl _
  · rw [blk_expire_tag]; exact Tag.le_refl _

theorem blk_lock_cell_tag (ks : KeyState) (cid : CInt) (now now2 : Int) :
    (BlockingServer.lock_cell ks cid now now2).1.tag = ks.tag := by
  unfold BlockingServer.lock_cell
  simp only []
  split
  · exact blk_expire_tag ks now
  · exact blk_expire_tag ks now

theorem blk_unlock_cell_tag (ks : KeyState) (cid : CInt) (now : Int) :
    (BlockingServer.unlock_cell ks cid now).tag = ks.tag := by
  unfold BlockingServer.unlock_cell
  split <;> rfl

/-- A map updated at one key by a cell with a tag at least as large has tags at least as
large everywhere. -/
theorem update_tag_le (kv : Store) (k : Str) (ks : KeyState) (h : Tag.le (kv k).tag ks.tag)
    (key : Str) : Tag.le (kv key).tag ((Function.update kv k ks) key).tag := by
  by_cases hk : key = k
  · subst hk; simpa using h
  · rw [Function.update_noteq hk]; exact Tag.le_refl _

theorem abd_handle_client_tag_le (kv : Store) (sock : Str) (u1 u2 : CInt) (key : Str) :
    Tag.le (kv key).tag ((AbdServer.handle_client kv sock u1 u2).1 key).tag := by
  unfold AbdServer.handle_client
  simp only []
  split
  · exact Tag.le_refl _
  · split
    · exact Tag.le_refl _
    · split
      · exact update_tag_le kv _ _ (abd_write_cell_tag_le _ _ _ _) key
      · exact Tag.le_refl _

theorem blk_handle_client_tag_le (kv : Store) (sock : Str) (now now2 : Int)
    (u1 u2 : CInt) (key : Str) :
    Tag.le (kv key).tag ((BlockingServer.handle_client kv sock now now2 u1 u2).1 key).tag := by
  unfold BlockingServer.handle_client
  simp only []
  split
  · exact Tag.le_refl _
  · split
    · exact update_tag_le kv _ _ (by rw [blk_lock_cell_tag]; exact Tag.le_refl _) key
    · split
      · exact update_tag_le kv _ _
          (by rw [blk_unlock_cell_tag]; exact Tag.le_refl _) key
      · split
        · exact update_tag_le kv _ _
            (by rw [blk_expire_tag]; exact Tag.le_refl _) key
        · split
          · exact update_tag_le kv _ _ (blk_write_cell_tag_le _ _ _ _ _) key
          · exact Tag.le_refl _

theorem abd_run_tag_le (cs : List AbdServer.Conn) (kv : Store) (key : Str) :
    Tag.le (kv key).tag ((AbdServer.run kv cs) key).tag := by
  induction cs generalizing kv with
  | nil => exact Tag.le_refl _
  | cons c cs ih =>
    exact Tag.le_trans (abd_handle_client_tag_le kv c.sock c.u1 c.u2 key)
      (ih (AbdServer.serve kv c))

theorem blk_run_tag_le (cs : List BlockingServer.Conn) (kv : Store) (key : Str) :
    Tag.le (kv key).tag ((BlockingServer.run kv cs) key).tag := by
  induction cs generalizing kv with
  | nil => exact Tag.le_refl _
  | cons c cs ih =>
    exact Tag.le_trans
      (blk_handle_client_tag_le kv c.sock c.now c.now2 c.u1 c.u2 key)
      (ih (BlockingServer.serve kv c))

/-- C1. Tag monotonicity on both replica servers: whatever arrives on a connection (any
verb, any line, at any clock reading), the tag stored for a key after `handle_client` is at
least the tag stored before, in the lexicographic order; hence along every sequence of
connections the stored tag of each key is non-decreasing. -/
theorem tag_monotone :
    (∀ (kv : Store) (sock : Str) (u1 u2 : CInt) (key : Str),
      Tag.le (kv key).tag ((AbdServer.handle_client kv sock u1 u2).1 key).tag) ∧
    (∀ (kv : Store) (sock : Str) (now now2 : Int) (u1 u2 : CInt) (key : Str),
      Tag.le (kv key).tag ((BlockingServer.handle_client kv sock now now2 u1 u2).1 key).tag) ∧
    (∀ (kv : Store) (cs1 cs2 : List AbdServer.Conn) (key : Str),
      Tag.le ((AbdServer.run kv cs1) key).tag ((AbdServer.run kv (cs1 ++ cs2)) key).tag) ∧
    (∀ (kv : Store) (cs1 cs2 : List BlockingServer.Conn) (key : Str),
      Tag.le ((BlockingServer.run kv cs1) key).tag
        ((BlockingServer.run kv (cs1 ++ cs2)) key).tag) := by
  refine ⟨abd_handle_client_tag_le, blk_handle_client_tag_le, ?_, ?_⟩
  · intro kv cs1 cs2 key
    have h : AbdServer.run kv (cs1 ++ cs2) = AbdServer.run (AbdServer.run kv cs1) cs2 := by
      simp [AbdServer.run, List.foldl_append]
    rw [h]
    exact abd_run_tag_le cs2 _ key
  · intro kv cs1 cs2 key
    have h : BlockingServer.run kv (cs1 ++ cs2) =
        BlockingServer.run (BlockingServer.run kv cs1) cs2 := by
      simp [BlockingServer.run, List.foldl_append]
    rw [h]
    exact blk_run_tag_le cs2 _ key


/-! ## Properties of the wire format -/

theorem digitChar_spec : ∀ d, d < 10 →
    (Nat.digitChar d).isDigit = true ∧ (Nat.digitChar d).toNat - 48 = d := by
  decide

theorem digitsVal_snoc (ds : Str) (c : Char) :
    digitsVal (ds ++ [c]) = 10 * digitsVal ds + (c.toNat - 48) := by
  simp [digitsVal, List.foldl_append]

theorem toDigitsCore_spec (fuel : Nat) : ∀ (n : Nat) (acc : Str), n < fuel →
    ∃ ds : Str, Nat.toDigitsCore 10 fuel n acc = ds ++ acc ∧ ds ≠ [] ∧
      (∀ c ∈ ds, c.isDigit = true) ∧ digitsVal ds = n := by
  induction fuel with
  | zero => intro n acc h; omega
  | succ fuel ih =>
    intro n acc h
    have hd := digitChar_spec (n % 10) (Nat.mod_lt _ (by decide))
    unfold Nat.toDigitsCore
    simp only []
    split
    · next h0 =>
      refine ⟨[Nat.digitChar (n % 10)], rfl, by simp, ?_, ?_⟩
      · intro c hc
        simp only [List.mem_singleton] at hc
        rw [hc]; exact hd.1
      · have : digitsVal [Nat.digitChar (n % 10)] = (Nat.digitChar (n % 10)).toNat - 48 := by
          simp [digitsVal]
        rw [this, hd.2]
        omega
    · next h0 =>
      obtain ⟨ds, h1, h2, h3, h4⟩ := ih (n / 10) (Nat.digitChar (n % 10) :: acc) (by omega)
      refine ⟨ds ++ [Nat.digitChar (n % 10)], by rw [h1]; simp, by simp, ?_, ?_⟩
      · intro c hc
        rcases List.mem_append.1 hc with hc | hc
        · exact h3 c hc
        · simp only [List.mem_singleton] at hc
          rw [hc]; exact hd.1
      · rw [digitsVal_snoc, h4, hd.2]
        omega

theorem toDigits_spec (n : Nat) :
    Nat.toDigits 10 n ≠ [] ∧ (∀ c ∈ Nat.toDigits 10 n, c.isDigit = true) ∧
      digitsVal (Nat.toDigits 10 n) = n := by
  obtain ⟨ds, h1, h2, h3, h4⟩ := toDigitsCore_spec (n + 1) n [] (by omega)
  have : Nat.toDigits 10 n = ds := by simpa [Nat.toDigits] using h1
  rw [this]
  exact ⟨h2, h3, h4⟩

/-- A decimal digit is neither white space nor a sign. -/
theorem isDigit_facts (c : Char) (h : c.isDigit = true) :
    isspace c = false ∧ c ≠ '-' ∧ c ≠ '+' ∧ c ≠ '\n' := by
  refine ⟨?_, ?_, ?_, ?_⟩
  · simp only [isspace, Bool.or_eq_false_iff, beq_eq_false_iff_ne, ne_eq]
    refine ⟨⟨⟨⟨⟨?_, ?_⟩, ?_⟩, ?_⟩, ?_⟩, ?_⟩ <;>
    · intro hc
      rw [hc] at h
      exact absurd h (by decide)
  all_goals
    intro hc
    rw [hc] at h
    exact absurd h (by decide)

/-- Reading while `p` holds stops at the end of a block on which `p` holds, when what
follows does not start with a character satisfying `p`. -/
theorem takeWhile_block (p : Char → Bool) (xs rest : Str) (h : ∀ c ∈ xs, p c = true)
    (hr : ∀ c, rest.head? = some c → p c = false) :
    (xs ++ rest).takeWhile p = xs ∧ (xs ++ rest).dropWhile p = rest := by
  induction xs with
  | nil =>
    cases rest with
    | nil => simp
    | cons c r =>
      have := hr c rfl
      simp [List.takeWhile, List.dropWhile, this]
  | cons x xs ih =>
    have hx := h x (List.mem_cons_self _ _)
    have := ih (fun c hc => h c (List.mem_cons_of_mem _ hc))
    simp [List.takeWhile, List.dropWhile, hx, this.1, this.2]

/-- The text of an `int` is an optional minus sign followed by the digits of its absolute
value. -/
theorem showInt_spec (v : Int) :
    ∃ ds : Str, ds ≠ [] ∧ (∀ c ∈ ds, c.isDigit = true) ∧ digitsVal ds = v.natAbs ∧
      showInt v = if v < 0 then '-' :: ds else ds :=
  ⟨Nat.toDigits 10 v.natAbs, (toDigits_spec _).1, (toDigits_spec _).2.1, (toDigits_spec _).2.2,
    rfl⟩

/-- No newline in the text of an `int`. -/
theorem showInt_no_newline (v : Int) : ∀ c ∈ showInt v, c ≠ '\n' := by
  obtain ⟨ds, _, h2, _, h4⟩ := showInt_spec v
  intro c hc
  rw [h4] at hc
  split at hc
  · rcases List.mem_cons.1 hc with hc | hc
    · rw [hc]; decide
    · exact (isDigit_facts c (h2 c hc)).2.2.2
  · exact (isDigit_facts c (h2 c hc)).2.2.2

theorem clamp_val (v : CInt) : CInt.clamp v.val = v := by
  have h := v.property
  unfold CInt.clamp
  rw [dif_neg (by omega), dif_neg (by omega)]

/-- Extraction of an `int` skips one leading white space character. -/
theorem extractInt_skip (c : Char) (hc : isspace c = true) (buf : Str) (old : CInt) :
    extractInt { buf := c :: buf } old = extractInt { buf := buf } old := by
  simp [extractInt, List.dropWhile, hc]

/-- Extraction of a string skips one leading white space character. -/
theorem extractString_skip (c : Char) (hc : isspace c = true) (buf : Str) (old : Str) :
    extractString { buf := c :: buf } old = extractString { buf := buf } old := by
  simp [extractString, List.dropWhile, hc]

/-- Extraction reads back the `int` that was written, when what follows does not start with
a digit. -/
theorem extractInt_showInt (v : CInt) (rest : Str)
    (hr : ∀ c, rest.head? = some c → c.isDigit = false) (old : CInt) :
    extractInt { buf := showInt v.val ++ rest } old = ({ buf := rest }, v) := by
  obtain ⟨ds, h1, h2, h3, h4⟩ := showInt_spec v.val
  have hv := v.property
  have htd := takeWhile_block Char.isDigit ds rest h2 hr
  obtain ⟨d, ds1, hds⟩ := List.exists_cons_of_ne_nil h1
  have hd := isDigit_facts d (h2 d (by rw [hds]; exact List.mem_cons_self _ _))
  have hf : decide (v.val < -2147483648 ∨ 2147483647 < v.val) = false := by
    simp only [decide_eq_false_iff_not]; omega
  rw [h4]
  by_cases hneg : v.val < 0
  · rw [if_pos hneg]
    have hsp : isspace '-' = false := by decide
    have hval : -(digitsVal ds : Int) = v.val := by rw [h3]; omega
    have hdw : List.dropWhile isspace ('-' :: (ds ++ rest)) = '-' :: (ds ++ rest) := by
      rw [List.dropWhile_cons, hsp]; rfl
    show extractInt { buf := '-' :: (ds ++ rest) } old = _
    unfold extractInt
    simp only [Bool.false_eq_true, if_false, hdw]
    simp only [true_or, if_true, htd.1, htd.2, h1, if_false, hval, hf, clamp_val]
  · rw [if_neg hneg]
    have hval : (digitsVal ds : Int) = v.val := by rw [h3]; omega
    have hdw : List.dropWhile isspace (d :: (ds1 ++ rest)) = d :: (ds1 ++ rest) := by
      rw [List.dropWhile_cons, hd.1]; rfl
    have hb : (if d = '-' ∨ d = '+' then ds1 ++ rest else d :: (ds1 ++ rest)) = ds ++ rest := by
      rw [if_neg (by simp [hd.2.1, hd.2.2.1]), hds]; rfl
    have hbuf : ds ++ rest = d :: (ds1 ++ rest) := by rw [hds]; rfl
    rw [hbuf]
    unfold extractInt
    simp only [Bool.false_eq_true, if_false, hdw]
    rw [hb]
    simp only [htd.1, htd.2, h1, if_false, hd.2.1, hval, hf, clamp_val]

/-- Extraction reads back a well-formed token followed by a white space character. -/
theorem extractString_token (tok : Str) (htok : wfKey tok) (c : Char) (hc : isspace c = true)
    (rest : Str) (old : Str) :
    extractString { buf := tok ++ c :: rest } old = ({ buf := c :: rest }, tok) := by
  obtain ⟨t, ts, hts⟩ := List.exists_cons_of_ne_nil htok.1
  have hb := takeWhile_block (fun x => !isspace x) tok (c :: rest)
    (fun x hx => by simp [htok.2 x hx]) (fun x hx => by
      simp only [List.head?_cons, Option.some.injEq] at hx
      simp [← hx, hc])
  have ht : isspace t = false := htok.2 t (by rw [hts]; exact List.mem_cons_self _ _)
  have hd : (tok ++ c :: rest).dropWhile isspace = tok ++ c :: rest := by
    rw [hts]; simp [List.dropWhile, ht]
  unfold extractString
  simp only [Bool.false_eq_true, if_false, hd]
  rw [hts] at hb ⊢
  simp only [List.cons_append] at hb ⊢
  rw [hb.1, hb.2]

/-- Extraction reads back a well-formed token that ends the buffer. -/
theorem extractString_last (tok : Str) (htok : wfKey tok) (old : Str) :
    extractString { buf := tok } old = ({ buf := [] }, tok) := by
  obtain ⟨t, ts, hts⟩ := List.exists_cons_of_ne_nil htok.1
  have hb := takeWhile_block (fun x => !isspace x) tok []
    (fun x hx => by simp [htok.2 x hx]) (fun x hx => by simp at hx)
  have ht : isspace t = false := htok.2 t (by rw [hts]; exact List.mem_cons_self _ _)
  have hd : tok.dropWhile isspace = tok := by
    rw [hts]; simp [List.dropWhile, ht]
  unfold extractString
  simp only [Bool.false_eq_true, if_false, hd]
  rw [hts] at hb ⊢
  simp only [List.append_nil] at hb
  simp only [hb.1, hb.2]

/-- The line received when the sender wrote `pre`, without newline, then `value`, then a
newline. -/
theorem recv_line_framed (pre value : Str) (hpre : ∀ c ∈ pre, c ≠ '\n') :
    Network.recv_line (pre ++ value ++ "\n".toList) =
      pre ++ value.takeWhile (fun x => x != '\n') := by
  have hmem : '\n' ∈ pre ++ value ++ "\n".toList := by simp
  unfold Network.recv_line
  rw [if_pos hmem]
  clear hmem
  have hval : ∀ w : Str, List.takeWhile (fun x => x != '\n') (w ++ "\n".toList) =
      List.takeWhile (fun x => x != '\n') w := by
    intro w
    induction w with
    | nil => rfl
    | cons x xs ih =>
      rw [List.cons_append, List.takeWhile_cons, List.takeWhile_cons, ih]
  induction pre with
  | nil => simpa using hval value
  | cons x xs ih =>
    have hx : (x != '\n') = true := by simpa using hpre x (List.mem_cons_self _ _)
    have := ih (fun c hc => hpre c (List.mem_cons_of_mem _ hc))
    rw [List.cons_append, List.cons_append, List.takeWhile_cons, hx, this]
    rfl

/-- The value field read by `iss >> ws; getline(iss, val)` after a separating blank. -/
theorem getline_ws_value (w : Str) (hw : ∀ c ∈ w, c ≠ '\n') :
    (getline (ws { buf := ' ' :: w }) []).2 = w.dropWhile isspace := by
  have hsp : isspace ' ' = true := by decide
  have hall : ∀ c ∈ w.dropWhile isspace, (fun x => x != '\n') c = true := by
    intro c hc
    have := hw c ((List.dropWhile_sublist _).subset hc)
    simpa using this
  simp only [ws, Bool.false_eq_true, if_false, List.dropWhile, hsp, getline]
  split
  · next h => rw [h]
  · next c cs h =>
    rw [← h]
    have := takeWhile_block (fun x => x != '\n') (w.dropWhile isspace) [] hall (by simp)
    simpa using this.1

theorem wfKey_no_newline (key : Str) (hk : wfKey key) : ∀ c ∈ key, c ≠ '\n' := by
  intro c hc h
  have := hk.2 c hc
  rw [h] at this
  exact absurd this (by decide)

theorem head_blank_not_digit (rest : Str) :
    ∀ c, (' ' :: rest).head? = some c → c.isDigit = false := by
  intro c hc
  simp only [List.head?_cons, Option.some.injEq] at hc
  rw [← hc]; decide

/-- The line a replica receives for the write request of a client, and its verb. -/
theorem write_req_line_verb (key : Str) (hk : wfKey key) (ti tc : CInt) (value : Str) :
    Network.recv_line (ABD.write_req_line key ti tc value) ≠ [] ∧
    extractString { buf := Network.recv_line (ABD.write_req_line key ti tc value) } [] =
      ({ buf := ' ' :: (key ++ ' ' :: (showInt ti.val ++ ' ' :: (showInt tc.val ++
          ' ' :: value.takeWhile (fun x => x != '\n')))) }, "WRITE_REQ".toList) := by
  have hline : ABD.write_req_line key ti tc value =
      ("WRITE_REQ".toList ++ ' ' :: (key ++ ' ' :: (showInt ti.val ++ ' ' :: (showInt tc.val ++
        [' ']))) ) ++ value ++ "\n".toList := by
    simp [ABD.write_req_line, List.append_assoc]
  have hpre : ∀ c ∈ "WRITE_REQ".toList ++ ' ' :: (key ++ ' ' :: (showInt ti.val ++
      ' ' :: (showInt tc.val ++ [' ']))), c ≠ '\n' := by
    intro c hc
    simp only [List.mem_append, List.mem_cons, List.mem_singleton] at hc
    rcases hc with hc | hc | hc | hc | hc | hc | hc | hc
    · revert c; decide
    · rw [hc]; decide
    · exact wfKey_no_newline key hk c hc
    · rw [hc]; decide
    · exact showInt_no_newline _ c hc
    · rw [hc]; decide
    · exact showInt_no_newline _ c hc
    · simp only [List.not_mem_nil, or_false] at hc
      rw [hc]; decide
  rw [hline, recv_line_framed _ _ hpre]
  constructor
  · simp
  · have := extractString_token "WRITE_REQ".toList (by decide) ' ' (by decide)
      (key ++ ' ' :: (showInt ti.val ++ ' ' :: (showInt tc.val ++
          ' ' :: value.takeWhile (fun x => x != '\n')))) []
    rw [← this]
    simp [List.append_assoc]

/-- The fields a replica reads from the write request of a client. -/
theorem parse_write_line (key : Str) (hk : wfKey key) (ti tc : CInt) (value : Str)
    (u1 u2 : CInt) :
    AbdServer.parse_write { buf := ' ' :: (key ++ ' ' :: (showInt ti.val ++
      ' ' :: (showInt tc.val ++ ' ' :: value.takeWhile (fun x => x != '\n')))) } u1 u2 =
      (key, ti, tc, wireValue value) := by
  have hsp : isspace ' ' = true := by decide
  have hnl : ∀ c ∈ value.takeWhile (fun x => x != '\n'), c ≠ '\n' := by
    intro c hc
    have := List.mem_takeWhile_imp hc
    simpa using this
  unfold AbdServer.parse_write
  simp only []
  rw [extractString_skip ' ' hsp, extractString_token key hk ' ' hsp]
  simp only []
  rw [extractInt_skip ' ' hsp, extractInt_showInt ti _ (head_blank_not_digit _)]
  simp only []
  rw [extractInt_skip ' ' hsp, extractInt_showInt tc _ (head_blank_not_digit _)]
  simp only []
  rw [getline_ws_value _ hnl]
  rfl

/-- The ABD replica on the write request of a client. -/
theorem abd_handle_write_line (kv : Store) (key : Str) (hk : wfKey key) (ti tc : CInt)
    (value : Str) (u1 u2 : CInt) :
    AbdServer.handle_client kv (ABD.write_req_line key ti tc value) u1 u2 =
      (Function.update kv key (AbdServer.write_cell (kv key) ti tc (wireValue value)),
        some "ACK\n".toList) := by
  obtain ⟨h1, h2⟩ := write_req_line_verb key hk ti tc value
  unfold AbdServer.handle_client
  simp only []
  rw [if_neg h1, h2]
  simp only []
  rw [if_neg (by decide), parse_write_line key hk]
  simp

/-- The ABD replica on the read request of a client. -/
theorem abd_handle_read_line (kv : Store) (key : Str) (hk : wfKey key) (u1 u2 : CInt) :
    AbdServer.handle_client kv (ABD.read_req_line key) u1 u2 =
      (kv, some (AbdServer.read_resp (kv key))) := by
  have hsp : isspace ' ' = true := by decide
  have hline : ABD.read_req_line key = "READ_REQ ".toList ++ key ++ "\n".toList := rfl
  have hpre : ∀ c ∈ "READ_REQ ".toList, c ≠ '\n' := by decide
  have hkey : key.takeWhile (fun x => x != '\n') = key := by
    have := takeWhile_block (fun x => x != '\n') key []
      (fun c hc => by simpa using wfKey_no_newline key hk c hc) (by simp)
    simpa using this.1
  have hmsg : Network.recv_line (ABD.read_req_line key) = "READ_REQ".toList ++ ' ' :: key := by
    rw [hline, recv_line_framed _ _ hpre, hkey]
    simp
  unfold AbdServer.handle_client
  simp only []
  rw [hmsg, if_neg (by simp), extractString_token "READ_REQ".toList (by decide) ' ' hsp]
  simp only []
  rw [extractString_skip ' ' hsp, extractString_last key hk]
  simp

/-- What a client reads from the reply of a replica to a read request. -/
theorem read_resp_parse (ks : KeyState) :
    extractString { buf := Network.recv_line (AbdServer.read_resp ks) } [] =
      ({ buf := ' ' :: (showInt ks.tag_lamport.val ++ ' ' :: (showInt ks.tag_cid.val ++
          ' ' :: ks.value.takeWhile (fun x => x != '\n'))) }, "READ_RESP".toList) ∧
    extractInt { buf := ' ' :: (showInt ks.tag_lamport.val ++ ' ' :: (showInt ks.tag_cid.val ++
          ' ' :: ks.value.takeWhile (fun x => x != '\n'))) } CInt.zero =
      ({ buf := ' ' :: (showInt ks.tag_cid.val ++
          ' ' :: ks.value.takeWhile (fun x => x != '\n')) }, ks.tag_lamport) ∧
    extractInt { buf := ' ' :: (showInt ks.tag_cid.val ++
          ' ' :: ks.value.takeWhile (fun x => x != '\n')) } CInt.zero =
      ({ buf := ' ' :: ks.value.takeWhile (fun x => x != '\n') }, ks.tag_cid) ∧
    (getline (ws { buf := ' ' :: ks.value.takeWhile (fun x => x != '\n') }) []).2 =
      wireValue ks.value := by
  have hsp : isspace ' ' = true := by decide
  have hline : AbdServer.read_resp ks =
      ("READ_RESP".toList ++ ' ' :: (showInt ks.tag_lamport.val ++ ' ' ::
        (showInt ks.tag_cid.val ++ [' ']))) ++ ks.value ++ "\n".toList := by
    simp [AbdServer.read_resp, List.append_assoc]
  have hpre : ∀ c ∈ "READ_RESP".toList ++ ' ' :: (showInt ks.tag_lamport.val ++ ' ' ::
        (showInt ks.tag_cid.val ++ [' '])), c ≠ '\n' := by
    intro c hc
    simp only [List.mem_append, List.mem_cons, List.mem_singleton] at hc
    rcases hc with hc | hc | hc | hc | hc | hc
    · revert c; decide
    · rw [hc]; decide
    · exact showInt_no_newline _ c hc
    · rw [hc]; decide
    · exact showInt_no_newline _ c hc
    · simp only [List.not_mem_nil, or_false] at hc
      rw [hc]; decide
  have hnl : ∀ c ∈ ks.value.takeWhile (fun x => x != '\n'), c ≠ '\n' := by
    intro c hc
    have := List.mem_takeWhile_imp hc
    simpa using this
  refine ⟨?_, ?_, ?_, ?_⟩
  · rw [hline, recv_line_framed _ _ hpre]
    have := extractString_token "READ_RESP".toList (by decide) ' ' hsp
      (showInt ks.tag_lamport.val ++ ' ' :: (showInt ks.tag_cid.val ++
          ' ' :: ks.value.takeWhile (fun x => x != '\n'))) []
    rw [← this]
    simp [List.append_assoc]
  · rw [extractInt_skip ' ' hsp, extractInt_showInt _ _ (head_blank_not_digit _)]
  · rw [extractInt_skip ' ' hsp, extractInt_showInt _ _ (head_blank_not_digit _)]
  · rw [getline_ws_value _ hnl]; rfl

/-! ## The write request of the ABD replica -/

/-- A line with a verb is not empty. -/
theorem msg_ne_nil_of_verb (msg verb : Str) (hv : verb ≠ [])
    (h : (extractString { buf := msg } []).2 = verb) : msg ≠ [] := by
  intro hm
  rw [hm] at h
  exact hv (by rw [← h]; rfl)

/-- The ABD replica on any line whose verb is `WRITE_REQ`. -/
theorem abd_handle_write (kv : Store) (sock : Str) (u1 u2 : CInt)
    (h : (extractString { buf := Network.recv_line sock } []).2 = "WRITE_REQ".toList) :
    AbdServer.handle_client kv sock u1 u2 =
      (Function.update kv
        (AbdServer.parse_write (extractString { buf := Network.recv_line sock } []).1 u1 u2).1
        (AbdServer.write_cell
          (kv (AbdServer.parse_write
            (extractString { buf := Network.recv_line sock } []).1 u1 u2).1)
          (AbdServer.parse_write
            (extractString { buf := Network.recv_line sock } []).1 u1 u2).2.1
          (AbdServer.parse_write
            (extractString { buf := Network.recv_line sock } []).1 u1 u2).2.2.1
          (AbdServer.parse_write
            (extractString { buf := Network.recv_line sock } []).1 u1 u2).2.2.2),
        some "ACK\n".toList) := by
  have hm := msg_ne_nil_of_verb _ _ (by decide) h
  unfold AbdServer.handle_client
  simp only []
  rw [if_neg hm, h, if_neg (by decide), if_pos rfl]

/-- The compare-and-assign of the ABD replica, in terms of the order on tags. -/
theorem abd_write_cell_eq (ks : KeyState) (ti tc : CInt) (val : Str) :
    (Tag.lt ks.tag (ti.val, tc.val) →
      AbdServer.write_cell ks ti tc val =
        { ks with tag_lamport := ti, tag_cid := tc, value := val }) ∧
    (¬ Tag.lt ks.tag (ti.val, tc.val) → AbdServer.write_cell ks ti tc val = ks) := by
  unfold AbdServer.write_cell
  simp only []
  constructor
  · intro h
    rw [if_pos ((newer_iff ti tc _ _).2 h)]
  · intro h
    rw [if_neg (fun hn => h ((newer_iff ti tc _ _).1 hn))]

/-- C2. The write request of the ABD replica. For every state of the map and every line
whose verb is `WRITE_REQ`, with the fields `key`, `lamport`, `cid`, `value` the handler
reads from it: the reply is `ACK`; when `(lamport, cid)` is strictly greater than the tag
of the cell of `key`, the cell takes the tag `(lamport, cid)` and the value `value`;
otherwise the cell is exactly what it was; no other cell changes. The second part states
the same for the line `WRITE_REQ key lamport cid value` as a client writes it, whose value
field is the value up to the framing. -/
theorem abd_write_req :
    (∀ (kv : Store) (sock : Str) (u1 u2 : CInt),
      (extractString { buf := Network.recv_line sock } []).2 = "WRITE_REQ".toList →
      ∃ (key : Str) (ti tc : CInt) (val : Str),
        AbdServer.parse_write (extractString { buf := Network.recv_line sock } []).1 u1 u2 =
          (key, ti, tc, val) ∧
        (AbdServer.handle_client kv sock u1 u2).2 = some "ACK\n".toList ∧
        (Tag.lt (kv key).tag (ti.val, tc.val) →
          (AbdServer.handle_client kv sock u1 u2).1 key =
            { kv key with tag_lamport := ti, tag_cid := tc, value := val }) ∧
        (¬ Tag.lt (kv key).tag (ti.val, tc.val) →
          (AbdServer.handle_client kv sock u1 u2).1 key = kv key) ∧
        (∀ k, k ≠ key → (AbdServer.handle_client kv sock u1 u2).1 k = kv k)) ∧
    (∀ (kv : Store) (key : Str) (ti tc : CInt) (value : Str) (u1 u2 : CInt), wfKey key →
        (AbdServer.handle_client kv (ABD.write_req_line key ti tc value) u1 u2).2 =
          some "ACK\n".toList ∧
        (Tag.lt (kv key).tag (ti.val, tc.val) →
          (AbdServer.handle_client kv (ABD.write_req_line key ti tc value) u1 u2).1 key =
            { kv key with tag_lamport := ti, tag_cid := tc, value := wireValue value }) ∧
        (¬ Tag.lt (kv key).tag (ti.val, tc.val) →
          (AbdServer.handle_client kv (ABD.write_req_line key ti tc value) u1 u2).1 key =
            kv key) ∧
        (∀ k, k ≠ key →
          (AbdServer.handle_client kv (ABD.write_req_line key ti tc value) u1 u2).1 k =
            kv k)) := by
  constructor
  · intro kv sock u1 u2 h
    rw [abd_handle_write kv sock u1 u2 h]
    generalize AbdServer.parse_write
      (extractString { buf := Network.recv_line sock } []).1 u1 u2 = p
    obtain ⟨key, ti, tc, val⟩ := p
    refine ⟨key, ti, tc, val, rfl, rfl, ?_, ?_, ?_⟩
    · intro hlt
      simp only [Function.update_same]
      exact (abd_write_cell_eq _ _ _ _).1 hlt
    · intro hlt
      simp only [Function.update_same]
      exact (abd_write_cell_eq _ _ _ _).2 hlt
    · intro k hk
      exact Function.update_noteq hk _ _
  · intro kv key ti tc value u1 u2 hk
    rw [abd_handle_write_line kv key hk]
    refine ⟨rfl, ?_, ?_, ?_⟩
    · intro hlt
      simp only [Function.update_same]
      exact (abd_write_cell_eq _ _ _ _).1 hlt
    · intro hlt
      simp only [Function.update_same]
      exact (abd_write_cell_eq _ _ _ _).2 hlt
    · intro k hk
      exact Function.update_noteq hk _ _

/-- C2, on the empty map: the line `WRITE_REQ k 5 7   a b` is acknowledged and installs
`(5, 7, "a b")`, a second write with the smaller tag `(5, 6)` leaves the cell as it is. -/
theorem abd_write_req_witness :
    (∃ (key : Str) (ti tc : CInt) (val : Str),
      AbdServer.parse_write
        (extractString { buf := Network.recv_line "WRITE_REQ k 5 7   a b\n".toList } []).1
          CInt.zero CInt.zero = (key, ti, tc, val) ∧
      (AbdServer.handle_client Store.empty "WRITE_REQ k 5 7   a b\n".toList
        CInt.zero CInt.zero).2 = some "ACK\n".toList) ∧
    (AbdServer.handle_client Store.empty
        (ABD.write_req_line "k".toList ⟨5, by decide⟩ ⟨7, by decide⟩ "  a b".toList)
        CInt.zero CInt.zero).1 "k".toList =
      { tag_lamport := ⟨5, by decide⟩, tag_cid := ⟨7, by decide⟩, value := "a b".toList } ∧
    (AbdServer.handle_client
        (fun _ => { tag_lamport := ⟨5, by decide⟩, tag_cid := ⟨7, by decide⟩,
                    value := "a b".toList })
        (ABD.write_req_line "k".toList ⟨5, by decide⟩ ⟨6, by decide⟩ "c".toList)
        CInt.zero CInt.zero).1 "k".toList =
      { tag_lamport := ⟨5, by decide⟩, tag_cid := ⟨7, by decide⟩, value := "a b".toList } := by
  refine ⟨?_, ?_, ?_⟩
  · obtain ⟨key, ti, tc, val, h1, h2, _⟩ :=
      abd_write_req.1 Store.empty "WRITE_REQ k 5 7   a b\n".toList CInt.zero CInt.zero
        (by decide)
    exact ⟨key, ti, tc, val, h1, h2⟩
  · exact (abd_write_req.2 Store.empty "k".toList ⟨5, by decide⟩ ⟨7, by decide⟩
      "  a b".toList CInt.zero CInt.zero (by decide)).2.1 (by decide)
  · exact (abd_write_req.2
      (fun _ => { tag_lamport := ⟨5, by decide⟩, tag_cid := ⟨7, by decide⟩,
                  value := "a b".toList })
      "k".toList ⟨5, by decide⟩ ⟨6, by decide⟩
      "c".toList CInt.zero CInt.zero (by decide)).2.2.1 (by decide)

/-! ## The requests of the Blocking replica -/

/-- The Blocking replica on any line whose verb is `WRITE_REQ`. -/
theorem blk_handle_write (kv : Store) (sock : Str) (now now2 : Int) (u1 u2 : CInt)
    (h : (extractString { buf := Network.recv_line sock } []).2 = "WRITE_REQ".toList)
    (key : Str) (ti tc : CInt) (val : Str)
    (hp : AbdServer.parse_write (extractString { buf := Network.recv_line sock } []).1 u1 u2 =
      (key, ti, tc, val)) :
    BlockingServer.handle_client kv sock now now2 u1 u2 =
      (Function.update kv key (BlockingServer.write_cell (kv key) ti tc val now).1,
        some (if (BlockingServer.write_cell (kv key) ti tc val now).2 = true
          then "ACK\n".toList else "WRITE_DENIED\n".toList)) := by
  have hm := msg_ne_nil_of_verb _ _ (by decide) h
  unfold BlockingServer.handle_client
  simp only []
  rw [if_neg hm, h, if_neg (by decide), if_neg (by decide), if_neg (by decide), if_pos rfl, hp]

/-- The Blocking replica on any line whose verb is `LOCK_REQ`. -/
theorem blk_handle_lock (kv : Store) (sock : Str) (now now2 : Int) (u1 u2 : CInt)
    (h : (extractString { buf := Network.recv_line sock } []).2 = "LOCK_REQ".toList)
    (key : Str) (cid : CInt)
    (hp : BlockingServer.parse_lock (extractString { buf := Network.recv_line sock } []).1 u1 =
      (key, cid)) :
    BlockingServer.handle_client kv sock now now2 u1 u2 =
      (Function.update kv key (BlockingServer.lock_cell (kv key) cid now now2).1,
        some (if (BlockingServer.lock_cell (kv key) cid now now2).2 = true
          then "LOCK_GRANTED\n".toList else "LOCK_DENIED\n".toList)) := by
  have hm := msg_ne_nil_of_verb _ _ (by decide) h
  unfold BlockingServer.handle_client
  simp only []
  rw [if_neg hm, h, if_pos rfl, hp]

/-- The Blocking replica on any line whose verb is `UNLOCK`. -/
theorem blk_handle_unlock (kv : Store) (sock : Str) (now now2 : Int) (u1 u2 : CInt)
    (h : (extractString { buf := Network.recv_line sock } []).2 = "UNLOCK".toList)
    (key : Str) (cid : CInt)
    (hp : BlockingServer.parse_lock (extractString { buf := Network.recv_line sock } []).1 u1 =
      (key, cid)) :
    BlockingServer.handle_client kv sock now now2 u1 u2 =
      (Function.update kv key (BlockingServer.unlock_cell (kv key) cid now),
        some "ACK\n".toList) := by
  have hm := msg_ne_nil_of_verb _ _ (by decide) h
  unfold BlockingServer.handle_client
  simp only []
  rw [if_neg hm, h, if_neg (by decide), if_pos rfl, hp]

/-- The line a replica receives for a lock or unlock request of a client, its verb and its
fields. -/
theorem lock_line_parse (verb : Str) (hverb : wfKey verb) (key : Str) (hk : wfKey key)
    (cid : CInt) (u : CInt) :
    Network.recv_line (verb ++ " ".toList ++ key ++ " ".toList ++ showInt cid.val ++
      "\n".toList) ≠ [] ∧
    (extractString { buf := Network.recv_line (verb ++ " ".toList ++ key ++ " ".toList ++
      showInt cid.val ++ "\n".toList) } []).2 = verb ∧
    BlockingServer.parse_lock (extractString { buf := Network.recv_line (verb ++ " ".toList ++
      key ++ " ".toList ++ showInt cid.val ++ "\n".toList) } []).1 u = (key, cid) := by
  have hsp : isspace ' ' = true := by decide
  have hline : verb ++ " ".toList ++ key ++ " ".toList ++ showInt cid.val ++ "\n".toList =
      (verb ++ ' ' :: (key ++ ' ' :: showInt cid.val)) ++ [] ++ "\n".toList := by
    simp [List.append_assoc]
  have hpre : ∀ c ∈ verb ++ ' ' :: (key ++ ' ' :: showInt cid.val), c ≠ '\n' := by
    intro c hc
    simp only [List.mem_append, List.mem_cons] at hc
    rcases hc with hc | hc | hc | hc | hc
    · exact wfKey_no_newline verb hverb c hc
    · rw [hc]; decide
    · exact wfKey_no_newline key hk c hc
    · rw [hc]; decide
    · exact showInt_no_newline _ c hc
  rw [hline, recv_line_framed _ _ hpre]
  simp only [List.takeWhile_nil, List.append_nil]
  rw [extractString_token verb hverb ' ' hsp]
  refine ⟨?_, rfl, ?_⟩
  · have := hverb.1
    simp [this]
  · unfold BlockingServer.parse_lock
    simp only []
    rw [extractString_skip ' ' hsp, extractString_token key hk ' ' hsp]
    simp only []
    have := extractInt_showInt cid [] (by simp) u
    rw [List.append_nil] at this
    rw [extractInt_skip ' ' hsp, this]

/-- The Blocking replica on the lock request of a client. -/
theorem blk_handle_lock_line (kv : Store) (key : Str) (hk : wfKey key) (cid : CInt)
    (now now2 : Int) (u1 u2 : CInt) :
    BlockingServer.handle_client kv (Blocking.lock_req_line key cid) now now2 u1 u2 =
      (Function.update kv key (BlockingServer.lock_cell (kv key) cid now now2).1,
        some (if (BlockingServer.lock_cell (kv key) cid now now2).2 = true
          then "LOCK_GRANTED\n".toList else "LOCK_DENIED\n".toList)) := by
  have h := lock_line_parse "LOCK_REQ".toList (by decide) key hk cid u1
  have hl : Blocking.lock_req_line key cid =
      "LOCK_REQ".toList ++ " ".toList ++ key ++ " ".toList ++ showInt cid.val ++ "\n".toList := by
    simp [Blocking.lock_req_line]
  rw [hl]
  exact blk_handle_lock kv _ now now2 u1 u2 h.2.1 key cid h.2.2

/-- The Blocking replica on the unlock request of a client. -/
theorem blk_handle_unlock_line (kv : Store) (key : Str) (hk : wfKey key) (cid : CInt)
    (now now2 : Int) (u1 u2 : CInt) :
    BlockingServer.handle_client kv (Blocking.unlock_line key cid) now now2 u1 u2 =
      (Function.update kv key (BlockingServer.unlock_cell (kv key) cid now),
        some "ACK\n".toList) := by
  have h := lock_line_parse "UNLOCK".toList (by decide) key hk cid u1
  have hl : Blocking.unlock_line key cid =
      "UNLOCK".toList ++ " ".toList ++ key ++ " ".toList ++ showInt cid.val ++ "\n".toList := by
    simp [Blocking.unlock_line]
  rw [hl]
  exact blk_handle_unlock kv _ now now2 u1 u2 h.2.1 key cid h.2.2

/-- The Blocking replica on the write request of a client. -/
theorem blk_handle_write_line (kv : Store) (key : Str) (hk : wfKey key) (ti tc : CInt)
    (value : Str) (now now2 : Int) (u1 u2 : CInt) :
    BlockingServer.handle_client kv (Blocking.write_req_line key ti tc value) now now2 u1 u2 =
      (Function.update kv key
        (BlockingServer.write_cell (kv key) ti tc (wireValue value) now).1,
        some (if (BlockingServer.write_cell (kv key) ti tc (wireValue value) now).2 = true
          then "ACK\n".toList else "WRITE_DENIED\n".toList)) := by
  obtain ⟨_, h2⟩ := write_req_line_verb key hk ti tc value
  have hl : Blocking.write_req_line key ti tc value = ABD.write_req_line key ti tc value := rfl
  rw [hl]
  refine blk_handle_write kv _ now now2 u1 u2 (by rw [h2]) key ti tc _ ?_
  rw [h2]
  exact parse_write_line key hk ti tc value u1 u2

/-- The critical section of a write on a cell of the Blocking replica, for a client id
other than `-1`. -/
theorem blk_write_cell_spec (ks : KeyState) (ti tc : CInt) (val : Str) (now : Int)
    (hc : tc ≠ CInt.negOne) :
    ((BlockingServer.write_cell ks ti tc val now).2 = true ↔
      (ks.locked_by ≠ CInt.negOne ∧ ks.locked_by = tc ∧ ¬ now > ks.lock_expiry)) ∧
    ((BlockingServer.write_cell ks ti tc val now).2 = false →
      (BlockingServer.write_cell ks ti tc val now).1.tag = ks.tag ∧
      (BlockingServer.write_cell ks ti tc val now).1.value = ks.value) := by
  have hne : ¬ CInt.negOne = tc := fun h => hc h.symm
  unfold BlockingServer.write_cell BlockingServer.expire BlockingServer.lock_expired
  by_cases h1 : ks.locked_by = CInt.negOne
  · have h2 : ¬ ks.locked_by = tc := fun h => hc (by rw [← h, h1])
    simp [h1, h2, hne]
  · by_cases h3 : now > ks.lock_expiry
    · simp [h1, h3, hne, KeyState.tag]
    · by_cases h2 : ks.locked_by = tc
      · simp [h1, h3, h2]
        rw [← h2]; exact h1
      · simp [h1, h3, h2]

theorem blk_write_gated (kv : Store) (key : Str) (ti tc : CInt) (val : Str) (now : Int)
    (hc : tc ≠ CInt.negOne) :
    BlockingServer.WriteGated kv key tc now
      (Function.update kv key (BlockingServer.write_cell (kv key) ti tc val now).1,
        some (if (BlockingServer.write_cell (kv key) ti tc val now).2 = true
          then "ACK\n".toList else "WRITE_DENIED\n".toList)) := by
  have h := blk_write_cell_spec (kv key) ti tc val now hc
  unfold BlockingServer.WriteGated BlockingServer.holds
  simp only [Function.update_same]
  constructor
  · rw [← h.1]
    by_cases hw : (BlockingServer.write_cell (kv key) ti tc val now).2 = true
    · simp [hw]
    · simp [hw]
  · intro hn
    have hw : (BlockingServer.write_cell (kv key) ti tc val now).2 = false := by
      rw [← h.1] at hn
      simpa using hn
    refine ⟨by simp [hw], h.2 hw⟩

/-- C3, as the code has it: a `WRITE_REQ` whose client id is not `-1`, the value that
marks a free cell, is answered `ACK` exactly when the cell of the key has a holder, the
holder is that client id and the lease has not expired at the moment of the request;
otherwise it is answered `WRITE_DENIED` and the tag and value of the cell are unchanged.
Stated for every line whose verb is `WRITE_REQ`, with the fields the handler reads, and
for the line a client writes. -/
theorem blocking_write_req :
    (∀ (kv : Store) (sock : Str) (now now2 : Int) (u1 u2 : CInt),
      (extractString { buf := Network.recv_line sock } []).2 = "WRITE_REQ".toList →
      ∃ (key : Str) (ti tc : CInt) (val : Str),
        AbdServer.parse_write (extractString { buf := Network.recv_line sock } []).1 u1 u2 =
          (key, ti, tc, val) ∧
        (tc ≠ CInt.negOne →
          BlockingServer.WriteGated kv key tc now
            (BlockingServer.handle_client kv sock now now2 u1 u2))) ∧
    (∀ (kv : Store) (key : Str) (ti tc : CInt) (value : Str) (now now2 : Int) (u1 u2 : CInt),
      wfKey key → tc ≠ CInt.negOne →
        BlockingServer.WriteGated kv key tc now
          (BlockingServer.handle_client kv (Blocking.write_req_line key ti tc value)
            now now2 u1 u2)) := by
  constructor
  · intro kv sock now now2 u1 u2 h
    obtain ⟨key, ti, tc, val, hp⟩ :
        ∃ key ti tc val, AbdServer.parse_write
          (extractString { buf := Network.recv_line sock } []).1 u1 u2 = (key, ti, tc, val) :=
      ⟨_, _, _, _, rfl⟩
    refine ⟨key, ti, tc, val, hp, fun hc => ?_⟩
    rw [blk_handle_write kv sock now now2 u1 u2 h key ti tc val hp]
    exact blk_write_gated kv key ti tc val now hc
  · intro kv key ti tc value now now2 u1 u2 hk hc
    rw [blk_handle_write_line kv key hk]
    exact blk_write_gated kv key ti tc (wireValue value) now hc

/-- C3, counterexample: on a fresh replica, where nobody holds the cell of `k`, the line
`WRITE_REQ k 1 -1 v` is answered `ACK` and installs the tag `(1, -1)` and the value `v`. -/
theorem blocking_write_free_cell_acked :
    (Store.empty "k".toList).locked_by = CInt.negOne ∧
    (BlockingServer.handle_client Store.empty "WRITE_REQ k 1 -1 v\n".toList 0 0
      CInt.zero CInt.zero).2 = some "ACK\n".toList ∧
    ((BlockingServer.handle_client Store.empty "WRITE_REQ k 1 -1 v\n".toList 0 0
      CInt.zero CInt.zero).1 "k".toList).tag = (1, -1) ∧
    ((BlockingServer.handle_client Store.empty "WRITE_REQ k 1 -1 v\n".toList 0 0
      CInt.zero CInt.zero).1 "k".toList).value = "v".toList := by
  decide

/-- C3, on concrete requests: the write of client 7 to a free cell is denied and changes
nothing; after client 7 has taken the lock at time 0 its write at time 1 is
acknowledged. -/
theorem blocking_write_req_witness :
    BlockingServer.WriteGated Store.empty "k".toList ⟨7, by decide⟩ 0
      (BlockingServer.handle_client Store.empty "WRITE_REQ k 1 7 v\n".toList 0 0
        CInt.zero CInt.zero) ∧
    BlockingServer.WriteGated
      (BlockingServer.handle_client Store.empty "LOCK_REQ k 7\n".toList 0 0
        CInt.zero CInt.zero).1 "k".toList ⟨7, by decide⟩ 1
      (BlockingServer.handle_client
        (BlockingServer.handle_client Store.empty "LOCK_REQ k 7\n".toList 0 0
          CInt.zero CInt.zero).1
        (Blocking.write_req_line "k".toList ⟨1, by decide⟩ ⟨7, by decide⟩ "v".toList)
        1 1 CInt.zero CInt.zero) := by
  constructor
  · obtain ⟨key, ti, tc, val, hp, h⟩ :=
      blocking_write_req.1 Store.empty "WRITE_REQ k 1 7 v\n".toList 0 0 CInt.zero CInt.zero
        (by decide)
    have hp2 : AbdServer.parse_write
        (extractString { buf := Network.recv_line "WRITE_REQ k 1 7 v\n".toList } []).1
        CInt.zero CInt.zero = ("k".toList, ⟨1, by decide⟩, ⟨7, by decide⟩, "v".toList) := by
      decide
    rw [hp2] at hp
    simp only [Prod.mk.injEq] at hp
    obtain ⟨hk, _, htc, _⟩ := hp
    subst hk
    subst htc
    exact h (by decide)
  · exact blocking_write_req.2 _ "k".toList ⟨1, by decide⟩ ⟨7, by decide⟩ "v".toList 1 1
      CInt.zero CInt.zero (by decide) (by decide)

theorem blk_expire_cleared (ks : KeyState) (now : Int) :
    (BlockingServer.expire ks now).locked_by = CInt.negOne ↔
      (ks.locked_by = CInt.negOne ∨ now > ks.lock_expiry) := by
  unfold BlockingServer.expire BlockingServer.lock_expired
  by_cases h1 : ks.locked_by = CInt.negOne
  · simp [h1]
  · by_cases h3 : now > ks.lock_expiry
    · simp [h1, h3]
    · simp [h1, h3]

theorem blk_expire_kept (ks : KeyState) (now : Int)
    (h : (BlockingServer.expire ks now).locked_by ≠ CInt.negOne) :
    BlockingServer.expire ks now = ks := by
  unfold BlockingServer.expire at h ⊢
  split
  · next hx => rw [if_pos hx] at h; exact absurd rfl h
  · rfl

theorem blk_lock_req_spec (kv : Store) (key : Str) (cid : CInt) (now now2 : Int) :
    BlockingServer.LockReqSpec kv key cid now now2
      (Function.update kv key (BlockingServer.lock_cell (kv key) cid now now2).1,
        some (if (BlockingServer.lock_cell (kv key) cid now now2).2 = true
          then "LOCK_GRANTED\n".toList else "LOCK_DENIED\n".toList)) := by
  have hexp := blk_expire_cleared (kv key) now
  unfold BlockingServer.LockReqSpec
  simp only [Function.update_same]
  by_cases hfree : (BlockingServer.expire (kv key) now).locked_by = CInt.negOne
  · have hcell : BlockingServer.lock_cell (kv key) cid now now2 =
        ({ BlockingServer.expire (kv key) now with
            locked_by := cid, lock_expiry := now2 + seconds LOCK_LEASE_SEC }, true) := by
      unfold BlockingServer.lock_cell
      simp only []
      rw [if_pos hfree]
    rw [hcell]
    refine ⟨hexp, by simp [hfree], fun _ => ⟨rfl, by simp [seconds, LOCK_LEASE_SEC]⟩,
      fun h => absurd (by simp) h, fun _ _ => by simp, ?_, fun k hk => Function.update_noteq hk _ _⟩
    have := blk_expire_tag (kv key) now
    constructor
    · simpa [KeyState.tag] using this
    · unfold BlockingServer.expire
      split <;> rfl
  · have hcell : BlockingServer.lock_cell (kv key) cid now now2 =
        (BlockingServer.expire (kv key) now, false) := by
      unfold BlockingServer.lock_cell
      simp only []
      rw [if_neg hfree]
    have hkeep := blk_expire_kept (kv key) now hfree
    rw [hcell, hkeep]
    rw [hkeep] at hfree hexp
    have hden : ¬ ("LOCK_DENIED\n".toList = "LOCK_GRANTED\n".toList) := by decide
    refine ⟨hexp, by simp [hfree, hden], fun h => absurd h (by simp [hden]),
      fun _ => ⟨by simp, rfl⟩, fun h1 h2 => ?_, ⟨rfl, rfl⟩,
      fun k hk => Function.update_noteq hk _ _⟩
    exact absurd (hexp.2 (Or.inr h2)) hfree

/-- C4. The lock request of the Blocking replica. For every state of the map, every clock
reading and every `LOCK_REQ` (any line with that verb, with the fields the handler reads
from it, and the line a client writes, for any client id): a holder whose lease has
expired is cleared first; the reply is `LOCK_GRANTED` exactly when the cell then has no
holder; on a grant the holder is the client id and the deadline is the clock reading plus
5 seconds; on `LOCK_DENIED` holder and deadline (the whole cell) are unchanged; and when
the clock is past the deadline of the current holder, the request is granted. -/
theorem blocking_lock_req :
    (∀ (kv : Store) (sock : Str) (now now2 : Int) (u1 u2 : CInt),
      (extractString { buf := Network.recv_line sock } []).2 = "LOCK_REQ".toList →
      ∃ (key : Str) (cid : CInt),
        BlockingServer.parse_lock (extractString { buf := Network.recv_line sock } []).1 u1 =
          (key, cid) ∧
        BlockingServer.LockReqSpec kv key cid now now2
          (BlockingServer.handle_client kv sock now now2 u1 u2)) ∧
    (∀ (kv : Store) (key : Str) (cid : CInt) (now now2 : Int) (u1 u2 : CInt), wfKey key →
      BlockingServer.LockReqSpec kv key cid now now2
        (BlockingServer.handle_client kv (Blocking.lock_req_line key cid) now now2 u1 u2)) := by
  constructor
  · intro kv sock now now2 u1 u2 h
    obtain ⟨key, cid, hp⟩ :
        ∃ key cid, BlockingServer.parse_lock
          (extractString { buf := Network.recv_line sock } []).1 u1 = (key, cid) :=
      ⟨_, _, rfl⟩
    refine ⟨key, cid, hp, ?_⟩
    rw [blk_handle_lock kv sock now now2 u1 u2 h key cid hp]
    exact blk_lock_req_spec kv key cid now now2
  · intro kv key cid now now2 u1 u2 hk
    rw [blk_handle_lock_line kv key hk]
    exact blk_lock_req_spec kv key cid now now2

/-- C4, on concrete requests: the line `LOCK_REQ k 1` on a fresh replica, and the request
of client 2 at time 5000000001 when client 1 holds the cell with deadline 5000000000. -/
theorem blocking_lock_req_witness :
    (∃ (key : Str) (cid : CInt),
      BlockingServer.parse_lock
        (extractString { buf := Network.recv_line "LOCK_REQ k 1\n".toList } []).1 CInt.zero =
          (key, cid) ∧
      BlockingServer.LockReqSpec Store.empty key cid 0 0
        (BlockingServer.handle_client Store.empty "LOCK_REQ k 1\n".toList 0 0
          CInt.zero CInt.zero)) ∧
    BlockingServer.LockReqSpec
      (fun _ => { locked_by := ⟨1, by decide⟩, lock_expiry := 5000000000 })
      "k".toList ⟨2, by decide⟩ 5000000001 5000000001
      (BlockingServer.handle_client
        (fun _ => { locked_by := ⟨1, by decide⟩, lock_expiry := 5000000000 })
        (Blocking.lock_req_line "k".toList ⟨2, by decide⟩) 5000000001 5000000001
        CInt.zero CInt.zero) :=
  ⟨blocking_lock_req.1 Store.empty "LOCK_REQ k 1\n".toList 0 0 CInt.zero CInt.zero
      (by decide),
    blocking_lock_req.2 _ "k".toList ⟨2, by decide⟩ 5000000001 5000000001
      CInt.zero CInt.zero (by decide)⟩

theorem blk_unlock_spec (kv : Store) (key : Str) (cid : CInt) (now : Int) :
    BlockingServer.UnlockSpec kv key cid now
      (Function.update kv key (BlockingServer.unlock_cell (kv key) cid now),
        some "ACK\n".toList) := by
  unfold BlockingServer.UnlockSpec
  simp only [Function.update_same]
  refine ⟨trivial, ?_, ?_, ?_, fun k hk => Function.update_noteq hk _ _⟩
  · intro hheld
    unfold BlockingServer.unlock_cell BlockingServer.lock_expired
    by_cases h1 : (kv key).locked_by = cid
    · simp [h1]
    · by_cases h2 : now > (kv key).lock_expiry
      · simp [h1, h2, hheld]
      · simp [h1, h2, hheld]
  · intro h1 h2
    unfold BlockingServer.unlock_cell BlockingServer.lock_expired
    simp [h1, h2]
  · unfold BlockingServer.unlock_cell
    split <;> exact ⟨rfl, rfl, rfl⟩

/-- C5. The unlock request of the Blocking replica. For every state of the map, every
clock reading and every `UNLOCK` (any line with that verb, with the fields the handler
reads from it, and the line a client writes): the reply is `ACK`; a held lock is cleared
exactly when its holder is the client id or its lease has expired, so the unlock of a
client that is not the holder leaves a holder whose lease has not expired, and its
deadline, untouched; the tag and the value of the cell are never changed. -/
theorem blocking_unlock :
    (∀ (kv : Store) (sock : Str) (now now2 : Int) (u1 u2 : CInt),
      (extractString { buf := Network.recv_line sock } []).2 = "UNLOCK".toList →
      ∃ (key : Str) (cid : CInt),
        BlockingServer.parse_lock (extractString { buf := Network.recv_line sock } []).1 u1 =
          (key, cid) ∧
        BlockingServer.UnlockSpec kv key cid now
          (BlockingServer.handle_client kv sock now now2 u1 u2)) ∧
    (∀ (kv : Store) (key : Str) (cid : CInt) (now now2 : Int) (u1 u2 : CInt), wfKey key →
      BlockingServer.UnlockSpec kv key cid now
        (BlockingServer.handle_client kv (Blocking.unlock_line key cid) now now2 u1 u2)) := by
  constructor
  · intro kv sock now now2 u1 u2 h
    obtain ⟨key, cid, hp⟩ :
        ∃ key cid, BlockingServer.parse_lock
          (extractString { buf := Network.recv_line sock } []).1 u1 = (key, cid) :=
      ⟨_, _, rfl⟩
    refine ⟨key, cid, hp, ?_⟩
    rw [blk_handle_unlock kv sock now now2 u1 u2 h key cid hp]
    exact blk_unlock_spec kv key cid now
  · intro kv key cid now now2 u1 u2 hk
    rw [blk_handle_unlock_line kv key hk]
    exact blk_unlock_spec kv key cid now

/-- C5, on concrete requests: the line `UNLOCK k 2` on a fresh replica, and the unlock of
client 2 at time 3 when client 1 holds the cell with deadline 5000000000. -/
theorem blocking_unlock_witness :
    (∃ (key : Str) (cid : CInt),
      BlockingServer.parse_lock
        (extractString { buf := Network.recv_line "UNLOCK k 2\n".toList } []).1 CInt.zero =
          (key, cid) ∧
      BlockingServer.UnlockSpec Store.empty key cid 0
        (BlockingServer.handle_client Store.empty "UNLOCK k 2\n".toList 0 0
          CInt.zero CInt.zero)) ∧
    BlockingServer.UnlockSpec
      (fun _ => { locked_by := ⟨1, by decide⟩, lock_expiry := 5000000000 })
      "k".toList ⟨2, by decide⟩ 3
      (BlockingServer.handle_client
        (fun _ => { locked_by := ⟨1, by decide⟩, lock_expiry := 5000000000 })
        (Blocking.unlock_line "k".toList ⟨2, by decide⟩) 3 3 CInt.zero CInt.zero) :=
  ⟨blocking_unlock.1 Store.empty "UNLOCK k 2\n".toList 0 0 CInt.zero CInt.zero (by decide),
    blocking_unlock.2 _ "k".toList ⟨2, by decide⟩ 3 3 CInt.zero CInt.zero (by decide)⟩

/-! ## Mutual exclusion on the Blocking replica -/

/-- While `a` holds a cell and its lease has not expired, the expiry clean-up does
nothing. -/
theorem blk_expire_held (ks : KeyState) (a : CInt) (now : Int) (_ha : a ≠ CInt.negOne)
    (_h1 : ks.locked_by = a) (h2 : now ≤ ks.lock_expiry) :
    BlockingServer.expire ks now = ks := by
  unfold BlockingServer.expire BlockingServer.lock_expired
  have : ¬ now > ks.lock_expiry := by omega
  simp [this]

theorem blk_lock_cell_held (ks : KeyState) (a cid : CInt) (now now2 : Int)
    (ha : a ≠ CInt.negOne) (h1 : ks.locked_by = a) (h2 : now ≤ ks.lock_expiry) :
    BlockingServer.lock_cell ks cid now now2 = (ks, false) := by
  unfold BlockingServer.lock_cell
  simp only []
  rw [blk_expire_held ks a now ha h1 h2, if_neg (by rw [h1]; exact ha)]

theorem blk_unlock_cell_held (ks : KeyState) (a cid : CInt) (now : Int)
    (h1 : ks.locked_by = a) (h2 : now ≤ ks.lock_expiry) (hc : cid ≠ a) :
    BlockingServer.unlock_cell ks cid now = ks := by
  unfold BlockingServer.unlock_cell BlockingServer.lock_expired
  have h3 : ¬ now > ks.lock_expiry := by omega
  have h4 : ¬ ks.locked_by = cid := by rw [h1]; exact fun h => hc h.symm
  simp [h3, h4]

theorem blk_write_cell_held (ks : KeyState) (a ti tc : CInt) (val : Str) (now : Int)
    (ha : a ≠ CInt.negOne) (h1 : ks.locked_by = a) (h2 : now ≤ ks.lock_expiry) :
    (BlockingServer.write_cell ks ti tc val now).1.locked_by = a ∧
    (BlockingServer.write_cell ks ti tc val now).1.lock_expiry = ks.lock_expiry ∧
    (tc ≠ a → (BlockingServer.write_cell ks ti tc val now).2 = false) := by
  unfold BlockingServer.write_cell
  simp only []
  rw [blk_expire_held ks a now ha h1 h2]
  by_cases h : ks.locked_by = tc
  · rw [if_pos h]
    refine ⟨?_, ?_, fun hc => absurd (h1 ▸ h).symm hc⟩
    · split <;> exact h1
    · split <;> rfl
  · rw [if_neg h]
    exact ⟨h1, rfl, fun _ => rfl⟩

/-- The lock fields of a cell after an update of the map at a key `k`. -/
theorem update_lock_fields (kv : Store) (key k : Str) (cell : KeyState) (a : CInt) (d : Int)
    (h1 : (kv key).locked_by = a) (h2 : (kv key).lock_expiry = d)
    (h : k = key → cell.locked_by = a ∧ cell.lock_expiry = d) :
    ((Function.update kv k cell) key).locked_by = a ∧
    ((Function.update kv k cell) key).lock_expiry = d := by
  by_cases hk : key = k
  · subst hk
    simpa using h rfl
  · rw [Function.update_noteq hk]
    exact ⟨h1, h2⟩

/-- A connection handled before the deadline that is not an unlock by the holder leaves the
holder and the deadline of the cell as they are. -/
theorem blk_serve_keeps_lock (kv : Store) (key : Str) (a : CInt) (d : Int)
    (c : BlockingServer.Conn) (ha : a ≠ CInt.negOne) (h1 : (kv key).locked_by = a)
    (h2 : (kv key).lock_expiry = d) (hnow : c.now ≤ d)
    (hun : ¬ BlockingServer.unlocks c key a) :
    ((BlockingServer.serve kv c) key).locked_by = a ∧
    ((BlockingServer.serve kv c) key).lock_expiry = d := by
  unfold BlockingServer.serve BlockingServer.handle_client
  simp only []
  split
  · exact ⟨h1, h2⟩
  · split
    · refine update_lock_fields kv key _ _ a d h1 h2 (fun hk => ?_)
      rw [hk, blk_lock_cell_held (kv key) a _ c.now c.now2 ha h1 (by omega)]
      exact ⟨h1, h2⟩
    · split
      · next hverb =>
        refine update_lock_fields kv key _ _ a d h1 h2 (fun hk => ?_)
        have hc : (BlockingServer.parse_lock
            (extractString { buf := Network.recv_line c.sock } []).1 c.u1).2 ≠ a := by
          intro hc
          exact hun ⟨hverb, Prod.ext hk hc⟩
        rw [hk, blk_unlock_cell_held (kv key) a _ c.now h1 (by omega) hc]
        exact ⟨h1, h2⟩
      · split
        · refine update_lock_fields kv key _ _ a d h1 h2 (fun hk => ?_)
          rw [hk, blk_expire_held (kv key) a c.now ha h1 (by omega)]
          exact ⟨h1, h2⟩
        · split
          · refine update_lock_fields kv key _ _ a d h1 h2 (fun hk => ?_)
            rw [hk]
            have := blk_write_cell_held (kv key) a
              (AbdServer.parse_write
                (extractString { buf := Network.recv_line c.sock } []).1 c.u1 c.u2).2.1
              (AbdServer.parse_write
                (extractString { buf := Network.recv_line c.sock } []).1 c.u1 c.u2).2.2.1
              (AbdServer.parse_write
                (extractString { buf := Network.recv_line c.sock } []).1 c.u1 c.u2).2.2.2
              c.now ha h1 (by omega)
            exact ⟨this.1, this.2.1.trans h2⟩
          · exact ⟨h1, h2⟩

theorem blk_run_keeps_lock (key : Str) (a : CInt) (d : Int) (ha : a ≠ CInt.negOne)
    (cs : List BlockingServer.Conn) :
    ∀ (kv : Store), (kv key).locked_by = a → (kv key).lock_expiry = d →
      (∀ c ∈ cs, c.now ≤ d ∧ ¬ BlockingServer.unlocks c key a) →
      ((BlockingServer.run kv cs) key).locked_by = a ∧
      ((BlockingServer.run kv cs) key).lock_expiry = d := by
  induction cs with
  | nil => intro kv h1 h2 _; exact ⟨h1, h2⟩
  | cons c cs ih =>
    intro kv h1 h2 hcs
    have hc := hcs c (List.mem_cons_self _ _)
    have hs := blk_serve_keeps_lock kv key a d c ha h1 h2 hc.1 hc.2
    exact ih (BlockingServer.serve kv c) hs.1 hs.2
      (fun c2 hc2 => hcs c2 (List.mem_cons_of_mem _ hc2))

/-- C6. Mutual exclusion on the Blocking replica. On a key that nobody holds, the
`LOCK_REQ` of a client `a` (any id but `-1`, in particular a positive one), whose lease
starts at the clock reading `t0`, is answered `LOCK_GRANTED`. Then, after any sequence of
connections handled within 5 seconds of `t0` none of which is an unlock of the key by `a`:
`a` is still the holder, with the deadline `t0` plus 5 seconds; a `LOCK_REQ` of another
client `b` handled within the 5 seconds is answered `LOCK_DENIED`; an `UNLOCK` or a
`WRITE_REQ` carrying `b`, handled within the 5 seconds, leaves `a` as the holder, the
write being answered `WRITE_DENIED`; and a `LOCK_REQ` of `b` handled after the 5 seconds is
answered `LOCK_GRANTED` and makes `b` the holder. -/
theorem mutual_exclusion (kv : Store) (key : Str) (a b : CInt) (now0 t0 : Int) (u1 u2 : CInt)
    (hk : wfKey key) (ha : a ≠ CInt.negOne) (hab : a ≠ b)
    (hfree : (kv key).locked_by = CInt.negOne) :
    (BlockingServer.handle_client kv (Blocking.lock_req_line key a) now0 t0 u1 u2).2 =
      some "LOCK_GRANTED\n".toList ∧
    ∀ (cs : List BlockingServer.Conn) (kv1 : Store),
      (∀ c ∈ cs, c.now ≤ t0 + 5000000000 ∧ ¬ BlockingServer.unlocks c key a) →
      kv1 = BlockingServer.run
        (BlockingServer.handle_client kv (Blocking.lock_req_line key a) now0 t0 u1 u2).1 cs →
      ((kv1 key).locked_by = a ∧ (kv1 key).lock_expiry = t0 + 5000000000) ∧
      (∀ (now now2 : Int) (v1 v2 : CInt), now ≤ t0 + 5000000000 →
        (BlockingServer.handle_client kv1 (Blocking.lock_req_line key b) now now2 v1 v2).2 =
          some "LOCK_DENIED\n".toList ∧
        ((BlockingServer.handle_client kv1 (Blocking.lock_req_line key b) now now2 v1 v2).1
          key).locked_by = a) ∧
      (∀ (now now2 : Int) (v1 v2 : CInt), now ≤ t0 + 5000000000 →
        ((BlockingServer.handle_client kv1 (Blocking.unlock_line key b) now now2 v1 v2).1
          key).locked_by = a) ∧
      (∀ (ti : CInt) (value : Str) (now now2 : Int) (v1 v2 : CInt), now ≤ t0 + 5000000000 →
        (BlockingServer.handle_client kv1 (Blocking.write_req_line key ti b value)
          now now2 v1 v2).2 = some "WRITE_DENIED\n".toList ∧
        ((BlockingServer.handle_client kv1 (Blocking.write_req_line key ti b value)
          now now2 v1 v2).1 key).locked_by = a) ∧
      (∀ (now now2 : Int) (v1 v2 : CInt), t0 + 5000000000 < now →
        (BlockingServer.handle_client kv1 (Blocking.lock_req_line key b) now now2 v1 v2).2 =
          some "LOCK_GRANTED\n".toList ∧
        ((BlockingServer.handle_client kv1 (Blocking.lock_req_line key b) now now2 v1 v2).1
          key).locked_by = b) := by
  have hgrant := blk_lock_req_spec kv key a now0 t0
  rw [← blk_handle_lock_line kv key hk a now0 t0 u1 u2] at hgrant
  obtain ⟨hexp, hiff, hset, -, -, -, -⟩ := hgrant
  have hg := hiff.2 (hexp.2 (Or.inl hfree))
  refine ⟨hg, ?_⟩
  intro cs kv1 hcs hkv1
  have hinv := blk_run_keeps_lock key a (t0 + 5000000000) ha cs _ (hset hg).1 (hset hg).2 hcs
  rw [← hkv1] at hinv
  have hden : ¬ ("LOCK_DENIED\n".toList = "LOCK_GRANTED\n".toList) := by decide
  refine ⟨hinv, ?_, ?_, ?_, ?_⟩
  · intro now now2 v1 v2 hnow
    rw [blk_handle_lock_line kv1 key hk,
      blk_lock_cell_held (kv1 key) a b now now2 ha hinv.1 (by rw [hinv.2]; exact hnow)]
    simp [hinv.1]
  · intro now now2 v1 v2 hnow
    rw [blk_handle_unlock_line kv1 key hk,
      blk_unlock_cell_held (kv1 key) a b now hinv.1 (by rw [hinv.2]; exact hnow)
        (fun h => hab h.symm)]
    simp [hinv.1]
  · intro ti value now now2 v1 v2 hnow
    have hw := blk_write_cell_held (kv1 key) a ti b (wireValue value) now ha hinv.1
      (by rw [hinv.2]; exact hnow)
    rw [blk_handle_write_line kv1 key hk, hw.2.2 (fun h => hab h.symm)]
    simp [hw.1]
  · intro now now2 v1 v2 hnow
    have hspec := blk_lock_req_spec kv1 key b now now2
    rw [← blk_handle_lock_line kv1 key hk b now now2 v1 v2] at hspec
    obtain ⟨-, -, hset2, -, hpast, -, -⟩ := hspec
    have hg2 := hpast (by rw [hinv.1]; exact ha) (by rw [hinv.2]; exact hnow)
    exact ⟨hg2, (hset2 hg2).1⟩

/-- C6, on the scenario of the specification: on a fresh replica client 1 locks `k` at
time 0; after a `LOCK_REQ`, a `WRITE_REQ` and an `UNLOCK` of client 2 and a read, all
handled within the lease, client 1 still holds the lock; a later request of client 2 is
denied up to time 5000000000 and granted after it. -/
theorem mutual_exclusion_witness :
    (BlockingServer.handle_client Store.empty (Blocking.lock_req_line "k".toList ⟨1, by decide⟩)
      0 0 CInt.zero CInt.zero).2 = some "LOCK_GRANTED\n".toList ∧
    (BlockingServer.handle_client
      (BlockingServer.run
        (BlockingServer.handle_client Store.empty
          (Blocking.lock_req_line "k".toList ⟨1, by decide⟩) 0 0 CInt.zero CInt.zero).1
        [{ sock := "LOCK_REQ k 2\n".toList, now := 1, now2 := 1, u1 := CInt.zero,
           u2 := CInt.zero },
         { sock := "WRITE_REQ k 1 2 x\n".toList, now := 2, now2 := 2, u1 := CInt.zero,
           u2 := CInt.zero },
         { sock := "UNLOCK k 2\n".toList, now := 3, now2 := 3, u1 := CInt.zero,
           u2 := CInt.zero },
         { sock := "READ_REQ k\n".toList, now := 4, now2 := 4, u1 := CInt.zero,
           u2 := CInt.zero }])
      (Blocking.lock_req_line "k".toList ⟨2, by decide⟩) 5000000000 5000000000
      CInt.zero CInt.zero).2 = some "LOCK_DENIED\n".toList ∧
    (BlockingServer.handle_client
      (BlockingServer.run
        (BlockingServer.handle_client Store.empty
          (Blocking.lock_req_line "k".toList ⟨1, by decide⟩) 0 0 CInt.zero CInt.zero).1
        [{ sock := "LOCK_REQ k 2\n".toList, now := 1, now2 := 1, u1 := CInt.zero,
           u2 := CInt.zero },
         { sock := "WRITE_REQ k 1 2 x\n".toList, now := 2, now2 := 2, u1 := CInt.zero,
           u2 := CInt.zero },
         { sock := "UNLOCK k 2\n".toList, now := 3, now2 := 3, u1 := CInt.zero,
           u2 := CInt.zero },
         { sock := "READ_REQ k\n".toList, now := 4, now2 := 4, u1 := CInt.zero,
           u2 := CInt.zero }])
      (Blocking.lock_req_line "k".toList ⟨2, by decide⟩) 5000000001 5000000001
      CInt.zero CInt.zero).2 = some "LOCK_GRANTED\n".toList := by
  have h := mutual_exclusion Store.empty "k".toList ⟨1, by decide⟩ ⟨2, by decide⟩ 0 0
    CInt.zero CInt.zero (by decide) (by decide) (by decide) (by decide)
  refine ⟨h.1, ?_, ?_⟩
  · exact ((h.2 _ _ (by decide) rfl).2.1 5000000000 5000000000 CInt.zero CInt.zero
      (by decide)).1
  · exact ((h.2 _ _ (by decide) rfl).2.2.2.2 5000000001 5000000001 CInt.zero CInt.zero
      (by decide)).1

/-! ## Selection of the highest tag by the ABD client -/

/-- The loop of `find_highest_tag` after `n` iterations. -/
theorem find_loop_succ (resps : List ReadResp) (b0 : ABD.Best) (n : Nat) :
    (List.range (n + 1)).foldl (ABD.find_step resps) b0 =
      ABD.find_step resps ((List.range n).foldl (ABD.find_step resps) b0) n := by
  rw [List.range_succ, List.foldl_append]
  rfl

/-- The invariant of the loop of `find_highest_tag`: either no response so far is valid and
the state is the initial one, or the state holds the first response, among those seen,
with the greatest tag. -/
theorem find_loop_inv (resps : List ReadResp) (b0 : ABD.Best) (h0 : b0.best_i = -1)
    (n : Nat) :
    ((List.range n).foldl (ABD.find_step resps) b0 = b0 ∧
      ∀ j, j < n → (resps.getD j {}).valid = false) ∨
    (∃ j, j < n ∧ (resps.getD j {}).valid = true ∧
      (List.range n).foldl (ABD.find_step resps) b0 =
        { best_i := (j : Int), best_ti := (resps.getD j {}).t_int,
          best_tc := (resps.getD j {}).t_client, best_val := (resps.getD j {}).value } ∧
      ∀ k, k < n → (resps.getD k {}).valid = true →
        Tag.le (resps.getD k {}).tag (resps.getD j {}).tag) := by
  induction n with
  | zero => exact Or.inl ⟨rfl, fun j hj => absurd hj (Nat.not_lt_zero _)⟩
  | succ n ih =>
    rw [find_loop_succ]
    by_cases hv : (resps.getD n {}).valid = false
    · have hstep : ∀ b, ABD.find_step resps b n = b := by
        intro b
        unfold ABD.find_step
        simp only []
        rw [if_pos hv]
      rw [hstep]
      rcases ih with ⟨h1, h2⟩ | ⟨j, hj, hjv, h1, h2⟩
      · refine Or.inl ⟨h1, fun k hk => ?_⟩
        rcases Nat.lt_succ_iff_lt_or_eq.1 hk with hk | hk
        · exact h2 k hk
        · rw [hk]; exact hv
      · refine Or.inr ⟨j, Nat.lt_succ_of_lt hj, hjv, h1, fun k hk hkv => ?_⟩
        rcases Nat.lt_succ_iff_lt_or_eq.1 hk with hk | hk
        · exact h2 k hk hkv
        · rw [hk, hv] at hkv
          exact absurd hkv (by decide)
    · have hv1 : (resps.getD n {}).valid = true := by simpa using hv
      rcases ih with ⟨h1, h2⟩ | ⟨j, hj, hjv, h1, h2⟩
      · rw [h1]
        refine Or.inr ⟨n, Nat.lt_succ_self n, hv1, ?_, fun k hk hkv => ?_⟩
        · unfold ABD.find_step
          simp only []
          rw [if_neg hv, if_pos (Or.inl h0)]
        · rcases Nat.lt_succ_iff_lt_or_eq.1 hk with hk | hk
          · rw [h2 k hk] at hkv
            exact absurd hkv (by decide)
          · rw [hk]; exact Tag.le_refl _
      · rw [h1]
        by_cases hgt : Tag.lt (resps.getD j {}).tag (resps.getD n {}).tag
        · refine Or.inr ⟨n, Nat.lt_succ_self n, hv1, ?_, fun k hk hkv => ?_⟩
          · unfold ABD.find_step
            simp only []
            rw [if_neg hv, if_pos (Or.inr (by
              unfold Tag.lt ReadResp.tag at hgt
              simp only [gt_iff_lt]
              rcases hgt with h | ⟨h, h3⟩
              · exact Or.inl h
              · exact Or.inr ⟨h.symm, h3⟩))]
          · rcases Nat.lt_succ_iff_lt_or_eq.1 hk with hk | hk
            · exact Tag.le_trans (h2 k hk hkv) (Or.inl hgt)
            · rw [hk]; exact Tag.le_refl _
        · refine Or.inr ⟨j, Nat.lt_succ_of_lt hj, hjv, ?_, fun k hk hkv => ?_⟩
          · unfold ABD.find_step
            simp only []
            rw [if_neg hv, if_neg (by
              unfold Tag.lt ReadResp.tag at hgt
              simp only [gt_iff_lt]
              intro h
              rcases h with h | h | ⟨h, h3⟩
              · omega
              · exact hgt (Or.inl h)
              · exact hgt (Or.inr ⟨h.symm, h3⟩))]
          · rcases Nat.lt_succ_iff_lt_or_eq.1 hk with hk | hk
            · exact h2 k hk hkv
            · rw [hk]
              rcases Tag.le_total (resps.getD n {}).tag (resps.getD j {}).tag with h | h
              · exact h
              · exact absurd h hgt

/-- The result of `find_highest_tag`, in terms of the responses at the indices below
`R`. -/
theorem find_highest_tag_spec (resps : List ReadResp) (R : Nat) (ti0 tc0 : CInt) (v0 : Str) :
    (ABD.find_highest_tag resps R ti0 tc0 v0 = (false, ti0, tc0, v0) ∧
      ∀ j, j < R → (resps.getD j {}).valid = false) ∨
    (∃ j, j < R ∧ (resps.getD j {}).valid = true ∧
      ABD.find_highest_tag resps R ti0 tc0 v0 =
        (true, (resps.getD j {}).t_int, (resps.getD j {}).t_client,
          (resps.getD j {}).value) ∧
      ∀ k, k < R → (resps.getD k {}).valid = true →
        Tag.le (resps.getD k {}).tag (resps.getD j {}).tag) := by
  rcases find_loop_inv resps
      { best_i := -1, best_ti := ti0, best_tc := tc0, best_val := v0 } rfl R with
    ⟨h1, h2⟩ | ⟨j, hj, hjv, h1, h2⟩
  · refine Or.inl ⟨?_, h2⟩
    unfold ABD.find_highest_tag
    simp only []
    rw [h1]
    simp
  · refine Or.inr ⟨j, hj, hjv, ?_, h2⟩
    unfold ABD.find_highest_tag
    simp only []
    rw [h1]
    have : ((j : Int) ≠ -1) := by omega
    simp [this]

/-- The entries of a vector and its elements at the indices below its length. -/
theorem getD_of_mem (resps : List ReadResp) (r : ReadResp) (h : r ∈ resps) :
    ∃ j, j < resps.length ∧ resps.getD j {} = r := by
  obtain ⟨j, hj, hjr⟩ := List.getElem_of_mem h
  exact ⟨j, hj, by simp [List.getD, List.getElem?_eq_getElem hj, hjr]⟩

theorem mem_of_getD (resps : List ReadResp) (j : Nat) (h : j < resps.length) :
    resps.getD j {} ∈ resps := by
  simp [List.getD, List.getElem?_eq_getElem h]

theorem read_task_length (i : Nat) (key : Str) (idxs : List Nat) (net : ABD.Net)
    (cl : ABD.Cluster) (out : List ReadResp) :
    (ABD.read_task i key idxs net cl out).2.length = out.length := by
  unfold ABD.read_task
  simp only []
  split <;> simp

theorem read_phase_length (key : Str) (idxs : List Nat) (net : ABD.Net) (cl : ABD.Cluster) :
    (ABD.read_phase key idxs net cl).2.length = idxs.length := by
  have h : ∀ (l : List Nat) (st : ABD.Cluster × List ReadResp),
      (l.foldl (fun st i => ABD.read_task i key idxs net st.1 st.2) st).2.length =
        st.2.length := by
    intro l
    induction l with
    | nil => intro st; rfl
    | cons i l ih =>
      intro st
      rw [List.foldl_cons, ih, read_task_length]
  unfold ABD.read_phase
  rw [h]
  simp

/-- The selection of `find_highest_tag` on a vector of `R` responses, in terms of the
entries of the vector. -/
theorem find_highest_tag_mem (resps : List ReadResp) (R : Nat) (hR : resps.length = R)
    (ti0 tc0 : CInt) (v0 : Str) :
    ((ABD.find_highest_tag resps R ti0 tc0 v0).1 = false ↔ ∀ r ∈ resps, r.valid = false) ∧
    ((ABD.find_highest_tag resps R ti0 tc0 v0).1 = false →
      ABD.find_highest_tag resps R ti0 tc0 v0 = (false, ti0, tc0, v0)) ∧
    ((ABD.find_highest_tag resps R ti0 tc0 v0).1 = true →
      ∃ r ∈ resps, r.valid = true ∧ (∀ r2 ∈ resps, r2.valid = true → Tag.le r2.tag r.tag) ∧
        ABD.find_highest_tag resps R ti0 tc0 v0 = (true, r.t_int, r.t_client, r.value)) := by
  subst hR
  rcases find_highest_tag_spec resps resps.length ti0 tc0 v0 with
    ⟨h1, h2⟩ | ⟨j, hj, hjv, h1, h2⟩
  · rw [h1]
    refine ⟨⟨fun _ r hr => ?_, fun _ => rfl⟩, fun _ => rfl, fun h => by simp at h⟩
    obtain ⟨k, hk, hkr⟩ := getD_of_mem resps r hr
    rw [← hkr]
    exact h2 k hk
  · rw [h1]
    refine ⟨⟨fun h => by simp at h, fun h => ?_⟩, fun h => by simp at h,
      fun _ => ⟨resps.getD j {}, mem_of_getD resps j hj, hjv, fun r2 hr2 hv2 => ?_, rfl⟩⟩
    · have := h _ (mem_of_getD resps j hj)
      rw [this] at hjv
      exact absurd hjv (by decide)
    · obtain ⟨k, hk, hkr⟩ := getD_of_mem resps r2 hr2
      rw [← hkr] at hv2 ⊢
      exact h2 k hk hv2

/-- The loop of `find_highest_tag` only looks at the valid responses. -/
theorem find_highest_tag_congr (resps resps2 : List ReadResp) (R : Nat) (ti0 tc0 : CInt)
    (v0 : Str)
    (h : ∀ j, j < R → (resps.getD j {}).valid = (resps2.getD j {}).valid ∧
      ((resps.getD j {}).valid = true → resps.getD j {} = resps2.getD j {})) :
    ABD.find_highest_tag resps R ti0 tc0 v0 = ABD.find_highest_tag resps2 R ti0 tc0 v0 := by
  have hloop : ∀ n, n ≤ R → ∀ b0,
      (List.range n).foldl (ABD.find_step resps) b0 =
        (List.range n).foldl (ABD.find_step resps2) b0 := by
    intro n
    induction n with
    | zero => intro _ b0; rfl
    | succ n ih =>
      intro hn b0
      rw [find_loop_succ, find_loop_succ, ih (Nat.le_of_succ_le hn)]
      obtain ⟨hv, heq⟩ := h n hn
      unfold ABD.find_step
      simp only []
      by_cases hvalid : (resps.getD n {}).valid = false
      · rw [if_pos hvalid, if_pos (by rw [← hv]; exact hvalid)]
      · have hv1 : (resps.getD n {}).valid = true := by simpa using hvalid
        rw [← heq hv1]
  unfold ABD.find_highest_tag
  simp only []
  rw [hloop R (Nat.le_refl R)]

/-- C7. Selection by the ABD `get`. For every vector of `R` read responses,
`find_highest_tag`, as `get` calls it, fails exactly when no response is valid, and
otherwise returns the tag and the value of a valid response whose tag is the greatest among
the valid responses. Accordingly `get` returns `false`, leaving `out` alone, exactly when no
response of its read phase is valid; otherwise it returns in `out` the value of such a
response and runs its write-back phase with exactly that tag and that value. The
responses that are not valid do not influence the result. -/
theorem abd_get_selection :
    (∀ (resps : List ReadResp) (R : Nat), resps.length = R →
      ((ABD.find_highest_tag resps R CInt.negOne CInt.negOne []).1 = false ↔
        ∀ r ∈ resps, r.valid = false) ∧
      ((ABD.find_highest_tag resps R CInt.negOne CInt.negOne []).1 = true →
        ∃ r ∈ resps, r.valid = true ∧
          (∀ r2 ∈ resps, r2.valid = true → Tag.le r2.tag r.tag) ∧
          ABD.find_highest_tag resps R CInt.negOne CInt.negOne [] =
            (true, r.t_int, r.t_client, r.value))) ∧
    (∀ (key : Str) (N : Nat) (out : Str) (net : ABD.Net) (cl : ABD.Cluster),
      ((ABD.get key N out net cl).2.1 = false ↔
        ∀ r ∈ (ABD.read_phase key (List.range (N / 2 + 1)) net cl).2, r.valid = false) ∧
      ((ABD.get key N out net cl).2.1 = false → (ABD.get key N out net cl).2.2 = out) ∧
      ((ABD.get key N out net cl).2.1 = true →
        ∃ r ∈ (ABD.read_phase key (List.range (N / 2 + 1)) net cl).2, r.valid = true ∧
          (∀ r2 ∈ (ABD.read_phase key (List.range (N / 2 + 1)) net cl).2,
            r2.valid = true → Tag.le r2.tag r.tag) ∧
          (ABD.get key N out net cl).2.2 = r.value ∧
          (ABD.get key N out net cl).1 =
            ABD.write_phase key r.t_int r.t_client r.value (List.range (N / 2 + 1)) net
              (ABD.read_phase key (List.range (N / 2 + 1)) net cl).1)) ∧
    (∀ (resps resps2 : List ReadResp) (R : Nat),
      (∀ j, j < R → (resps.getD j {}).valid = (resps2.getD j {}).valid ∧
        ((resps.getD j {}).valid = true → resps.getD j {} = resps2.getD j {})) →
      ABD.find_highest_tag resps R CInt.negOne CInt.negOne [] =
        ABD.find_highest_tag resps2 R CInt.negOne CInt.negOne []) := by
  refine ⟨fun resps R hR => ?_, fun key N out net cl => ?_, fun resps resps2 R h => ?_⟩
  · have h := find_highest_tag_mem resps R hR CInt.negOne CInt.negOne []
    exact ⟨h.1, h.2.2⟩
  · have hlen : (ABD.read_phase key (List.range (N / 2 + 1)) net cl).2.length = N / 2 + 1 := by
      rw [read_phase_length, List.length_range]
    have h := find_highest_tag_mem _ _ hlen CInt.negOne CInt.negOne []
    by_cases hf : (ABD.find_highest_tag
        (ABD.read_phase key (List.range (N / 2 + 1)) net cl).2 (N / 2 + 1)
        CInt.negOne CInt.negOne []).1 = false
    · have hget : ABD.get key N out net cl =
          ((ABD.read_phase key (List.range (N / 2 + 1)) net cl).1, false, out) := by
        unfold ABD.get
        simp only []
        rw [if_pos hf]
      rw [hget]
      exact ⟨⟨fun _ => h.1.1 hf, fun _ => rfl⟩, fun _ => rfl, fun hc => by simp at hc⟩
    · have hget : ABD.get key N out net cl =
          (ABD.write_phase key
            (ABD.find_highest_tag
              (ABD.read_phase key (List.range (N / 2 + 1)) net cl).2 (N / 2 + 1)
              CInt.negOne CInt.negOne []).2.1
            (ABD.find_highest_tag
              (ABD.read_phase key (List.range (N / 2 + 1)) net cl).2 (N / 2 + 1)
              CInt.negOne CInt.negOne []).2.2.1
            (ABD.find_highest_tag
              (ABD.read_phase key (List.range (N / 2 + 1)) net cl).2 (N / 2 + 1)
              CInt.negOne CInt.negOne []).2.2.2
            (List.range (N / 2 + 1)) net
            (ABD.read_phase key (List.range (N / 2 + 1)) net cl).1, true,
            (ABD.find_highest_tag
              (ABD.read_phase key (List.range (N / 2 + 1)) net cl).2 (N / 2 + 1)
              CInt.negOne CInt.negOne []).2.2.2) := by
        unfold ABD.get
        simp only []
        rw [if_neg hf]
      have hf1 : (ABD.find_highest_tag
          (ABD.read_phase key (List.range (N / 2 + 1)) net cl).2 (N / 2 + 1)
          CInt.negOne CInt.negOne []).1 = true := by simpa using hf
      obtain ⟨r, hr, hrv, hmax, heq⟩ := h.2.2 hf1
      rw [hget]
      refine ⟨⟨fun hc => by simp at hc, fun hall => ?_⟩,
        fun hc => by simp at hc, fun _ => ⟨r, hr, hrv, hmax, ?_, ?_⟩⟩
      · exact absurd (h.1.2 hall) hf
      · rw [heq]
      · rw [heq]
  · exact find_highest_tag_congr resps resps2 R CInt.negOne CInt.negOne [] h

/-- C7, on the responses `(3, 1, "a")`, an invalid response and `(3, 2, "b")`: the
selection is `(3, 2, "b")`, and the content of the invalid response does not matter. -/
theorem abd_get_selection_witness :
    (∃ r ∈ [({ t_int := ⟨3, by decide⟩, t_client := ⟨1, by decide⟩, value := "a".toList,
               valid := true } : ReadResp), {},
            { t_int := ⟨3, by decide⟩, t_client := ⟨2, by decide⟩, value := "b".toList,
              valid := true }],
      r.valid = true ∧ r.value = "b".toList) ∧
    ABD.find_highest_tag
      [({ t_int := ⟨3, by decide⟩, t_client := ⟨1, by decide⟩, value := "a".toList,
          valid := true } : ReadResp), {},
       { t_int := ⟨3, by decide⟩, t_client := ⟨2, by decide⟩, value := "b".toList,
         valid := true }] 3 CInt.negOne CInt.negOne [] =
    ABD.find_highest_tag
      [({ t_int := ⟨3, by decide⟩, t_client := ⟨1, by decide⟩, value := "a".toList,
          valid := true } : ReadResp),
       { t_int := ⟨9, by decide⟩, t_client := ⟨9, by decide⟩, value := "z".toList,
         valid := false },
       { t_int := ⟨3, by decide⟩, t_client := ⟨2, by decide⟩, value := "b".toList,
         valid := true }] 3 CInt.negOne CInt.negOne [] := by
  constructor
  · obtain ⟨r, hr, hv, _, heq⟩ := (abd_get_selection.1
      [({ t_int := ⟨3, by decide⟩, t_client := ⟨1, by decide⟩, value := "a".toList,
          valid := true } : ReadResp), {},
       { t_int := ⟨3, by decide⟩, t_client := ⟨2, by decide⟩, value := "b".toList,
         valid := true }] 3 rfl).2 (by decide)
    refine ⟨r, hr, hv, ?_⟩
    have h2 : ABD.find_highest_tag
      [({ t_int := ⟨3, by decide⟩, t_client := ⟨1, by decide⟩, value := "a".toList,
          valid := true } : ReadResp), {},
       { t_int := ⟨3, by decide⟩, t_client := ⟨2, by decide⟩, value := "b".toList,
         valid := true }] 3 CInt.negOne CInt.negOne [] =
        (true, ⟨3, by decide⟩, ⟨2, by decide⟩, "b".toList) := by decide
    rw [h2] at heq
    simp only [Prod.mk.injEq] at heq
    exact heq.2.2.2.symm
  · exact abd_get_selection.2.2 _ _ 3 (by decide)

/-! ## The tag formed by the ABD `put` -/

theorem succ_val (x : CInt) (h : x.val < 2147483647) : (CInt.succ x).val = x.val + 1 := by
  have := x.property
  unfold CInt.succ
  simp only []
  omega

theorem tag_le_fst {a b : Tag} (h : Tag.le a b) : a.1 ≤ b.1 := by
  unfold Tag.le Tag.lt at h
  rcases h with (h | h) | h
  · omega
  · omega
  · rw [h]

/-- C8, as the code has it. The tag `put` sends in its write phase is `(new_ti, client_id)`
with `new_ti = max_ti + 1`, where `max_ti` is the lamport component of the greatest tag
among the valid responses, and `max_ti = -1`, the initial value of the local, when no
response is valid: with no valid response the tag written is `(0, client_id)`; with a
valid response, and the greatest lamport component below `INT_MAX`, the new tag is
strictly greater than the tag of every valid response. -/
theorem abd_put_tag :
    (∀ (key value : Str) (client_id : CInt) (N : Nat) (net : ABD.Net) (cl : ABD.Cluster),
      ABD.put key value client_id N net cl =
        (ABD.write_phase key
          (ABD.new_tag (ABD.read_phase key (List.range (N / 2 + 1)) net cl).2 (N / 2 + 1)
            client_id).1
          (ABD.new_tag (ABD.read_phase key (List.range (N / 2 + 1)) net cl).2 (N / 2 + 1)
            client_id).2
          value (List.range (N / 2 + 1)) net
          (ABD.read_phase key (List.range (N / 2 + 1)) net cl).1, true)) ∧
    (∀ (resps : List ReadResp) (R : Nat) (client_id : CInt), resps.length = R →
      (ABD.new_tag resps R client_id).2 = client_id ∧
      ((∀ r ∈ resps, r.valid = false) → ABD.new_tag resps R client_id = (CInt.zero, client_id)) ∧
      ((∃ r ∈ resps, r.valid = true) →
        ∃ r ∈ resps, r.valid = true ∧ (∀ r2 ∈ resps, r2.valid = true → Tag.le r2.tag r.tag) ∧
          ABD.new_tag resps R client_id = (CInt.succ r.t_int, client_id) ∧
          (r.t_int.val < 2147483647 →
            (ABD.new_tag resps R client_id).1.val = r.t_int.val + 1 ∧
            ∀ r2 ∈ resps, r2.valid = true →
              Tag.lt r2.tag ((ABD.new_tag resps R client_id).1.val, client_id.val)))) := by
  refine ⟨fun key value client_id N net cl => rfl, fun resps R client_id hR => ?_⟩
  have h := find_highest_tag_mem resps R hR CInt.negOne CInt.negOne []
  refine ⟨rfl, fun hall => ?_, fun hex => ?_⟩
  · have hf := h.2.1 (h.1.2 hall)
    unfold ABD.new_tag
    simp only []
    rw [hf]
    rfl
  · have hf : (ABD.find_highest_tag resps R CInt.negOne CInt.negOne []).1 = true := by
      by_contra hc
      obtain ⟨r, hr, hv⟩ := hex
      have := h.1.1 (by simpa using hc) r hr
      rw [this] at hv
      exact absurd hv (by decide)
    obtain ⟨r, hr, hv, hmax, heq⟩ := h.2.2 hf
    have hnew : ABD.new_tag resps R client_id = (CInt.succ r.t_int, client_id) := by
      unfold ABD.new_tag
      simp only []
      rw [heq]
    refine ⟨r, hr, hv, hmax, hnew, fun hlt => ?_⟩
    rw [hnew]
    refine ⟨succ_val _ hlt, fun r2 hr2 hv2 => ?_⟩
    have hle := tag_le_fst (hmax r2 hr2 hv2)
    simp only [ReadResp.tag] at hle
    refine Or.inl ?_
    simp only [ReadResp.tag]
    rw [succ_val _ hlt]
    omega

/-- C8, counterexample. With no valid response the tag formed for client 5 is `(0, 5)`,
not `(1, 5)`: on one fresh replica whose read connection fails and whose write connection
succeeds, `put("k", "v", 5)` leaves the tag `(0, 5)` in the cell of `k`. And a valid
response with the lamport component `INT_MAX` is not below the tag formed. -/
theorem abd_put_tag_no_valid_response :
    ABD.new_tag [{}] 1 ⟨5, by decide⟩ = (CInt.zero, ⟨5, by decide⟩) ∧
    ((ABD.put "k".toList "v".toList ⟨5, by decide⟩ 1
        { read := fun _ => ABD.Rpc.connect_fails, write := fun _ => ABD.Rpc.ok,
          u1 := fun _ => CInt.zero, u2 := fun _ => CInt.zero }
        (fun _ => Store.empty)).1 0 "k".toList).tag = (0, 5) ∧
    ¬ Tag.lt (2147483647, 1)
      ((ABD.new_tag
          [{ t_int := ⟨2147483647, by decide⟩, t_client := ⟨1, by decide⟩, valid := true }]
          1 ⟨5, by decide⟩).1.val, 5) := by
  refine ⟨by decide, by decide, by decide⟩

/-- C8, on the responses `(3, 1)`, invalid, `(3, 2)` and the client 5: the tag formed is
`(4, 5)`, above both valid responses; and on a vector without valid response. -/
theorem abd_put_tag_witness :
    (∃ r ∈ [({ t_int := ⟨3, by decide⟩, t_client := ⟨1, by decide⟩, value := "a".toList,
               valid := true } : ReadResp), {},
            { t_int := ⟨3, by decide⟩, t_client := ⟨2, by decide⟩, value := "b".toList,
              valid := true }],
      r.valid = true ∧
      ABD.new_tag
          [({ t_int := ⟨3, by decide⟩, t_client := ⟨1, by decide⟩, value := "a".toList,
              valid := true } : ReadResp), {},
            { t_int := ⟨3, by decide⟩, t_client := ⟨2, by decide⟩, value := "b".toList,
              valid := true }] 3 ⟨5, by decide⟩ = (CInt.succ r.t_int, ⟨5, by decide⟩)) ∧
    ABD.new_tag [{}, {}] 2 ⟨5, by decide⟩ = (CInt.zero, ⟨5, by decide⟩) := by
  constructor
  · obtain ⟨r, hr, hv, _, heq, _⟩ := (abd_put_tag.2
      [({ t_int := ⟨3, by decide⟩, t_client := ⟨1, by decide⟩, value := "a".toList,
          valid := true } : ReadResp), {},
       { t_int := ⟨3, by decide⟩, t_client := ⟨2, by decide⟩, value := "b".toList,
         valid := true }] 3 ⟨5, by decide⟩ rfl).2.2 (by decide)
    exact ⟨r, hr, hv, heq⟩
  · exact (abd_put_tag.2 [{}, {}] 2 ⟨5, by decide⟩ rfl).2.1 (by decide)

/-! ## The phases of the ABD client -/

theorem parse_resp_empty (cur : ReadResp) :
    ABD.parse_resp [] cur = { cur with valid := false } := by
  unfold ABD.parse_resp
  simp [extractString, extractInt]

theorem parse_resp_read_resp (ks : KeyState) (cur : ReadResp) :
    ABD.parse_resp (Network.recv_line (AbdServer.read_resp ks)) cur =
      { t_int := ks.tag_lamport, t_client := ks.tag_cid, value := wireValue ks.value,
        valid := true } := by
  obtain ⟨h1, h2, h3, h4⟩ := read_resp_parse ks
  unfold ABD.parse_resp
  simp only []
  rw [h1]
  simp only []
  rw [h2]
  simp only []
  rw [h3]
  simp only []
  rw [h4]
  simp

/-- One read task on a well-formed key: the replicas are unchanged and the slot gets the
response of the replica. -/
theorem read_task_spec (i R : Nat) (hi : i < R) (key : Str) (hk : wfKey key) (net : ABD.Net)
    (cl : ABD.Cluster) (out : List ReadResp) (hcur : out.getD i {} = {}) :
    ABD.read_task i key (List.range R) net cl out =
      (cl, out.set i (ABD.slot (net.read i) (cl i key))) := by
  have hidx : (List.range R).getD i 0 = i := by
    simp [List.getD_eq_getElem?_getD, List.getElem?_range hi]
  unfold ABD.read_task
  simp only []
  rw [hidx, hcur, abd_handle_read_line (cl i) key hk, Function.update_eq_self]
  cases hr : net.read i
  · simp [ABD.slot]
  · simp [ABD.slot]
  · simp only []
    rw [parse_resp_empty]
    simp [ABD.slot]
  · simp only [Option.getD_some]
    rw [parse_resp_read_resp]
    simp [ABD.slot, wireValue]

theorem getD_set_self (out : List ReadResp) (i : Nat) (x : ReadResp) (h : i < out.length) :
    (out.set i x).getD i {} = x := by
  simp [List.getD_eq_getElem?_getD, List.getElem?_set_self, h]

theorem getD_set_other (out : List ReadResp) (i j : Nat) (x : ReadResp) (h : i ≠ j) :
    (out.set i x).getD j {} = out.getD j {} := by
  simp [List.getD_eq_getElem?_getD, List.getElem?_set_ne h]

/-- The read phase on a well-formed key: the replicas are unchanged and the slot of each
replica holds its response. -/
theorem read_phase_spec (R : Nat) (key : Str) (hk : wfKey key) (net : ABD.Net)
    (cl : ABD.Cluster) :
    (ABD.read_phase key (List.range R) net cl).1 = cl ∧
    (ABD.read_phase key (List.range R) net cl).2.length = R ∧
    ∀ i, i < R → (ABD.read_phase key (List.range R) net cl).2.getD i {} =
      ABD.slot (net.read i) (cl i key) := by
  have hloop : ∀ n, n ≤ R →
      ((List.range n).foldl (fun st i => ABD.read_task i key (List.range R) net st.1 st.2)
        (cl, List.replicate R {})).1 = cl ∧
      ((List.range n).foldl (fun st i => ABD.read_task i key (List.range R) net st.1 st.2)
        (cl, List.replicate R {})).2.length = R ∧
      (∀ i, i < n →
        ((List.range n).foldl (fun st i => ABD.read_task i key (List.range R) net st.1 st.2)
          (cl, List.replicate R {})).2.getD i {} = ABD.slot (net.read i) (cl i key)) ∧
      (∀ i, n ≤ i →
        ((List.range n).foldl (fun st i => ABD.read_task i key (List.range R) net st.1 st.2)
          (cl, List.replicate R {})).2.getD i {} = {}) := by
    intro n
    induction n with
    | zero =>
      intro _
      refine ⟨rfl, by simp, fun i hi => absurd hi (Nat.not_lt_zero _), fun i _ => ?_⟩
      simp only [List.range_zero, List.foldl_nil, List.getD_eq_getElem?_getD,
        List.getElem?_replicate]
      split <;> rfl
    | succ n ih =>
      intro hn
      obtain ⟨h1, h2, h3, h4⟩ := ih (Nat.le_of_succ_le hn)
      rw [List.range_succ, List.foldl_append]
      simp only [List.foldl_cons, List.foldl_nil]
      rw [read_task_spec n R hn key hk net _ _ (h4 n (Nat.le_refl n)), h1]
      refine ⟨rfl, by simp [h2], fun i hi => ?_, fun i hi => ?_⟩
      · rcases Nat.lt_succ_iff_lt_or_eq.1 hi with hi | hi
        · simp only []
          rw [getD_set_other _ n i _ (by omega)]
          exact h3 i hi
        · simp only []
          rw [hi, getD_set_self _ n _ (by omega)]
      · simp only []
        rw [getD_set_other _ n i _ (by omega)]
        exact h4 i (by omega)
  have h := hloop R (Nat.le_refl R)
  unfold ABD.read_phase
  rw [List.length_range]
  exact ⟨h.1, h.2.1, h.2.2.1⟩

/-- One write task on a well-formed key: when the request is delivered, the replica runs
its compare-and-assign on the cell of the key. -/
theorem write_task_spec (i : Nat) (key : Str) (hk : wfKey key) (ti tc : CInt) (value : Str)
    (net : ABD.Net) (cl : ABD.Cluster) :
    ABD.write_task i key ti tc value net cl =
      if (net.write i).delivered = true then
        Function.update cl i
          (Function.update (cl i) key (AbdServer.write_cell (cl i key) ti tc (wireValue value)))
      else cl := by
  unfold ABD.write_task
  simp only []
  rw [abd_handle_write_line (cl i) key hk]
  cases hw : net.write i <;> simp [ABD.Rpc.delivered]

/-- The write phase on a well-formed key: each replica below `R` whose request is delivered
runs its compare-and-assign on the cell of the key; nothing else changes. -/
theorem write_phase_spec (R : Nat) (key : Str) (hk : wfKey key) (ti tc : CInt) (value : Str)
    (net : ABD.Net) (cl : ABD.Cluster) (j : Nat) :
    (ABD.write_phase key ti tc value (List.range R) net cl) j =
      if j < R ∧ (net.write j).delivered = true then
        Function.update (cl j) key (AbdServer.write_cell (cl j key) ti tc (wireValue value))
      else cl j := by
  unfold ABD.write_phase
  induction R with
  | zero => simp
  | succ n ih =>
    rw [List.range_succ, List.foldl_append]
    simp only [List.foldl_cons, List.foldl_nil]
    rw [write_task_spec n key hk]
    by_cases hj : j = n
    · subst hj
      have hself : (List.foldl (fun c i => ABD.write_task i key ti tc value net c) cl
          (List.range j)) j = cl j := by
        rw [ih]; simp
      by_cases hd : (net.write j).delivered = true
      · simp [hd, hself]
      · simp [hd, hself]
    · by_cases hd : (net.write n).delivered = true
      · rw [if_pos hd, Function.update_noteq hj, ih]
        have : (j < n + 1) ↔ (j < n) := by omega
        simp only [this]
      · rw [if_neg hd, ih]
        have : (j < n + 1) ↔ (j < n) := by omega
        simp only [this]

/-! ## Monotonicity of the tags under the client operations -/

theorem clusterLe_refl (cl : ABD.Cluster) : ABD.ClusterLe cl cl := fun _ _ => Tag.le_refl _

theorem clusterLe_trans {a b c : ABD.Cluster} (h1 : ABD.ClusterLe a b)
    (h2 : ABD.ClusterLe b c) : ABD.ClusterLe a c := fun j k => Tag.le_trans (h1 j k) (h2 j k)

/-- Handling one line at one replica does not lower any tag. -/
theorem clusterLe_handle (cl : ABD.Cluster) (idx : Nat) (line : Str) (u1 u2 : CInt) :
    ABD.ClusterLe cl
      (Function.update cl idx (AbdServer.handle_client (cl idx) line u1 u2).1) := by
  intro j k
  by_cases hj : j = idx
  · subst hj
    simp only [Function.update_same]
    exact abd_handle_client_tag_le _ _ _ _ _
  · rw [Function.update_noteq hj]
    exact Tag.le_refl _

theorem read_task_le (i : Nat) (key : Str) (idxs : List Nat) (net : ABD.Net)
    (cl : ABD.Cluster) (out : List ReadResp) :
    ABD.ClusterLe cl (ABD.read_task i key idxs net cl out).1 := by
  unfold ABD.read_task
  simp only []
  split
  · exact clusterLe_refl _
  · exact clusterLe_refl _
  · exact clusterLe_handle _ _ _ _ _
  · exact clusterLe_handle _ _ _ _ _

theorem read_phase_le (key : Str) (idxs : List Nat) (net : ABD.Net) (cl : ABD.Cluster) :
    ABD.ClusterLe cl (ABD.read_phase key idxs net cl).1 := by
  have h : ∀ (l : List Nat) (st : ABD.Cluster × List ReadResp),
      ABD.ClusterLe st.1
        (l.foldl (fun st i => ABD.read_task i key idxs net st.1 st.2) st).1 := by
    intro l
    induction l with
    | nil => intro st; exact clusterLe_refl _
    | cons i l ih =>
      intro st
      rw [List.foldl_cons]
      exact clusterLe_trans (read_task_le i key idxs net st.1 st.2) (ih _)
  exact h _ _

theorem write_task_le (i : Nat) (key : Str) (ti tc : CInt) (value : Str) (net : ABD.Net)
    (cl : ABD.Cluster) : ABD.ClusterLe cl (ABD.write_task i key ti tc value net cl) := by
  unfold ABD.write_task
  simp only []
  split
  · exact clusterLe_refl _
  · exact clusterLe_refl _
  · exact clusterLe_handle _ _ _ _ _
  · exact clusterLe_handle _ _ _ _ _

theorem write_phase_le (key : Str) (ti tc : CInt) (value : Str) (idxs : List Nat)
    (net : ABD.Net) (cl : ABD.Cluster) :
    ABD.ClusterLe cl (ABD.write_phase key ti tc value idxs net cl) := by
  unfold ABD.write_phase
  induction idxs generalizing cl with
  | nil => exact clusterLe_refl _
  | cons i l ih =>
    rw [List.foldl_cons]
    exact clusterLe_trans (write_task_le i key ti tc value net cl) (ih _)

theorem get_le (key : Str) (N : Nat) (out : Str) (net : ABD.Net) (cl : ABD.Cluster) :
    ABD.ClusterLe cl (ABD.get key N out net cl).1 := by
  unfold ABD.get
  simp only []
  split
  · exact read_phase_le _ _ _ _
  · exact clusterLe_trans (read_phase_le _ _ _ _) (write_phase_le _ _ _ _ _ _ _)

theorem put_le (key value : Str) (cid : CInt) (N : Nat) (net : ABD.Net) (cl : ABD.Cluster) :
    ABD.ClusterLe cl (ABD.put key value cid N net cl).1 := by
  unfold ABD.put
  simp only []
  exact clusterLe_trans (read_phase_le _ _ _ _) (write_phase_le _ _ _ _ _ _ _)

theorem execAll_le (N : Nat) (ops : List ABD.Op) (cl : ABD.Cluster) :
    ABD.ClusterLe cl (ABD.execAll N cl ops) := by
  unfold ABD.execAll
  induction ops generalizing cl with
  | nil => exact clusterLe_refl _
  | cons op ops ih =>
    rw [List.foldl_cons]
    refine clusterLe_trans ?_ (ih _)
    cases op with
    | get key out net => exact get_le key N out net cl
    | put key value cid net => exact put_le key value cid N net cl

/-! ## What a successful ABD `put` guarantees -/

theorem slot_valid (o : ABD.Rpc) (ks : KeyState) (h : (ABD.slot o ks).valid = true) :
    (ABD.slot o ks).t_int = ks.tag_lamport ∧ (ABD.slot o ks).t_client = ks.tag_cid := by
  unfold ABD.slot at h ⊢
  by_cases ho : o = ABD.Rpc.ok
  · rw [if_pos ho]; exact ⟨rfl, rfl⟩
  · rw [if_neg ho] at h
    exact absurd h (by decide)

/-- After the compare-and-assign of a write the tag of the cell is at least the tag
written. -/
theorem abd_write_cell_tag_ge (ks : KeyState) (ti tc : CInt) (val : Str) :
    Tag.le (ti.val, tc.val) (AbdServer.write_cell ks ti tc val).tag := by
  by_cases h : Tag.lt ks.tag (ti.val, tc.val)
  · rw [(abd_write_cell_eq ks ti tc val).1 h]
    exact Tag.le_refl _
  · rw [(abd_write_cell_eq ks ti tc val).2 h]
    rcases Tag.le_total (ti.val, tc.val) ks.tag with h2 | h2
    · exact h2
    · exact absurd h2 h

/-- A `put` on a well-formed key whose reads all succeed and whose write requests all reach
their replicas installs its tag and the transmitted value at each of the `R` replicas. -/
theorem put_all_ok (key value : Str) (client_id : CInt) (N : Nat) (net : ABD.Net)
    (cl : ABD.Cluster) (hk : wfKey key)
    (hnet : ∀ i, i < N / 2 + 1 → net.read i = ABD.Rpc.ok ∧ (net.write i).delivered = true)
    (hmax : ∀ i, i < N / 2 + 1 → (cl i key).tag_lamport.val < 2147483647) :
    ∃ m : Int, (∃ i, i < N / 2 + 1 ∧ (cl i key).tag_lamport.val = m) ∧
      (∀ i, i < N / 2 + 1 → (cl i key).tag_lamport.val ≤ m) ∧
      ∀ i, i < N / 2 + 1 →
        ((ABD.put key value client_id N net cl).1 i key).tag = (m + 1, client_id.val) ∧
        ((ABD.put key value client_id N net cl).1 i key).value = wireValue value := by
  obtain ⟨hcl, hlen, hslot⟩ := read_phase_spec (N / 2 + 1) key hk net cl
  have hvalid : ∀ i, i < N / 2 + 1 →
      ((ABD.read_phase key (List.range (N / 2 + 1)) net cl).2.getD i {}).valid = true := by
    intro i hi
    rw [hslot i hi, (hnet i hi).1]
    rfl
  have hf := find_highest_tag_mem _ _ hlen CInt.negOne CInt.negOne []
  have hsome : (ABD.find_highest_tag (ABD.read_phase key (List.range (N / 2 + 1)) net cl).2
      (N / 2 + 1) CInt.negOne CInt.negOne []).1 = true := by
    by_contra hc
    have h0 := hf.1.1 (by simpa using hc) _
      (mem_of_getD _ 0 (by rw [hlen]; exact Nat.succ_pos _))
    rw [hvalid 0 (Nat.succ_pos _)] at h0
    exact absurd h0 (by decide)
  obtain ⟨r, hr, hrv, hrmax, heq⟩ := hf.2.2 hsome
  obtain ⟨j, hj, hjr⟩ := getD_of_mem _ r hr
  rw [hlen] at hj
  have hrj : r.t_int = (cl j key).tag_lamport := by
    have := slot_valid (net.read j) (cl j key) (by rw [← hslot j hj, hjr]; exact hrv)
    rw [← hjr, hslot j hj]
    exact this.1
  have hput : ABD.put key value client_id N net cl =
      (ABD.write_phase key (CInt.succ r.t_int) client_id value (List.range (N / 2 + 1)) net cl,
        true) := by
    unfold ABD.put ABD.new_tag
    simp only []
    rw [heq, hcl]
  have hsucc : (CInt.succ r.t_int).val = (cl j key).tag_lamport.val + 1 := by
    rw [hrj]
    exact succ_val _ (hmax j hj)
  have hle : ∀ i, i < N / 2 + 1 → (cl i key).tag_lamport.val ≤ (cl j key).tag_lamport.val := by
    intro i hi
    have hmem := mem_of_getD (ABD.read_phase key (List.range (N / 2 + 1)) net cl).2 i
      (by rw [hlen]; exact hi)
    have h1 := tag_le_fst (hrmax _ hmem (hvalid i hi))
    have h2 := slot_valid (net.read i) (cl i key) (by rw [← hslot i hi]; exact hvalid i hi)
    rw [hslot i hi] at h1
    simp only [ReadResp.tag, h2.1, hrj] at h1
    exact h1
  refine ⟨(cl j key).tag_lamport.val, ⟨j, hj, rfl⟩, hle, fun i hi => ?_⟩
  rw [hput]
  simp only []
  rw [write_phase_spec (N / 2 + 1) key hk, if_pos ⟨hi, (hnet i hi).2⟩]
  simp only [Function.update_same]
  have hnewer : Tag.lt (cl i key).tag ((CInt.succ r.t_int).val, client_id.val) := by
    refine Or.inl ?_
    simp only [KeyState.tag]
    rw [hsucc]
    have := hle i hi
    omega
  rw [(abd_write_cell_eq _ _ _ _).1 hnewer]
  simp only [KeyState.tag]
  rw [hsucc]
  exact ⟨rfl, trivial⟩

/-- C9, as the code has it. `put` returns `true` whatever happens to its connections. When
the key is a well-formed token, every read of the `R` replicas succeeds, every write request
reaches its replica and the lamport components stored are below `INT_MAX`, then after the
call each of the `R` replicas stores for the key the tag `(m + 1, client_id)`, where `m` is
the greatest lamport component stored for the key among the `R` replicas before the call,
and the value as the framing transmits it. -/
theorem abd_put_quorum :
    (∀ (key value : Str) (client_id : CInt) (N : Nat) (net : ABD.Net) (cl : ABD.Cluster),
      (ABD.put key value client_id N net cl).2 = true) ∧
    (∀ (key value : Str) (client_id : CInt) (N : Nat) (net : ABD.Net) (cl : ABD.Cluster),
      wfKey key →
      (∀ i, i < N / 2 + 1 → net.read i = ABD.Rpc.ok ∧ (net.write i).delivered = true) →
      (∀ i, i < N / 2 + 1 → (cl i key).tag_lamport.val < 2147483647) →
      ∃ m : Int, (∃ i, i < N / 2 + 1 ∧ (cl i key).tag_lamport.val = m) ∧
        (∀ i, i < N / 2 + 1 → (cl i key).tag_lamport.val ≤ m) ∧
        ∀ i, i < N / 2 + 1 →
          ((ABD.put key value client_id N net cl).1 i key).tag = (m + 1, client_id.val) ∧
          ((ABD.put key value client_id N net cl).1 i key).value = wireValue value) := by
  exact ⟨fun _ _ _ _ _ _ => rfl,
    fun key value client_id N net cl hk hnet hmax =>
      put_all_ok key value client_id N net cl hk hnet hmax⟩

/-- C9, counterexamples on three replicas (`R = 2`). When the reads succeed and no write
connection can be made, `put("k", "v", 1)` on fresh replicas returns `true` and both
replicas keep the tag `(0, 0)`, although the new tag is `(1, 1)`. When the read of a
replica holding `(5, 7, "old")` fails, `put` returns `true` and that replica keeps
`(5, 7, "old")`. With every connection succeeding, the value `" v"` is stored as `"v"`, a
`put` on the key `"a b"` leaves the cell of `"a b"` as it was, and over replicas that store
the lamport component `INT_MAX` no replica ends with the lamport component
`INT_MAX + 1`. -/
theorem abd_put_true_without_quorum :
    (ABD.put "k".toList "v".toList ⟨1, by decide⟩ 3
      { read := fun _ => ABD.Rpc.ok, write := fun _ => ABD.Rpc.connect_fails,
        u1 := fun _ => CInt.zero, u2 := fun _ => CInt.zero } (fun _ => Store.empty)).2 = true ∧
    ((ABD.put "k".toList "v".toList ⟨1, by decide⟩ 3
      { read := fun _ => ABD.Rpc.ok, write := fun _ => ABD.Rpc.connect_fails,
        u1 := fun _ => CInt.zero, u2 := fun _ => CInt.zero } (fun _ => Store.empty)).1
      0 "k".toList).tag = (0, 0) ∧
    ((ABD.put "k".toList "v".toList ⟨1, by decide⟩ 3
      { read := fun _ => ABD.Rpc.ok, write := fun _ => ABD.Rpc.connect_fails,
        u1 := fun _ => CInt.zero, u2 := fun _ => CInt.zero } (fun _ => Store.empty)).1
      1 "k".toList).tag = (0, 0) ∧
    ABD.new_tag (ABD.read_phase "k".toList (List.range 2) ABD.Net.allOk
      (fun _ => Store.empty)).2 2 ⟨1, by decide⟩ = (⟨1, by decide⟩, ⟨1, by decide⟩) ∧
    (ABD.put "k".toList "v".toList ⟨1, by decide⟩ 3
      { read := fun i => if i = 1 then ABD.Rpc.connect_fails else ABD.Rpc.ok,
        write := fun _ => ABD.Rpc.ok, u1 := fun _ => CInt.zero, u2 := fun _ => CInt.zero }
      (fun i => if i = 1 then
        (fun _ => { tag_lamport := ⟨5, by decide⟩, tag_cid := ⟨7, by decide⟩,
                    value := "old".toList })
        else Store.empty)).2 = true ∧
    (ABD.put "k".toList "v".toList ⟨1, by decide⟩ 3
      { read := fun i => if i = 1 then ABD.Rpc.connect_fails else ABD.Rpc.ok,
        write := fun _ => ABD.Rpc.ok, u1 := fun _ => CInt.zero, u2 := fun _ => CInt.zero }
      (fun i => if i = 1 then
        (fun _ => { tag_lamport := ⟨5, by decide⟩, tag_cid := ⟨7, by decide⟩,
                    value := "old".toList })
        else Store.empty)).1 1 "k".toList =
      { tag_lamport := ⟨5, by decide⟩, tag_cid := ⟨7, by decide⟩, value := "old".toList } ∧
    ((ABD.put "k".toList " v".toList ⟨1, by decide⟩ 3 ABD.Net.allOk
      (fun _ => Store.empty)).1 0 "k".toList).value = "v".toList ∧
    (ABD.put "a b".toList "v".toList ⟨1, by decide⟩ 3 ABD.Net.allOk
      (fun _ => Store.empty)).1 0 "a b".toList = {} ∧
    ((ABD.put "k".toList "v".toList ⟨1, by decide⟩ 3 ABD.Net.allOk
      (fun _ => fun _ => { tag_lamport := ⟨2147483647, by decide⟩ })).1 0 "k".toList).tag ≠
      (2147483647 + 1, 1) := by
  refine ⟨rfl, by decide, by decide, by decide, rfl, by decide, by decide, by decide,
    by decide⟩

/-- C9, on three fresh replicas with every connection succeeding: `put("k", " v", 1)`
returns `true`, and some `m` is the greatest lamport component stored before the call. -/
theorem abd_put_quorum_witness :
    (ABD.put "k".toList " v".toList ⟨1, by decide⟩ 3 ABD.Net.allOk (fun _ => Store.empty)).2 =
      true ∧
    ∃ m : Int, (∃ i, i < 3 / 2 + 1 ∧ (Store.empty "k".toList).tag_lamport.val = m) ∧
      (∀ i, i < 3 / 2 + 1 → (Store.empty "k".toList).tag_lamport.val ≤ m) ∧
      ∀ i, i < 3 / 2 + 1 →
        ((ABD.put "k".toList " v".toList ⟨1, by decide⟩ 3 ABD.Net.allOk
          (fun _ => Store.empty)).1 i "k".toList).tag = (m + 1, 1) ∧
        ((ABD.put "k".toList " v".toList ⟨1, by decide⟩ 3 ABD.Net.allOk
          (fun _ => Store.empty)).1 i "k".toList).value = wireValue " v".toList :=
  ⟨abd_put_quorum.1 _ _ _ _ _ _,
    abd_put_quorum.2 "k".toList " v".toList ⟨1, by decide⟩ 3 ABD.Net.allOk
      (fun _ => Store.empty) (by decide) (fun _ _ => ⟨rfl, rfl⟩)
      (fun _ _ => (by decide : (Store.empty "k".toList).tag_lamport.val < 2147483647))⟩

/-! ## Successive reads of the ABD register -/

/-- The tag a `get` selects on a well-formed key is the tag stored for the key at one of
the `R` replicas, and `get` succeeds exactly when it selects a tag. -/
theorem selected_spec (key : Str) (hk : wfKey key) (N : Nat) (out : Str) (net : ABD.Net)
    (cl : ABD.Cluster) (T : Tag) (h : ABD.selected key N net cl = some T) :
    (∃ j, j < N / 2 + 1 ∧ T = (cl j key).tag) ∧
    (ABD.get key N out net cl).2.1 = true ∧
    ∃ ti tc : CInt, ∃ val : Str, T = (ti.val, tc.val) ∧
      (ABD.get key N out net cl).1 =
        ABD.write_phase key ti tc val (List.range (N / 2 + 1)) net cl := by
  obtain ⟨hcl, hlen, hslot⟩ := read_phase_spec (N / 2 + 1) key hk net cl
  have hf := find_highest_tag_mem _ _ hlen CInt.negOne CInt.negOne []
  unfold ABD.selected at h
  simp only [] at h
  by_cases hfail : (ABD.find_highest_tag (ABD.read_phase key (List.range (N / 2 + 1)) net cl).2
      (N / 2 + 1) CInt.negOne CInt.negOne []).1 = false
  · rw [if_pos hfail] at h
    exact absurd h (by simp)
  · rw [if_neg hfail] at h
    obtain ⟨r, hr, hrv, -, heq⟩ := hf.2.2 (by simpa using hfail)
    obtain ⟨j, hj, hjr⟩ := getD_of_mem _ r hr
    rw [hlen] at hj
    have hsv := slot_valid (net.read j) (cl j key) (by rw [← hslot j hj, hjr]; exact hrv)
    rw [← hslot j hj, hjr] at hsv
    rw [heq] at h
    simp only [Option.some.injEq] at h
    refine ⟨⟨j, hj, ?_⟩, ?_, r.t_int, r.t_client, r.value, h.symm, ?_⟩
    · rw [← h, hsv.1, hsv.2]
      rfl
    · unfold ABD.get
      simp only []
      rw [if_neg hfail]
    · unfold ABD.get
      simp only []
      rw [if_neg hfail, heq, hcl]

/-- C10, as the code has it. On a key that is a well-formed token: when a `get` selects the
tag `T` and each of its `R` write-back requests reaches its replica, every `get` on the key
that runs after it, whatever calls of `get` and `put` come in between and whatever
connections fail in them, selects, when it selects a tag, a tag greater than or equal to
`T`. -/
theorem abd_reads_monotone (key : Str) (N : Nat) (out : Str) (net net2 : ABD.Net)
    (cl : ABD.Cluster) (ops : List ABD.Op) (T T2 : Tag) (hk : wfKey key)
    (hwb : ∀ i, i < N / 2 + 1 → (net.write i).delivered = true)
    (h1 : ABD.selected key N net cl = some T)
    (h2 : ABD.selected key N net2 (ABD.execAll N (ABD.get key N out net cl).1 ops) = some T2) :
    (ABD.get key N out net cl).2.1 = true ∧ Tag.le T T2 := by
  obtain ⟨-, hget, ti, tc, val, hT, hcl1⟩ := selected_spec key hk N out net cl T h1
  obtain ⟨⟨j, hj, hT2⟩, -, -⟩ := selected_spec key hk N out net2 _ T2 h2
  refine ⟨hget, ?_⟩
  rw [hT2]
  refine Tag.le_trans ?_ (execAll_le N ops _ j key)
  rw [hcl1, write_phase_spec (N / 2 + 1) key hk, if_pos ⟨hj, hwb j hj⟩, hT]
  simp only [Function.update_same]
  exact abd_write_cell_tag_ge _ _ _ _

/-- C10, counterexamples on three replicas (`R = 2`), from the empty store. Client 7 puts
`"old"` on `k`, its write reaching the first replica only; a `get` reads both replicas and
selects `(1, 7)`, its write-back to the second replica failing; a later `get` that reaches
the second replica only succeeds and selects `(0, 0)`. The same happens with every
write-back delivered when the key is `"a b"`, which the replicas read as the key `"a"`. -/
theorem abd_later_read_selects_smaller_tag :
    (ABD.selected "k".toList 3 ABD.Net.allOk
      (ABD.execAll 3 (fun _ => Store.empty)
        [ABD.Op.put "k".toList "old".toList ⟨7, by decide⟩
          { read := fun _ => ABD.Rpc.ok,
            write := fun i => if i = 0 then ABD.Rpc.ok else ABD.Rpc.connect_fails,
            u1 := fun _ => CInt.zero, u2 := fun _ => CInt.zero }]) = some (1, 7) ∧
    ABD.selected "k".toList 3
      { read := fun i => if i = 0 then ABD.Rpc.connect_fails else ABD.Rpc.ok,
        write := fun _ => ABD.Rpc.ok, u1 := fun _ => CInt.zero, u2 := fun _ => CInt.zero }
      (ABD.execAll 3 (fun _ => Store.empty)
        [ABD.Op.put "k".toList "old".toList ⟨7, by decide⟩
          { read := fun _ => ABD.Rpc.ok,
            write := fun i => if i = 0 then ABD.Rpc.ok else ABD.Rpc.connect_fails,
            u1 := fun _ => CInt.zero, u2 := fun _ => CInt.zero },
         ABD.Op.get "k".toList []
          { read := fun _ => ABD.Rpc.ok,
            write := fun i => if i = 0 then ABD.Rpc.ok else ABD.Rpc.connect_fails,
            u1 := fun _ => CInt.zero, u2 := fun _ => CInt.zero }]) = some (0, 0) ∧
    ¬ Tag.le (1, 7) (0, 0)) ∧
    (ABD.selected "a b".toList 3 ABD.Net.allOk
      (ABD.execAll 3 (fun _ => Store.empty)
        [ABD.Op.put "a".toList "old".toList ⟨7, by decide⟩
          { read := fun _ => ABD.Rpc.ok,
            write := fun i => if i = 0 then ABD.Rpc.ok else ABD.Rpc.connect_fails,
            u1 := fun _ => CInt.zero, u2 := fun _ => CInt.zero }]) = some (1, 7) ∧
    ABD.selected "a b".toList 3
      { read := fun i => if i = 0 then ABD.Rpc.connect_fails else ABD.Rpc.ok,
        write := fun _ => ABD.Rpc.ok, u1 := fun _ => CInt.zero, u2 := fun _ => CInt.zero }
      (ABD.execAll 3 (fun _ => Store.empty)
        [ABD.Op.put "a".toList "old".toList ⟨7, by decide⟩
          { read := fun _ => ABD.Rpc.ok,
            write := fun i => if i = 0 then ABD.Rpc.ok else ABD.Rpc.connect_fails,
            u1 := fun _ => CInt.zero, u2 := fun _ => CInt.zero },
         ABD.Op.get "a b".toList [] ABD.Net.allOk]) = some (0, 0)) := by
  refine ⟨⟨by decide, by decide, by decide⟩, by decide, by decide⟩

/-- C10, on three fresh replicas: client 7 puts on `k` with every connection succeeding, a
`get` selects `(1, 7)`, and a later `get` that reaches the second replica only selects
`(1, 7)` again. -/
theorem abd_reads_monotone_witness :
    (ABD.get "k".toList 3 [] ABD.Net.allOk
      (ABD.execAll 3 (fun _ => Store.empty)
        [ABD.Op.put "k".toList "old".toList ⟨7, by decide⟩ ABD.Net.allOk])).2.1 = true ∧
    Tag.le (1, 7) (1, 7) :=
  abd_reads_monotone "k".toList 3 [] ABD.Net.allOk
    { read := fun i => if i = 0 then ABD.Rpc.connect_fails else ABD.Rpc.ok,
      write := fun _ => ABD.Rpc.ok, u1 := fun _ => CInt.zero, u2 := fun _ => CInt.zero }
    (ABD.execAll 3 (fun _ => Store.empty)
      [ABD.Op.put "k".toList "old".toList ⟨7, by decide⟩ ABD.Net.allOk])
    [] (1, 7) (1, 7) (by decide) (fun _ _ => rfl) (by decide) (by decide)

/-! ## Read-repair by the ABD `get` -/

theorem dropWhile_head_not (p : Char → Bool) (v : Str) :
    ∀ c, (v.dropWhile p).head? = some c → p c = false := by
  induction v with
  | nil => intro c hc; simp at hc
  | cons x xs ih =>
    intro c hc
    rw [List.dropWhile_cons] at hc
    by_cases hx : p x = true
    · rw [if_pos hx] at hc
      exact ih c hc
    · rw [if_neg hx] at hc
      simp only [List.head?_cons, Option.some.injEq] at hc
      rw [← hc]
      simpa using hx

theorem wireValue_no_newline (v : Str) : ∀ c ∈ wireValue v, c ≠ '\n' := by
  intro c hc
  have h1 : c ∈ v.takeWhile (fun x => x != '\n') := (List.dropWhile_sublist _).subset hc
  have := List.mem_takeWhile_imp h1
  simpa using this

theorem wireValue_head (v : Str) : ∀ c, (wireValue v).head? = some c → isspace c = false :=
  dropWhile_head_not isspace _

/-- A value without newline that does not start with white space is transmitted as it
is. -/
theorem wireValue_fix (v : Str) (h1 : ∀ c ∈ v, c ≠ '\n')
    (h2 : ∀ c, v.head? = some c → isspace c = false) : wireValue v = v := by
  have ht : v.takeWhile (fun x => x != '\n') = v := by
    have := takeWhile_block (fun x => x != '\n') v [] (fun c hc => by simpa using h1 c hc)
      (by simp)
    simpa using this.1
  unfold wireValue
  rw [ht]
  cases v with
  | nil => rfl
  | cons x xs =>
    have := h2 x rfl
    rw [List.dropWhile_cons, this]
    rfl

theorem wireValue_idem (v : Str) : wireValue (wireValue v) = wireValue v :=
  wireValue_fix _ (wireValue_no_newline v) (wireValue_head v)

/-- A `get` on a well-formed key whose reads all succeed returns the transmitted value of a
replica whose tag is the greatest among the `R` replicas, and writes that tag and value
back. -/
theorem get_reads_ok (key : Str) (hk : wfKey key) (N : Nat) (out : Str) (net : ABD.Net)
    (cl : ABD.Cluster) (hnet : ∀ i, i < N / 2 + 1 → net.read i = ABD.Rpc.ok) :
    ∃ j, j < N / 2 + 1 ∧ (∀ i, i < N / 2 + 1 → Tag.le (cl i key).tag (cl j key).tag) ∧
      ABD.get key N out net cl =
        (ABD.write_phase key (cl j key).tag_lamport (cl j key).tag_cid
          (wireValue (cl j key).value) (List.range (N / 2 + 1)) net cl, true,
          wireValue (cl j key).value) := by
  obtain ⟨hcl, hlen, hslot⟩ := read_phase_spec (N / 2 + 1) key hk net cl
  have hslot2 : ∀ i, i < N / 2 + 1 →
      (ABD.read_phase key (List.range (N / 2 + 1)) net cl).2.getD i {} =
        { t_int := (cl i key).tag_lamport, t_client := (cl i key).tag_cid,
          value := wireValue (cl i key).value, valid := true } := by
    intro i hi
    rw [hslot i hi, hnet i hi]
    rfl
  have hf := find_highest_tag_mem _ _ hlen CInt.negOne CInt.negOne []
  have hsome : (ABD.find_highest_tag (ABD.read_phase key (List.range (N / 2 + 1)) net cl).2
      (N / 2 + 1) CInt.negOne CInt.negOne []).1 = true := by
    by_contra hc
    have h0 := hf.1.1 (by simpa using hc) _
      (mem_of_getD _ 0 (by rw [hlen]; exact Nat.succ_pos _))
    rw [hslot2 0 (Nat.succ_pos _)] at h0
    simp at h0
  obtain ⟨r, hr, -, hrmax, heq⟩ := hf.2.2 hsome
  obtain ⟨j, hj, hjr⟩ := getD_of_mem _ r hr
  rw [hlen] at hj
  rw [hslot2 j hj] at hjr
  refine ⟨j, hj, fun i hi => ?_, ?_⟩
  · have hmem := mem_of_getD (ABD.read_phase key (List.range (N / 2 + 1)) net cl).2 i
      (by rw [hlen]; exact hi)
    have := hrmax _ hmem (by rw [hslot2 i hi])
    rw [hslot2 i hi, ← hjr] at this
    exact this
  · unfold ABD.get
    simp only []
    rw [if_neg (by rw [hsome]; decide), heq, hcl, ← hjr]

/-- C12, as the code has it. On a key that is a well-formed token, over replicas whose
stored lamport components are below `INT_MAX`, when every read of the `R` replicas succeeds
in both calls and every write request of `put` reaches its replica, `put(k, v, c1)`
followed by `get(k)` returns `true` with `out` equal to `v` as the framing transmits it:
the text of `v` before the first newline, without its leading white space. This is `v`
itself when `v` has no newline and does not start with white space. -/
theorem abd_read_your_writes (key value : Str) (c1 : CInt) (N : Nat) (out : Str)
    (net1 net2 : ABD.Net) (cl : ABD.Cluster) (hk : wfKey key)
    (h1 : ∀ i, i < N / 2 + 1 → net1.read i = ABD.Rpc.ok ∧ (net1.write i).delivered = true)
    (h2 : ∀ i, i < N / 2 + 1 → net2.read i = ABD.Rpc.ok)
    (hmax : ∀ i, i < N / 2 + 1 → (cl i key).tag_lamport.val < 2147483647) :
    (ABD.put key value c1 N net1 cl).2 = true ∧
    (ABD.get key N out net2 (ABD.put key value c1 N net1 cl).1).2 = (true, wireValue value) ∧
    ((∀ c ∈ value, c ≠ '\n') → (∀ c, value.head? = some c → isspace c = false) →
      (ABD.get key N out net2 (ABD.put key value c1 N net1 cl).1).2 = (true, value)) := by
  obtain ⟨m, -, -, hput⟩ := put_all_ok key value c1 N net1 cl hk h1 hmax
  obtain ⟨j, hj, -, hget⟩ := get_reads_ok key hk N out net2
    (ABD.put key value c1 N net1 cl).1 h2
  have hval : (ABD.get key N out net2 (ABD.put key value c1 N net1 cl).1).2 =
      (true, wireValue value) := by
    rw [hget, (hput j hj).2, wireValue_idem]
  refine ⟨rfl, hval, fun hn hh => ?_⟩
  rw [hval, wireValue_fix value hn hh]

/-- C12, counterexamples on three replicas (`R = 2`) with every connection succeeding. On
fresh replicas, `put("k", " alpha", 1)` followed by `get("k")` returns `"alpha"`, without
the leading blank; `put("", "alpha", 1)` on the empty key followed by `get("")` returns the
empty value. Over replicas that hold the tag `(INT_MAX, INT_MAX)` with the value `"old"`,
`put("k", "alpha", 1)` followed by `get("k")` returns `"old"`. -/
theorem abd_read_your_writes_fails :
    ((ABD.get "k".toList 3 [] ABD.Net.allOk
        (ABD.put "k".toList " alpha".toList ⟨1, by decide⟩ 3 ABD.Net.allOk
          (fun _ => Store.empty)).1).2 = (true, "alpha".toList) ∧
      "alpha".toList ≠ " alpha".toList) ∧
    (ABD.get [] 3 [] ABD.Net.allOk
        (ABD.put [] "alpha".toList ⟨1, by decide⟩ 3 ABD.Net.allOk
          (fun _ => Store.empty)).1).2 = (true, []) ∧
    (ABD.get "k".toList 3 [] ABD.Net.allOk
        (ABD.put "k".toList "alpha".toList ⟨1, by decide⟩ 3 ABD.Net.allOk
          (fun _ => fun _ =>
            { tag_lamport := ⟨2147483647, by decide⟩, tag_cid := ⟨2147483647, by decide⟩,
              value := "old".toList })).1).2 = (true, "old".toList) := by
  refine ⟨⟨by decide, by decide⟩, by decide, by decide⟩

/-- C12, on the scenario of the specification: on three fresh replicas with every
connection succeeding, `put("k", "alpha", 1)` followed by `get("k")` returns `"alpha"`; the
first two replicas end with the tag `(1, 1)` and the third keeps `(0, 0)`. -/
theorem abd_read_your_writes_witness :
    (ABD.get "k".toList 3 [] ABD.Net.allOk
        (ABD.put "k".toList "alpha".toList ⟨1, by decide⟩ 3 ABD.Net.allOk
          (fun _ => Store.empty)).1).2 = (true, "alpha".toList) ∧
    ((ABD.get "k".toList 3 [] ABD.Net.allOk
        (ABD.put "k".toList "alpha".toList ⟨1, by decide⟩ 3 ABD.Net.allOk
          (fun _ => Store.empty)).1).1 0 "k".toList).tag = (1, 1) ∧
    ((ABD.get "k".toList 3 [] ABD.Net.allOk
        (ABD.put "k".toList "alpha".toList ⟨1, by decide⟩ 3 ABD.Net.allOk
          (fun _ => Store.empty)).1).1 1 "k".toList).tag = (1, 1) ∧
    ((ABD.get "k".toList 3 [] ABD.Net.allOk
        (ABD.put "k".toList "alpha".toList ⟨1, by decide⟩ 3 ABD.Net.allOk
          (fun _ => Store.empty)).1).1 2 "k".toList).tag = (0, 0) :=
  ⟨(abd_read_your_writes "k".toList "alpha".toList ⟨1, by decide⟩ 3 [] ABD.Net.allOk
      ABD.Net.allOk (fun _ => Store.empty) (by decide) (fun _ _ => ⟨rfl, rfl⟩)
      (fun _ _ => rfl)
      (fun _ _ => (by decide : (Store.empty "k".toList).tag_lamport.val < 2147483647))).2.2
      (by decide) (by decide),
    by decide, by decide, by decide⟩

/-! ## Quorum arithmetic -/

/-- C13. Quorum intersection. For every number `N ≥ 1` of replicas, the quorum size
`R = N/2 + 1` (integer division) that both clients compute satisfies `2 * R > N` and
`R ≤ N`, so that the indices `0..R-1` the ABD client contacts are indices of replicas, and
any two sets of `R` replica indices drawn from `0..N-1` have an index in common. -/
theorem quorum_intersection (N : Nat) (hN : 1 ≤ N) :
    2 * Blocking.quorum N > N ∧ Blocking.quorum N ≤ N ∧
    (∀ i ∈ List.range (Blocking.quorum N), i < N) ∧
    ∀ A B : Finset Nat, A ⊆ Finset.range N → B ⊆ Finset.range N →
      A.card = Blocking.quorum N → B.card = Blocking.quorum N → (A ∩ B).Nonempty := by
  have h1 : 2 * Blocking.quorum N > N := by unfold Blocking.quorum; omega
  have h2 : Blocking.quorum N ≤ N := by unfold Blocking.quorum; omega
  refine ⟨h1, h2, fun i hi => Nat.lt_of_lt_of_le (List.mem_range.1 hi) h2,
    fun A B hA hB hcA hcB => ?_⟩
  have hu : (A ∪ B).card ≤ N := by
    have := Finset.card_le_card (Finset.union_subset hA hB)
    simpa using this
  have hsum := Finset.card_union_add_card_inter A B
  have hpos : 0 < (A ∩ B).card := by omega
  exact Finset.card_pos.1 hpos

/-- C13, on three replicas: the quorum size is 2, and the sets `{0, 1}` and `{1, 2}` have
an index in common. -/
theorem quorum_intersection_witness :
    2 * Blocking.quorum 3 > 3 ∧ Blocking.quorum 3 ≤ 3 ∧
    (({0, 1} : Finset Nat) ∩ {1, 2}).Nonempty :=
  ⟨(quorum_intersection 3 (by decide)).1, (quorum_intersection 3 (by decide)).2.1,
    (quorum_intersection 3 (by decide)).2.2.2 {0, 1} {1, 2} (by decide) (by decide)
      (by decide) (by decide)⟩

/-! ## The locks held by the Blocking client -/

theorem acqInv_step (N R : Nat) (resp : Nat → Option Str) (s : Blocking.Acq)
    (e : Blocking.Event) (h : AcqInv N R resp s) :
    AcqInv N R resp (Blocking.acquire_step N R resp s e) := by
  cases e with
  | start i =>
    simp only [Blocking.acquire_step]
    split
    · exact h
    · next hni =>
      have hi : i < N := by
        by_contra hc
        exact hni (Or.inl (by omega))
      have hran : i ∉ s.ran := fun hc => hni (Or.inr hc)
      have hfo : ∀ j ∈ s.inflight, j ∈ i :: s.tried ∧ j ∈ i :: s.ran ∧ j ∉ s.granted :=
        fun j hj => ⟨List.mem_cons_of_mem _ (h.flightOk j hj).1,
          List.mem_cons_of_mem _ (h.flightOk j hj).2.1, (h.flightOk j hj).2.2⟩
      have hgo : ∀ j ∈ s.granted, j ∈ i :: s.tried ∧ j ∈ i :: s.ran :=
        fun j hj => ⟨List.mem_cons_of_mem _ (h.grantOk j hj).1,
          List.mem_cons_of_mem _ (h.grantOk j hj).2⟩
      split
      · exact ⟨h.down, h.up, h.le, h.grant, h.flight, h.nodup,
          fun j hj => ⟨(h.flightOk j hj).1, List.mem_cons_of_mem _ (h.flightOk j hj).2.1,
            (h.flightOk j hj).2.2⟩,
          fun j hj => ⟨(h.grantOk j hj).1, List.mem_cons_of_mem _ (h.grantOk j hj).2⟩⟩
      · split
        · exact ⟨h.down, h.up, h.le, h.grant, h.flight, h.nodup, hfo, hgo⟩
        · refine ⟨h.down, h.up, h.le, h.grant, fun j hj => ?_, h.nodup, fun j hj => ?_, hgo⟩
          · rcases List.mem_cons.1 hj with hj | hj
            · rw [hj]; exact hi
            · exact h.flight j hj
          · rcases List.mem_cons.1 hj with hj | hj
            · rw [hj]
              exact ⟨List.mem_cons_self _ _, List.mem_cons_self _ _,
                fun hc => hran (h.grantOk i hc).2⟩
            · exact hfo j hj
  | reply i =>
    have hfl : ∀ j ∈ s.inflight.filter (fun j => j ≠ i), j < N :=
      fun j hj => h.flight j (List.mem_of_mem_filter hj)
    have hfo : ∀ j ∈ s.inflight.filter (fun j => j ≠ i),
        j ∈ s.tried ∧ j ∈ s.ran ∧ j ∉ s.granted :=
      fun j hj => h.flightOk j (List.mem_of_mem_filter hj)
    simp only [Blocking.acquire_step]
    split
    · next hin =>
      split
      · next hg =>
        split
        · next hs =>
          have hlt := h.down hs
          have hio := h.flightOk i hin
          refine ⟨fun hd => ?_, fun hu => ?_, ?_, fun j hj => ?_, hfl, ?_, fun j hj => ?_,
            fun j hj => ?_⟩
          · simp only [decide_eq_false_iff_not, List.length_append, List.length_singleton,
              not_le] at hd ⊢
            exact hd
          · simpa using hu
          · simp only [List.length_append, List.length_singleton]
            omega
          · rcases List.mem_append.1 hj with hj | hj
            · exact h.grant j hj
            · simp only [List.mem_singleton] at hj
              rw [hj]
              exact ⟨h.flight i hin, hg⟩
          · refine List.Nodup.append h.nodup (List.nodup_singleton i) ?_
            intro x hx1 hx2
            simp only [List.mem_singleton] at hx2
            rw [hx2] at hx1
            exact hio.2.2 hx1
          · have hj1 := List.mem_of_mem_filter hj
            have hj2 : j ≠ i := by simpa using (List.mem_filter.1 hj).2
            refine ⟨(h.flightOk j hj1).1, (h.flightOk j hj1).2.1, fun hc => ?_⟩
            rcases List.mem_append.1 hc with hc | hc
            · exact (h.flightOk j hj1).2.2 hc
            · simp only [List.mem_singleton] at hc
              exact hj2 hc
          · rcases List.mem_append.1 hj with hj | hj
            · exact h.grantOk j hj
            · simp only [List.mem_singleton] at hj
              rw [hj]
              exact ⟨hio.1, hio.2.1⟩
        · exact ⟨h.down, h.up, h.le, h.grant, hfl, h.nodup, hfo, h.grantOk⟩
      · exact ⟨h.down, h.up, h.le, h.grant, hfl, h.nodup, hfo, h.grantOk⟩
    · exact h

theorem acqInv_fold (N R : Nat) (resp : Nat → Option Str) (evs : List Blocking.Event) :
    ∀ s, AcqInv N R resp s → AcqInv N R resp (evs.foldl (Blocking.acquire_step N R resp) s) := by
  induction evs with
  | nil => intro s h; exact h
  | cons e evs ih => intro s h; exact ih _ (acqInv_step N R resp s e h)

theorem acqInv_run (N : Nat) (resp : Nat → Option Str) (sched : List Blocking.Event) :
    AcqInv N (N / 2 + 1) resp (Blocking.acquire_run N resp sched) :=
  acqInv_fold N (N / 2 + 1) resp sched _
    ⟨fun _ => Nat.succ_pos _, fun h => by simp at h, Nat.zero_le _,
      fun i hi => by simp at hi, fun i hi => by simp at hi, List.nodup_nil,
      fun i hi => by simp at hi, fun i hi => by simp at hi⟩

/-- What a step of a thread keeps: a raised flag, the recorded grants, the threads that
have not run as long as they do not start, the threads in flight as long as their reply is
not processed. -/
theorem acquire_step_keeps (N R : Nat) (resp : Nat → Option Str) (s : Blocking.Acq)
    (e : Blocking.Event) (i : Nat) :
    (s.stop = true → (Blocking.acquire_step N R resp s e).stop = true) ∧
    (i ∈ s.granted → i ∈ (Blocking.acquire_step N R resp s e).granted) ∧
    (i ∉ s.ran → e ≠ Blocking.Event.start i →
      i ∉ (Blocking.acquire_step N R resp s e).ran) ∧
    (i ∈ s.inflight → e ≠ Blocking.Event.reply i →
      i ∈ (Blocking.acquire_step N R resp s e).inflight) := by
  cases e with
  | start j =>
    have hran : i ∉ s.ran → Blocking.Event.start j ≠ Blocking.Event.start i →
        i ∉ j :: s.ran := by
      intro h1 h2 hc
      rcases List.mem_cons.1 hc with hc | hc
      · exact h2 (by rw [hc])
      · exact h1 hc
    simp only [Blocking.acquire_step]
    split
    · exact ⟨id, id, fun h _ => h, fun h _ => h⟩
    · split
      · exact ⟨id, id, hran, fun h _ => h⟩
      · split
        · exact ⟨id, id, hran, fun h _ => h⟩
        · exact ⟨id, id, hran, fun h _ => List.mem_cons_of_mem _ h⟩
  | reply j =>
    have hfl : i ∈ s.inflight → Blocking.Event.reply j ≠ Blocking.Event.reply i →
        i ∈ s.inflight.filter (fun k => k ≠ j) := by
      intro h1 h2
      refine List.mem_filter.2 ⟨h1, ?_⟩
      simp only [ne_eq, decide_not, Bool.not_eq_true', decide_eq_false_iff_not]
      intro hc
      exact h2 (by rw [hc])
    simp only [Blocking.acquire_step]
    split
    · split
      · split
        · next hs =>
          refine ⟨fun h => ?_, fun h => List.mem_append_left _ h, fun h _ => h, hfl⟩
          rw [hs] at h
          exact absurd h (by decide)
        · exact ⟨id, id, fun h _ => h, hfl⟩
      · exact ⟨id, id, fun h _ => h, hfl⟩
    · exact ⟨id, id, fun h _ => h, fun h _ => h⟩

theorem acquire_fold_keeps (N R : Nat) (resp : Nat → Option Str) (i : Nat)
    (evs : List Blocking.Event) :
    ∀ s : Blocking.Acq,
      (s.stop = true → (evs.foldl (Blocking.acquire_step N R resp) s).stop = true) ∧
      (i ∈ s.granted → i ∈ (evs.foldl (Blocking.acquire_step N R resp) s).granted) ∧
      (i ∉ s.ran → Blocking.Event.start i ∉ evs →
        i ∉ (evs.foldl (Blocking.acquire_step N R resp) s).ran) ∧
      (i ∈ s.inflight → Blocking.Event.reply i ∉ evs →
        i ∈ (evs.foldl (Blocking.acquire_step N R resp) s).inflight) := by
  induction evs with
  | nil => intro s; exact ⟨id, id, fun h _ => h, fun h _ => h⟩
  | cons e evs ih =>
    intro s
    have hs := acquire_step_keeps N R resp s e i
    have hi := ih (Blocking.acquire_step N R resp s e)
    refine ⟨fun h => hi.1 (hs.1 h), fun h => hi.2.1 (hs.2.1 h), fun h1 h2 => ?_,
      fun h1 h2 => ?_⟩
    · exact hi.2.2.1 (hs.2.2.1 h1 (fun hc => h2 (by rw [hc]; exact List.mem_cons_self _ _)))
        (fun hc => h2 (List.mem_cons_of_mem _ hc))
    · exact hi.2.2.2 (hs.2.2.2 h1 (fun hc => h2 (by rw [hc]; exact List.mem_cons_self _ _)))
        (fun hc => h2 (List.mem_cons_of_mem _ hc))

/-- An element of a list splits it at its first occurrence. -/
theorem split_first (e : Blocking.Event) (l : List Blocking.Event) (h : e ∈ l) :
    ∃ mid post, l = mid ++ e :: post ∧ e ∉ mid := by
  induction l with
  | nil => simp at h
  | cons x xs ih =>
    by_cases hx : x = e
    · exact ⟨[], xs, by rw [hx]; rfl, by simp⟩
    · rcases List.mem_cons.1 h with h | h
      · exact absurd h.symm hx
      · obtain ⟨mid, post, h1, h2⟩ := ih h
        refine ⟨x :: mid, post, by rw [h1]; rfl, fun hc => ?_⟩
        rcases List.mem_cons.1 hc with hc | hc
        · exact hx hc.symm
        · exact h2 hc

/-- A schedule that lets thread `i` run and then process its reply, cut at these steps. -/
theorem followed_split (i : Nat) (sched : List Blocking.Event)
    (h : Blocking.followed i sched = true) :
    ∃ pre mid post, sched = pre ++ Blocking.Event.start i :: (mid ++
        Blocking.Event.reply i :: post) ∧
      Blocking.Event.start i ∉ pre ∧ Blocking.Event.reply i ∉ mid := by
  induction sched with
  | nil => simp [Blocking.followed] at h
  | cons e es ih =>
    unfold Blocking.followed at h
    by_cases he : e = Blocking.Event.start i
    · rw [if_pos he] at h
      obtain ⟨mid, post, h1, h2⟩ := split_first _ es (by simpa using h)
      exact ⟨[], mid, post, by rw [he, h1]; rfl, by simp, h2⟩
    · rw [if_neg he] at h
      obtain ⟨pre, mid, post, h1, h2, h3⟩ := ih h
      refine ⟨e :: pre, mid, post, by rw [h1]; rfl, fun hc => ?_, h3⟩
      rcases List.mem_cons.1 hc with hc | hc
      · exact he hc.symm
      · exact h2 hc

/-- When the threads are joined with fewer than `R` grants recorded, the grant of every
thread that ran and processed its reply is recorded. -/
theorem acquire_complete (N : Nat) (resp : Nat → Option Str) (sched : List Blocking.Event)
    (i : Nat) (hi : i < N) (hf : Blocking.followed i sched = true)
    (hg : resp i = some "LOCK_GRANTED".toList)
    (hlen : (Blocking.acquire_run N resp sched).granted.length < N / 2 + 1) :
    i ∈ (Blocking.acquire_run N resp sched).granted := by
  obtain ⟨pre, mid, post, hs, hpre, hmid⟩ := followed_split i sched hf
  have hfinal : (Blocking.acquire_run N resp sched).stop = false := by
    cases hst : (Blocking.acquire_run N resp sched).stop with
    | false => rfl
    | true =>
      have := (acqInv_run N resp sched).up hst
      omega
  unfold Blocking.acquire_run at hlen hfinal ⊢
  rw [hs, List.foldl_append, List.foldl_cons, List.foldl_append, List.foldl_cons] at hfinal ⊢
  generalize hs1 : pre.foldl (Blocking.acquire_step N (N / 2 + 1) resp)
    { stop := false, granted := [], ran := [], tried := [], inflight := [] } = s1
    at hfinal ⊢
  have hran : i ∉ s1.ran := by
    rw [← hs1]
    exact (acquire_fold_keeps N (N / 2 + 1) resp i pre _).2.2.1 (by simp) hpre
  have down : ∀ (s : Blocking.Acq) (evs : List Blocking.Event),
      (evs.foldl (Blocking.acquire_step N (N / 2 + 1) resp) s).stop = false →
        s.stop = false := by
    intro s evs h
    cases hst : s.stop with
    | false => rfl
    | true =>
      have := (acquire_fold_keeps N (N / 2 + 1) resp i evs s).1 hst
      rw [this] at h
      exact absurd h (by decide)
  have hstop3 := down _ (Blocking.Event.reply i :: post) (by rw [List.foldl_cons]; exact hfinal)
  have hstop2 := down _ mid hstop3
  have hstop1 := down s1 [Blocking.Event.start i] (by rw [List.foldl_cons]; exact hstop2)
  have hin2 : i ∈ (Blocking.acquire_step N (N / 2 + 1) resp s1
      (Blocking.Event.start i)).inflight := by
    have hcond : ¬ (N ≤ i ∨ i ∈ s1.ran) :=
      fun hc => hc.elim (fun h => absurd hi (by omega)) hran
    simp [Blocking.acquire_step, hcond, hstop1, hg]
  have hin3 := (acquire_fold_keeps N (N / 2 + 1) resp i mid _).2.2.2 hin2 hmid
  have hgr4 : i ∈ (Blocking.acquire_step N (N / 2 + 1) resp
      (mid.foldl (Blocking.acquire_step N (N / 2 + 1) resp)
        (Blocking.acquire_step N (N / 2 + 1) resp s1 (Blocking.Event.start i)))
      (Blocking.Event.reply i)).granted := by
    generalize mid.foldl (Blocking.acquire_step N (N / 2 + 1) resp)
      (Blocking.acquire_step N (N / 2 + 1) resp s1 (Blocking.Event.start i)) = s3
      at hin3 hstop3 ⊢
    simp [Blocking.acquire_step, hin3, hg, hstop3]
  exact (acquire_fold_keeps N (N / 2 + 1) resp i post _).2.1 hgr4

theorem resize_self (l : List Nat) (R : Nat) (h : l.length = R) : Blocking.resize l R = l := by
  unfold Blocking.resize
  rw [← h]
  simp


/-- A property of the state that every step of a loop keeps holds after the loop. -/
theorem foldl_keeps {α β : Type} (P : β → Prop) (f : β → α → β) (l : List α)
    (h : ∀ b a, a ∈ l → P b → P (f b a)) : ∀ b, P b → P (l.foldl f b) := by
  induction l with
  | nil => intro b hb; exact hb
  | cons a l ih =>
    intro b hb
    exact ih (fun b a ha => h b a (List.mem_cons_of_mem _ ha)) _
      (h b a (List.mem_cons_self _ _) hb)

theorem getD_mem_idx (idxs : List Nat) (k : Nat) (h : k < idxs.length) :
    idxs.getD k 0 ∈ idxs := by
  rw [List.getD_eq_getElem _ _ h]
  exact List.getElem_mem h

/-- The Blocking replica on the read request of a client. -/
theorem blk_handle_read_line (kv : Store) (key : Str) (hk : wfKey key) (now now2 : Int)
    (u1 u2 : CInt) :
    BlockingServer.handle_client kv (ABD.read_req_line key) now now2 u1 u2 =
      (Function.update kv key (BlockingServer.expire (kv key) now),
        some (AbdServer.read_resp (BlockingServer.expire (kv key) now))) := by
  have hsp : isspace ' ' = true := by decide
  have hline : ABD.read_req_line key = "READ_REQ ".toList ++ key ++ "\n".toList := rfl
  have hpre : ∀ c ∈ "READ_REQ ".toList, c ≠ '\n' := by decide
  have hkey : key.takeWhile (fun x => x != '\n') = key := by
    have := takeWhile_block (fun x => x != '\n') key []
      (fun c hc => by simpa using wfKey_no_newline key hk c hc) (by simp)
    simpa using this.1
  have hmsg : Network.recv_line (ABD.read_req_line key) = "READ_REQ".toList ++ ' ' :: key := by
    rw [hline, recv_line_framed _ _ hpre, hkey]
    simp
  unfold BlockingServer.handle_client
  simp only []
  rw [hmsg, if_neg (by simp), extractString_token "READ_REQ".toList (by decide) ' ' hsp]
  simp only []
  rw [if_neg (by decide), if_neg (by decide), if_pos trivial,
    extractString_skip ' ' hsp, extractString_last key hk]

theorem blk_expire_free_or (ks : KeyState) (cid : CInt) (now : Int)
    (h : BlockingServer.free_or ks cid) :
    BlockingServer.free_or (BlockingServer.expire ks now) cid := by
  unfold BlockingServer.expire
  split
  · exact Or.inr rfl
  · exact h

theorem blk_write_cell_free_or (ks : KeyState) (cid ti tc : CInt) (val : Str) (now : Int)
    (h : BlockingServer.free_or ks cid) :
    BlockingServer.free_or (BlockingServer.write_cell ks ti tc val now).1 cid := by
  have he := blk_expire_free_or ks cid now h
  unfold BlockingServer.write_cell
  simp only []
  split
  · split
    · exact he
    · exact he
  · exact he

theorem blk_unlock_cell_free (ks : KeyState) (cid : CInt) (now : Int)
    (h : BlockingServer.free_or ks cid) :
    (BlockingServer.unlock_cell ks cid now).locked_by = CInt.negOne := by
  unfold BlockingServer.unlock_cell
  split
  · rfl
  · next hn =>
    rcases h with h | h
    · exact absurd (Or.inl h) hn
    · exact h

/-- A cell granted to a client records the client and the deadline of the lease. -/
theorem blk_lock_cell_granted (ks : KeyState) (cid : CInt) (now now2 : Int)
    (h : (BlockingServer.lock_cell ks cid now now2).2 = true) :
    (BlockingServer.lock_cell ks cid now now2).1.locked_by = cid ∧
    (BlockingServer.lock_cell ks cid now now2).1.lock_expiry = now2 + 5000000000 := by
  unfold BlockingServer.lock_cell at h ⊢
  simp only [] at h ⊢
  split
  · exact ⟨rfl, by simp [seconds, LOCK_LEASE_SEC]⟩
  · next hn =>
    rw [if_neg hn] at h
    simp at h

/-- The read request of a client leaves the lock of the key free or with the client. -/
theorem blk_read_line_free_or (kv : Store) (key : Str) (hk : wfKey key) (cid : CInt)
    (now now2 : Int) (u1 u2 : CInt) (h : BlockingServer.free_or (kv key) cid) :
    BlockingServer.free_or
      ((BlockingServer.handle_client kv (ABD.read_req_line key) now now2 u1 u2).1 key) cid := by
  rw [blk_handle_read_line kv key hk]
  simp only [Function.update_same]
  exact blk_expire_free_or _ cid now h

/-- The write request of a client leaves the lock of the key free or with the client. -/
theorem blk_write_line_free_or (kv : Store) (key : Str) (hk : wfKey key) (cid ti tc : CInt)
    (value : Str) (now now2 : Int) (u1 u2 : CInt) (h : BlockingServer.free_or (kv key) cid) :
    BlockingServer.free_or
      ((BlockingServer.handle_client kv (Blocking.write_req_line key ti tc value)
        now now2 u1 u2).1 key) cid := by
  rw [blk_handle_write_line kv key hk]
  simp only [Function.update_same]
  exact blk_write_cell_free_or _ cid ti tc _ now h

/-- The unlock request of a client on a key that is free or locked by the client leaves
the key free. -/
theorem blk_unlock_line_free (kv : Store) (key : Str) (hk : wfKey key) (cid : CInt)
    (now now2 : Int) (u1 u2 : CInt) (h : BlockingServer.free_or (kv key) cid) :
    ((BlockingServer.handle_client kv (Blocking.unlock_line key cid) now now2 u1 u2).1
      key).locked_by = CInt.negOne := by
  rw [blk_handle_unlock_line kv key hk]
  simp only [Function.update_same]
  exact blk_unlock_cell_free _ cid now h

/-- A phase that talks to the replicas of `idxs` only: replacing the state of one of them
keeps the other replicas as they were, and keeps the lock of the key free or with the
client when the new state does. -/
theorem update_phase (key : Str) (cid : CInt) (idxs : List Nat) (cl c : ABD.Cluster)
    (idx : Nat) (hidx : idx ∈ idxs) (s : Store)
    (hs : BlockingServer.free_or (c idx key) cid → BlockingServer.free_or (s key) cid)
    (hP : ∀ i, (i ∉ idxs → c i = cl i) ∧
      (BlockingServer.free_or (cl i key) cid → BlockingServer.free_or (c i key) cid)) :
    ∀ i, (i ∉ idxs → Function.update c idx s i = cl i) ∧
      (BlockingServer.free_or (cl i key) cid →
        BlockingServer.free_or (Function.update c idx s i key) cid) := by
  intro i
  by_cases hi : i = idx
  · rw [hi]
    simp only [Function.update_same]
    exact ⟨fun h => absurd hidx h, fun h => hs ((hP idx).2 h)⟩
  · simp only [Function.update_noteq hi]
    exact hP i

/-- The function `read_quorum` leaves the replicas outside `server_idxs` as they were, and a
key that was free or locked by the client is so after it. -/
theorem read_quorum_cluster (key : Str) (hk : wfKey key) (cid : CInt) (idxs : List Nat)
    (net : Blocking.Net) (cl : ABD.Cluster) :
    ∀ i, (i ∉ idxs → (Blocking.read_quorum key idxs net cl).1 i = cl i) ∧
      (BlockingServer.free_or (cl i key) cid →
        BlockingServer.free_or ((Blocking.read_quorum key idxs net cl).1 i key) cid) := by
  unfold Blocking.read_quorum
  refine foldl_keeps
    (fun st : ABD.Cluster × List ReadResp => ∀ i, (i ∉ idxs → st.1 i = cl i) ∧
      (BlockingServer.free_or (cl i key) cid → BlockingServer.free_or (st.1 i key) cid))
    _ _ ?_ _ (fun i => ⟨fun _ => rfl, id⟩)
  intro st k hk2 hP
  have hlt : k < idxs.length := List.mem_range.1 hk2
  have hmem := getD_mem_idx idxs k hlt
  unfold Blocking.read_task
  simp only []
  split
  · exact hP
  · exact hP
  · exact update_phase key cid idxs cl st.1 _ hmem _
      (blk_read_line_free_or _ key hk cid _ _ _ _) hP
  · exact update_phase key cid idxs cl st.1 _ hmem _
      (blk_read_line_free_or _ key hk cid _ _ _ _) hP

/-- The function `read_quorum` leaves the replicas outside `server_idxs` as they were. -/
theorem read_quorum_outside (key : Str) (idxs : List Nat) (net : Blocking.Net)
    (cl : ABD.Cluster) :
    ∀ i, i ∉ idxs → (Blocking.read_quorum key idxs net cl).1 i = cl i := by
  unfold Blocking.read_quorum
  refine foldl_keeps
    (fun st : ABD.Cluster × List ReadResp => ∀ i, i ∉ idxs → st.1 i = cl i)
    _ _ ?_ _ (fun i _ => rfl)
  intro st k hk2 hP i hi
  have hlt : k < idxs.length := List.mem_range.1 hk2
  have hmem := getD_mem_idx idxs k hlt
  have hne : i ≠ idxs.getD k 0 := fun hc => hi (by rw [hc]; exact hmem)
  unfold Blocking.read_task
  simp only []
  split
  · exact hP i hi
  · exact hP i hi
  · simp only [Function.update_noteq hne]
    exact hP i hi
  · simp only [Function.update_noteq hne]
    exact hP i hi

/-- The function `write_quorum` leaves the replicas outside `server_idxs` as they were. -/
theorem write_quorum_outside (key : Str) (ti tc : CInt) (value : Str) (idxs : List Nat)
    (net : Blocking.Net) (cl : ABD.Cluster) :
    ∀ i, i ∉ idxs → (Blocking.write_quorum key ti tc value idxs net cl).1 i = cl i := by
  unfold Blocking.write_quorum
  simp only []
  refine foldl_keeps
    (fun st : ABD.Cluster × Nat => ∀ i, i ∉ idxs → st.1 i = cl i)
    _ _ ?_ _ (fun i _ => rfl)
  intro st k hk2 hP i hi
  have hlt : k < idxs.length := List.mem_range.1 hk2
  have hmem := getD_mem_idx idxs k hlt
  have hne : i ≠ idxs.getD k 0 := fun hc => hi (by rw [hc]; exact hmem)
  unfold Blocking.write_task
  simp only []
  split
  · exact hP i hi
  · exact hP i hi
  · simp only [Function.update_noteq hne]
    exact hP i hi
  · simp only [Function.update_noteq hne]
    exact hP i hi

/-- After the function `write_quorum` a key that was free or locked by the client is so
still. -/
theorem write_quorum_cluster (key : Str) (hk : wfKey key) (cid ti tc : CInt) (value : Str)
    (idxs : List Nat) (net : Blocking.Net) (cl : ABD.Cluster) :
    ∀ i, (i ∉ idxs → (Blocking.write_quorum key ti tc value idxs net cl).1 i = cl i) ∧
      (BlockingServer.free_or (cl i key) cid →
        BlockingServer.free_or
          ((Blocking.write_quorum key ti tc value idxs net cl).1 i key) cid) := by
  unfold Blocking.write_quorum
  simp only []
  refine foldl_keeps
    (fun st : ABD.Cluster × Nat => ∀ i, (i ∉ idxs → st.1 i = cl i) ∧
      (BlockingServer.free_or (cl i key) cid → BlockingServer.free_or (st.1 i key) cid))
    _ _ ?_ _ (fun i => ⟨fun _ => rfl, id⟩)
  intro st k hk2 hP
  have hlt : k < idxs.length := List.mem_range.1 hk2
  have hmem := getD_mem_idx idxs k hlt
  unfold Blocking.write_task
  simp only []
  split
  · exact hP
  · exact hP
  · exact update_phase key cid idxs cl st.1 _ hmem _
      (blk_write_line_free_or _ key hk cid ti tc value _ _ _ _) hP
  · exact update_phase key cid idxs cl st.1 _ hmem _
      (blk_write_line_free_or _ key hk cid ti tc value _ _ _ _) hP

/-- The function `unlock_quorum` on distinct indices: each replica of `server_idxs` that
the unlock connection reaches handles the unlock request, once, and every other replica is
as it was. -/
theorem unlock_quorum_spec (key : Str) (cid : CInt) (net : Blocking.Net) (idxs : List Nat)
    (hnd : idxs.Nodup) :
    ∀ (cl : ABD.Cluster) (i : Nat),
      Blocking.unlock_quorum key cid idxs net cl i =
        if i ∈ idxs ∧ (net.unlock i).delivered = true then
          (BlockingServer.handle_client (cl i) (Blocking.unlock_line key cid)
            (net.t_unlock i) (net.t_unlock i) (net.u1 i) (net.u2 i)).1
        else cl i := by
  induction idxs with
  | nil =>
    intro cl i
    simp [Blocking.unlock_quorum]
  | cons j rest ih =>
    intro cl i
    have hj : j ∉ rest := (List.nodup_cons.1 hnd).1
    have hrest := ih (List.nodup_cons.1 hnd).2
    unfold Blocking.unlock_quorum at hrest ⊢
    rw [List.foldl_cons, hrest]
    have htask : ∀ m, Blocking.unlock_task j key cid net cl m =
        if m = j ∧ (net.unlock m).delivered = true then
          (BlockingServer.handle_client (cl m) (Blocking.unlock_line key cid)
            (net.t_unlock m) (net.t_unlock m) (net.u1 m) (net.u2 m)).1
        else cl m := by
      intro m
      unfold Blocking.unlock_task
      by_cases hm : m = j
      · rw [hm]
        cases hu : net.unlock j <;> simp [ABD.Rpc.delivered]
      · cases hu : net.unlock j <;> simp [hm, Function.update_noteq hm]
    by_cases hi : i = j
    · have hir : i ∉ rest := by rw [hi]; exact hj
      rw [if_neg (fun h => hir h.1), htask i]
      simp [hi]
    · have : Blocking.unlock_task j key cid net cl i = cl i := by
        rw [htask i, if_neg (fun h => hi h.1)]
      rw [this]
      simp [hi]

/-- What a step of a thread keeps: the threads that made their exchange, and, once the
flag is raised, the flag and the vector `granted`. -/
theorem acquire_step_stopped (N R : Nat) (resp : Nat → Option Str) (s : Blocking.Acq)
    (e : Blocking.Event) :
    (∀ i, i ∈ s.tried → i ∈ (Blocking.acquire_step N R resp s e).tried) ∧
    (s.stop = true → (Blocking.acquire_step N R resp s e).stop = true ∧
      (Blocking.acquire_step N R resp s e).granted = s.granted) := by
  cases e with
  | start j =>
    simp only [Blocking.acquire_step]
    split
    · exact ⟨fun _ h => h, fun h => ⟨h, rfl⟩⟩
    · split
      · exact ⟨fun _ h => h, fun h => ⟨h, rfl⟩⟩
      · split
        · exact ⟨fun _ h => List.mem_cons_of_mem _ h, fun h => ⟨h, rfl⟩⟩
        · exact ⟨fun _ h => List.mem_cons_of_mem _ h, fun h => ⟨h, rfl⟩⟩
  | reply j =>
    simp only [Blocking.acquire_step]
    split
    · split
      · split
        · next hs =>
          refine ⟨fun _ h => h, fun h => ?_⟩
          rw [hs] at h
          exact absurd h (by decide)
        · exact ⟨fun _ h => h, fun h => ⟨h, rfl⟩⟩
      · exact ⟨fun _ h => h, fun h => ⟨h, rfl⟩⟩
    · exact ⟨fun _ h => h, fun h => ⟨h, rfl⟩⟩

theorem acquire_fold_stopped (N R : Nat) (resp : Nat → Option Str)
    (evs : List Blocking.Event) :
    ∀ s : Blocking.Acq,
      (∀ i, i ∈ s.tried → i ∈ (evs.foldl (Blocking.acquire_step N R resp) s).tried) ∧
      (s.stop = true → (evs.foldl (Blocking.acquire_step N R resp) s).granted = s.granted) := by
  induction evs with
  | nil => intro s; exact ⟨fun _ h => h, fun _ => rfl⟩
  | cons e evs ih =>
    intro s
    have hs := acquire_step_stopped N R resp s e
    have hi := ih (Blocking.acquire_step N R resp s e)
    refine ⟨fun i h => hi.1 i (hs.1 i h), fun h => ?_⟩
    rw [List.foldl_cons, hi.2 (hs.2 h).1, (hs.2 h).2]

/-- A reply processed while fewer than `R` grants are recorded: if it is a grant, it is
recorded and stays so. -/
theorem acquire_early (N : Nat) (resp : Nat → Option Str) (pre post : List Blocking.Event)
    (i : Nat) (hin : i ∈ (Blocking.acquire_run N resp pre).inflight)
    (hg : resp i = some "LOCK_GRANTED".toList)
    (hlen : (Blocking.acquire_run N resp pre).granted.length < N / 2 + 1) :
    i ∈ (Blocking.acquire_run N resp (pre ++ Blocking.Event.reply i :: post)).granted := by
  have hstop : (Blocking.acquire_run N resp pre).stop = false := by
    cases hst : (Blocking.acquire_run N resp pre).stop with
    | false => rfl
    | true =>
      have := (acqInv_run N resp pre).up hst
      omega
  unfold Blocking.acquire_run at hin hlen hstop ⊢
  rw [List.foldl_append, List.foldl_cons]
  generalize pre.foldl (Blocking.acquire_step N (N / 2 + 1) resp)
    { stop := false, granted := [], ran := [], tried := [], inflight := [] } = s1
    at hin hlen hstop ⊢
  refine (acquire_fold_keeps N (N / 2 + 1) resp i post _).2.1 ?_
  simp [Blocking.acquire_step, hin, hg, hstop]

/-- A reply processed when `R` grants are recorded: the thread made its exchange, and its
replica is not in the vector `granted` when the threads are joined. -/
theorem acquire_late (N : Nat) (resp : Nat → Option Str) (pre post : List Blocking.Event)
    (i : Nat) (hin : i ∈ (Blocking.acquire_run N resp pre).inflight)
    (hlen : N / 2 + 1 ≤ (Blocking.acquire_run N resp pre).granted.length) :
    i ∉ (Blocking.acquire_run N resp (pre ++ Blocking.Event.reply i :: post)).granted ∧
    i ∈ (Blocking.acquire_run N resp (pre ++ Blocking.Event.reply i :: post)).tried := by
  have hinv := acqInv_run N resp pre
  have hstop : (Blocking.acquire_run N resp pre).stop = true := by
    cases hst : (Blocking.acquire_run N resp pre).stop with
    | true => rfl
    | false =>
      have := hinv.down hst
      omega
  have hfo := hinv.flightOk i hin
  unfold Blocking.acquire_run at hstop hfo ⊢
  rw [List.foldl_append]
  generalize pre.foldl (Blocking.acquire_step N (N / 2 + 1) resp)
    { stop := false, granted := [], ran := [], tried := [], inflight := [] } = s1
    at hstop hfo ⊢
  have hf := acquire_fold_stopped N (N / 2 + 1) resp (Blocking.Event.reply i :: post) s1
  rw [hf.2 hstop]
  exact ⟨hfo.2.2, hf.1 i hfo.1⟩

/-- A thread of `acquire_locks` that reads `LOCK_GRANTED` has reached its replica. -/
theorem lock_resp_delivered (key : Str) (cid : CInt) (net : Blocking.Net) (cl : ABD.Cluster)
    (i : Nat) (h : Blocking.lock_resp key cid net cl i = some "LOCK_GRANTED".toList) :
    (net.lock i).delivered = true := by
  unfold Blocking.lock_resp at h
  cases hl : net.lock i <;> rw [hl] at h <;> simp [ABD.Rpc.delivered] at h ⊢

/-- A replica that answers `LOCK_GRANTED` to the lock request of a client records the
client as the holder of the key, with the deadline of the lease. -/
theorem lock_resp_granted (key : Str) (hk : wfKey key) (cid : CInt) (net : Blocking.Net)
    (cl : ABD.Cluster) (i : Nat)
    (h : Blocking.lock_resp key cid net cl i = some "LOCK_GRANTED".toList) :
    ((BlockingServer.handle_client (cl i) (Blocking.lock_req_line key cid)
      (net.t_lock i) (net.t_lock2 i) (net.u1 i) (net.u2 i)).1 key).locked_by = cid ∧
    ((BlockingServer.handle_client (cl i) (Blocking.lock_req_line key cid)
      (net.t_lock i) (net.t_lock2 i) (net.u1 i) (net.u2 i)).1 key).lock_expiry =
        net.t_lock2 i + 5000000000 := by
  have hg : (BlockingServer.lock_cell (cl i key) cid (net.t_lock i) (net.t_lock2 i)).2 =
      true := by
    unfold Blocking.lock_resp at h
    rw [blk_handle_lock_line (cl i) key hk] at h
    cases hl : net.lock i <;> rw [hl] at h
    · simp at h
    · simp at h
    · simp at h
    · by_contra hc
      simp only [] at h
      rw [if_neg hc] at h
      revert h
      decide
  rw [blk_handle_lock_line (cl i) key hk]
  simp only [Function.update_same]
  exact blk_lock_cell_granted _ cid _ _ hg

/-- The replica of a thread of `acquire_locks` that made its exchange and read
`LOCK_GRANTED` has handled the lock request. -/
theorem acquire_locks_granted (key : Str) (cid : CInt) (N : Nat) (net : Blocking.Net)
    (cl : ABD.Cluster) (i : Nat)
    (ht : i ∈ (Blocking.acquire_run N (Blocking.lock_resp key cid net cl) net.sched).tried)
    (hg : Blocking.lock_resp key cid net cl i = some "LOCK_GRANTED".toList) :
    (Blocking.acquire_locks key cid N net cl).1 i =
      (BlockingServer.handle_client (cl i) (Blocking.lock_req_line key cid)
        (net.t_lock i) (net.t_lock2 i) (net.u1 i) (net.u2 i)).1 := by
  unfold Blocking.acquire_locks
  simp only []
  rw [if_pos ⟨ht, lock_resp_delivered key cid net cl i hg⟩]

/-- The replicas after `get`: `unlock_quorum` on the vector `granted` of `acquire_locks`,
from a state that differs from the one `acquire_locks` left on the replicas of `granted`
only, and not at all when the operation fails for lack of a quorum. -/
theorem get_unlock_form (key : Str) (cid : CInt) (N : Nat) (out : Str) (net : Blocking.Net)
    (cl : ABD.Cluster) :
    ∃ pg : ABD.Cluster,
      (Blocking.get key cid N out net cl).cl =
        Blocking.unlock_quorum key cid (Blocking.acquire_locks key cid N net cl).2 net pg ∧
      (∀ i, i ∉ (Blocking.acquire_locks key cid N net cl).2 →
        pg i = (Blocking.acquire_locks key cid N net cl).1 i) ∧
      (wfKey key → ∀ i,
        BlockingServer.free_or ((Blocking.acquire_locks key cid N net cl).1 i key) cid →
        BlockingServer.free_or (pg i key) cid) ∧
      ((Blocking.acquire_locks key cid N net cl).2.length < N / 2 + 1 →
        pg = (Blocking.acquire_locks key cid N net cl).1) := by
  have hle : (Blocking.acquire_locks key cid N net cl).2.length ≤ N / 2 + 1 :=
    (acqInv_run N (Blocking.lock_resp key cid net cl) net.sched).le
  by_cases hlt : (Blocking.acquire_locks key cid N net cl).2.length < N / 2 + 1
  · refine ⟨(Blocking.acquire_locks key cid N net cl).1, ?_, fun _ _ => rfl,
      fun _ _ h => h, fun _ => rfl⟩
    unfold Blocking.get
    simp only []
    rw [if_pos hlt]
  · have hres := resize_self (Blocking.acquire_locks key cid N net cl).2 (N / 2 + 1)
      (by omega)
    refine ⟨(Blocking.read_quorum key (Blocking.acquire_locks key cid N net cl).2 net
      (Blocking.acquire_locks key cid N net cl).1).1, ?_,
      fun i hi => read_quorum_outside key _ net _ i hi,
      fun hk i => (read_quorum_cluster key hk cid _ net _ i).2, fun h => absurd h hlt⟩
    unfold Blocking.get
    simp only []
    rw [if_neg hlt, hres]
    split <;> rfl

/-- The replicas after `put`, in the same form. -/
theorem put_unlock_form (key value : Str) (cid : CInt) (N : Nat) (net : Blocking.Net)
    (cl : ABD.Cluster) :
    ∃ pp : ABD.Cluster,
      (Blocking.put key value cid N net cl).cl =
        Blocking.unlock_quorum key cid (Blocking.acquire_locks key cid N net cl).2 net pp ∧
      (∀ i, i ∉ (Blocking.acquire_locks key cid N net cl).2 →
        pp i = (Blocking.acquire_locks key cid N net cl).1 i) ∧
      (wfKey key → ∀ i,
        BlockingServer.free_or ((Blocking.acquire_locks key cid N net cl).1 i key) cid →
        BlockingServer.free_or (pp i key) cid) ∧
      ((Blocking.acquire_locks key cid N net cl).2.length < N / 2 + 1 →
        pp = (Blocking.acquire_locks key cid N net cl).1) := by
  have hle : (Blocking.acquire_locks key cid N net cl).2.length ≤ N / 2 + 1 :=
    (acqInv_run N (Blocking.lock_resp key cid net cl) net.sched).le
  by_cases hlt : (Blocking.acquire_locks key cid N net cl).2.length < N / 2 + 1
  · refine ⟨(Blocking.acquire_locks key cid N net cl).1, ?_, fun _ _ => rfl,
      fun _ _ h => h, fun _ => rfl⟩
    unfold Blocking.put
    simp only []
    rw [if_pos hlt]
  · have hres := resize_self (Blocking.acquire_locks key cid N net cl).2 (N / 2 + 1)
      (by omega)
    by_cases hf : (Blocking.find_highest_tag
        (Blocking.read_quorum key (Blocking.acquire_locks key cid N net cl).2 net
          (Blocking.acquire_locks key cid N net cl).1).2 (N / 2 + 1) CInt.negOne CInt.negOne
        []).1 = false
    · refine ⟨(Blocking.read_quorum key (Blocking.acquire_locks key cid N net cl).2 net
        (Blocking.acquire_locks key cid N net cl).1).1, ?_,
        fun i hi => read_quorum_outside key _ net _ i hi,
        fun hk i => (read_quorum_cluster key hk cid _ net _ i).2, fun h => absurd h hlt⟩
      unfold Blocking.put
      simp only []
      rw [if_neg hlt, hres, if_pos hf]
    · refine ⟨(Blocking.write_quorum key
          (CInt.succ (Blocking.find_highest_tag
            (Blocking.read_quorum key (Blocking.acquire_locks key cid N net cl).2 net
              (Blocking.acquire_locks key cid N net cl).1).2 (N / 2 + 1) CInt.negOne
            CInt.negOne []).2.1) cid value
          (Blocking.acquire_locks key cid N net cl).2 net
          (Blocking.read_quorum key (Blocking.acquire_locks key cid N net cl).2 net
            (Blocking.acquire_locks key cid N net cl).1).1).1, ?_,
        fun i hi => ?_, fun hk i h => ?_, fun h => absurd h hlt⟩
      · unfold Blocking.put
        simp only []
        rw [if_neg hlt, hres, if_neg hf]
      · rw [write_quorum_outside key _ _ value _ net _ i hi]
        exact read_quorum_outside key _ net _ i hi
      · exact (write_quorum_cluster key hk cid _ _ value _ net _ i).2
          ((read_quorum_cluster key hk cid _ net _ i).2 h)

/-- What the unlock phase of an operation of the Blocking client leaves, `c` being the
replicas after the operation and `pre` the replicas before its unlock phase. -/
theorem unlock_phase_effect (key : Str) (cid : CInt) (N : Nat) (net : Blocking.Net)
    (cl pre c : ABD.Cluster)
    (hc : c = Blocking.unlock_quorum key cid (Blocking.acquire_locks key cid N net cl).2
      net pre)
    (h1 : ∀ i, i ∉ (Blocking.acquire_locks key cid N net cl).2 →
      pre i = (Blocking.acquire_locks key cid N net cl).1 i)
    (h2 : wfKey key → ∀ i,
      BlockingServer.free_or ((Blocking.acquire_locks key cid N net cl).1 i key) cid →
      BlockingServer.free_or (pre i key) cid)
    (h3 : (Blocking.acquire_locks key cid N net cl).2.length < N / 2 + 1 →
      pre = (Blocking.acquire_locks key cid N net cl).1) :
    (∀ i, c i =
      if i ∈ (Blocking.acquire_locks key cid N net cl).2 ∧ (net.unlock i).delivered = true
      then (BlockingServer.handle_client (pre i) (Blocking.unlock_line key cid)
        (net.t_unlock i) (net.t_unlock i) (net.u1 i) (net.u2 i)).1
      else pre i) ∧
    (wfKey key → ∀ i ∈ (Blocking.acquire_locks key cid N net cl).2,
      (net.unlock i).delivered = true → (c i key).locked_by = CInt.negOne) ∧
    (∀ i, i ∉ (Blocking.acquire_locks key cid N net cl).2 →
      c i = (Blocking.acquire_locks key cid N net cl).1 i) ∧
    (∀ i ∈ (Blocking.acquire_locks key cid N net cl).2,
      (Blocking.acquire_locks key cid N net cl).2.length < N / 2 + 1 →
      (net.unlock i).delivered = false →
      c i = (BlockingServer.handle_client (cl i) (Blocking.lock_req_line key cid)
        (net.t_lock i) (net.t_lock2 i) (net.u1 i) (net.u2 i)).1) := by
  have hinv := acqInv_run N (Blocking.lock_resp key cid net cl) net.sched
  have hspec : ∀ i, c i =
      if i ∈ (Blocking.acquire_locks key cid N net cl).2 ∧ (net.unlock i).delivered = true
      then (BlockingServer.handle_client (pre i) (Blocking.unlock_line key cid)
        (net.t_unlock i) (net.t_unlock i) (net.u1 i) (net.u2 i)).1
      else pre i := by
    intro i
    rw [hc]
    exact unlock_quorum_spec key cid net _ hinv.nodup pre i
  have hlocked : ∀ i ∈ (Blocking.acquire_locks key cid N net cl).2,
      (Blocking.acquire_locks key cid N net cl).1 i =
        (BlockingServer.handle_client (cl i) (Blocking.lock_req_line key cid)
          (net.t_lock i) (net.t_lock2 i) (net.u1 i) (net.u2 i)).1 :=
    fun i hi => acquire_locks_granted key cid N net cl i (hinv.grantOk i hi).1
      (hinv.grant i hi).2
  refine ⟨hspec, fun hk i hi hd => ?_, fun i hi => ?_, fun i hi hlt hd => ?_⟩
  · rw [hspec i, if_pos ⟨hi, hd⟩]
    refine blk_unlock_line_free _ key hk cid _ _ _ _ (h2 hk i ?_)
    rw [hlocked i hi]
    exact Or.inl (lock_resp_granted key hk cid net cl i (hinv.grant i hi).2).1
  · rw [hspec i, if_neg (fun h => hi h.1)]
    exact h1 i hi
  · rw [hspec i, if_neg (fun h => by rw [hd] at h; exact absurd h.2 (by decide)), h3 hlt]
    exact hlocked i hi

/-- C14, as the code has it. Let `held` be the vector that `acquire_locks` returns and
`locked` the replicas as it leaves them, for any `N`, any fate of the connections and any
order of the steps of the threads, and let `o` be the outcome of `get` or of `put`.
The held set has at most `R = N/2 + 1` entries, all distinct, each a replica below `N` that
answered `LOCK_GRANTED`. A grant whose reply is processed while fewer than `R` grants are
recorded is in the held set; so is every grant when all threads are joined with fewer than
`R` grants recorded, in which case the operation fails. In the unlock phase each held
replica that the unlock connection reaches handles the `UNLOCK` line of the client, its
state before being the one the earlier phases left (the one `acquire_locks` left, when the
operation fails for lack of a quorum), and after the operation the key is free on it; a
held replica that the unlock connection does not reach is not changed by the unlock phase,
and when the operation fails for lack of a quorum it still records the client as the
holder with the deadline of the grant. No replica outside the held set is contacted after
`acquire_locks`. A grant whose reply is processed when `R` grants are recorded is not in
the held set: its replica is left as the lock request left it, the client being recorded
as the holder of the key until the deadline, 5 s after the grant. -/
theorem blocking_held_locks_unlocked (key value : Str) (client_id : CInt) (N : Nat)
    (out : Str) (net : Blocking.Net) (cl locked : ABD.Cluster) (held : List Nat)
    (o : Blocking.Outcome)
    (hacq : Blocking.acquire_locks key client_id N net cl = (locked, held))
    (ho : o = Blocking.get key client_id N out net cl ∨
      o = Blocking.put key value client_id N net cl) :
    held.length ≤ N / 2 + 1 ∧
    held.Nodup ∧
    (∀ i ∈ held,
      i < N ∧ Blocking.lock_resp key client_id net cl i = some "LOCK_GRANTED".toList) ∧
    (∀ pre post i, net.sched = pre ++ Blocking.Event.reply i :: post →
      i ∈ (Blocking.acquire_run N (Blocking.lock_resp key client_id net cl) pre).inflight →
      Blocking.lock_resp key client_id net cl i = some "LOCK_GRANTED".toList →
      (Blocking.acquire_run N (Blocking.lock_resp key client_id net cl) pre).granted.length <
        N / 2 + 1 →
      i ∈ held) ∧
    (Blocking.joins N net.sched → held.length < N / 2 + 1 →
      ∀ i, i < N → Blocking.lock_resp key client_id net cl i = some "LOCK_GRANTED".toList →
        i ∈ held) ∧
    (held.length < N / 2 + 1 → o.ok = false) ∧
    (∃ before : ABD.Cluster,
      (∀ i, i ∉ held → before i = locked i) ∧
      (held.length < N / 2 + 1 → before = locked) ∧
      ∀ i, o.cl i =
        if i ∈ held ∧ (net.unlock i).delivered = true then
          (BlockingServer.handle_client (before i) (Blocking.unlock_line key client_id)
            (net.t_unlock i) (net.t_unlock i) (net.u1 i) (net.u2 i)).1
        else before i) ∧
    (wfKey key → ∀ i ∈ held, (net.unlock i).delivered = true →
      (o.cl i key).locked_by = CInt.negOne) ∧
    (∀ i, i ∉ held → o.cl i = locked i) ∧
    (∀ pre post i, net.sched = pre ++ Blocking.Event.reply i :: post →
      i ∈ (Blocking.acquire_run N (Blocking.lock_resp key client_id net cl) pre).inflight →
      Blocking.lock_resp key client_id net cl i = some "LOCK_GRANTED".toList →
      N / 2 + 1 ≤
        (Blocking.acquire_run N (Blocking.lock_resp key client_id net cl) pre).granted.length →
      i ∉ held ∧
      o.cl i = (BlockingServer.handle_client (cl i) (Blocking.lock_req_line key client_id)
        (net.t_lock i) (net.t_lock2 i) (net.u1 i) (net.u2 i)).1 ∧
      (wfKey key → (o.cl i key).locked_by = client_id ∧
        (o.cl i key).lock_expiry = net.t_lock2 i + 5000000000)) ∧
    (wfKey key → held.length < N / 2 + 1 →
      ∀ i ∈ held, (net.unlock i).delivered = false →
        (o.cl i key).locked_by = client_id ∧
        (o.cl i key).lock_expiry = net.t_lock2 i + 5000000000) := by
  obtain ⟨rfl, rfl⟩ : locked = (Blocking.acquire_locks key client_id N net cl).1 ∧
      held = (Blocking.acquire_locks key client_id N net cl).2 := by
    rw [hacq]
    exact ⟨rfl, rfl⟩
  have hinv := acqInv_run N (Blocking.lock_resp key client_id net cl) net.sched
  have hform : ∃ pre : ABD.Cluster,
      o.cl = Blocking.unlock_quorum key client_id
        (Blocking.acquire_locks key client_id N net cl).2 net pre ∧
      (∀ i, i ∉ (Blocking.acquire_locks key client_id N net cl).2 →
        pre i = (Blocking.acquire_locks key client_id N net cl).1 i) ∧
      (wfKey key → ∀ i,
        BlockingServer.free_or ((Blocking.acquire_locks key client_id N net cl).1 i key)
          client_id →
        BlockingServer.free_or (pre i key) client_id) ∧
      ((Blocking.acquire_locks key client_id N net cl).2.length < N / 2 + 1 →
        pre = (Blocking.acquire_locks key client_id N net cl).1) := by
    rcases ho with ho | ho
    · rw [ho]
      exact get_unlock_form key client_id N out net cl
    · rw [ho]
      exact put_unlock_form key value client_id N net cl
  obtain ⟨pre, hc, h1, h2, h3⟩ := hform
  have heff := unlock_phase_effect key client_id N net cl pre o.cl hc h1 h2 h3
  have hok : (Blocking.acquire_locks key client_id N net cl).2.length < N / 2 + 1 →
      o.ok = false := by
    intro hlt
    rcases ho with ho | ho
    · rw [ho]
      unfold Blocking.get
      simp only []
      rw [if_pos hlt]
    · rw [ho]
      unfold Blocking.put
      simp only []
      rw [if_pos hlt]
  refine ⟨hinv.le, hinv.nodup, hinv.grant, ?_,
    fun hj hlen i hi hg => acquire_complete N _ net.sched i hi (hj i hi) hg hlen, hok,
    ⟨pre, h1, h3, heff.1⟩, heff.2.1, heff.2.2.1, ?_, ?_⟩
  · intro pre0 post i hs hin hg hlen
    have := acquire_early N _ pre0 post i hin hg hlen
    rw [← hs] at this
    exact this
  · intro pre0 post i hs hin hg hlen
    have hl := acquire_late N _ pre0 post i hin hlen
    rw [← hs] at hl
    have hci : o.cl i =
        (BlockingServer.handle_client (cl i) (Blocking.lock_req_line key client_id)
          (net.t_lock i) (net.t_lock2 i) (net.u1 i) (net.u2 i)).1 := by
      rw [heff.2.2.1 i hl.1]
      exact acquire_locks_granted key client_id N net cl i hl.2 hg
    refine ⟨hl.1, hci, fun hk => ?_⟩
    rw [hci]
    exact lock_resp_granted key hk client_id net cl i hg
  · intro hk hlt i hi hd
    rw [heff.2.2.2 i hi hlt hd]
    exact lock_resp_granted key hk client_id net cl i (hinv.grant i hi).2

/-- C14, counterexample. On three fresh replicas (`R = 2`) with every connection
succeeding and all threads started before a reply is processed, the third replica answers
`LOCK_GRANTED` and the held set is `[0, 1]`: `get` and `put` succeed, the key is free on
the replicas 0 and 1 after the operation, and the third replica, which is sent no `UNLOCK`,
still records client 1 as the holder of the key, with the deadline of its grant. When the
replies are processed in the opposite order the held set is `[2, 1]` and the first replica
is the one left locked. On a single replica whose unlock connection fails, the replica is
in the held set, the operation succeeds and the replica is left locked. -/
theorem blocking_grant_beyond_quorum_dropped :
    Blocking.lock_resp "k".toList ⟨1, by decide⟩ (Blocking.Net.allOk 3)
      (fun _ => Store.empty) 2 = some "LOCK_GRANTED".toList ∧
    (Blocking.acquire_locks "k".toList ⟨1, by decide⟩ 3 (Blocking.Net.allOk 3)
      (fun _ => Store.empty)).2 = [0, 1] ∧
    (Blocking.get "k".toList ⟨1, by decide⟩ 3 [] (Blocking.Net.allOk 3)
      (fun _ => Store.empty)).ok = true ∧
    ((Blocking.get "k".toList ⟨1, by decide⟩ 3 [] (Blocking.Net.allOk 3)
      (fun _ => Store.empty)).cl 0 "k".toList).locked_by = CInt.negOne ∧
    ((Blocking.get "k".toList ⟨1, by decide⟩ 3 [] (Blocking.Net.allOk 3)
      (fun _ => Store.empty)).cl 1 "k".toList).locked_by = CInt.negOne ∧
    ((Blocking.get "k".toList ⟨1, by decide⟩ 3 [] (Blocking.Net.allOk 3)
      (fun _ => Store.empty)).cl 2 "k".toList).locked_by = ⟨1, by decide⟩ ∧
    ((Blocking.get "k".toList ⟨1, by decide⟩ 3 [] (Blocking.Net.allOk 3)
      (fun _ => Store.empty)).cl 2 "k".toList).lock_expiry = 5000000000 ∧
    (Blocking.put "k".toList "v".toList ⟨1, by decide⟩ 3 (Blocking.Net.allOk 3)
      (fun _ => Store.empty)).ok = true ∧
    ((Blocking.put "k".toList "v".toList ⟨1, by decide⟩ 3 (Blocking.Net.allOk 3)
      (fun _ => Store.empty)).cl 0 "k".toList).locked_by = CInt.negOne ∧
    ((Blocking.put "k".toList "v".toList ⟨1, by decide⟩ 3 (Blocking.Net.allOk 3)
      (fun _ => Store.empty)).cl 1 "k".toList).locked_by = CInt.negOne ∧
    ((Blocking.put "k".toList "v".toList ⟨1, by decide⟩ 3 (Blocking.Net.allOk 3)
      (fun _ => Store.empty)).cl 2 "k".toList).locked_by = ⟨1, by decide⟩ ∧
    (Blocking.acquire_locks "k".toList ⟨1, by decide⟩ 3
      { Blocking.Net.allOk 3 with
        sched := [Blocking.Event.start 0, Blocking.Event.start 1, Blocking.Event.start 2,
          Blocking.Event.reply 2, Blocking.Event.reply 1, Blocking.Event.reply 0] }
      (fun _ => Store.empty)).2 = [2, 1] ∧
    ((Blocking.get "k".toList ⟨1, by decide⟩ 3 []
      { Blocking.Net.allOk 3 with
        sched := [Blocking.Event.start 0, Blocking.Event.start 1, Blocking.Event.start 2,
          Blocking.Event.reply 2, Blocking.Event.reply 1, Blocking.Event.reply 0] }
      (fun _ => Store.empty)).cl 0 "k".toList).locked_by = ⟨1, by decide⟩ ∧
    (Blocking.acquire_locks "k".toList ⟨1, by decide⟩ 1
      { Blocking.Net.allOk 1 with unlock := fun _ => ABD.Rpc.connect_fails }
      (fun _ => Store.empty)).2 = [0] ∧
    (Blocking.get "k".toList ⟨1, by decide⟩ 1 []
      { Blocking.Net.allOk 1 with unlock := fun _ => ABD.Rpc.connect_fails }
      (fun _ => Store.empty)).ok = true ∧
    ((Blocking.get "k".toList ⟨1, by decide⟩ 1 []
      { Blocking.Net.allOk 1 with unlock := fun _ => ABD.Rpc.connect_fails }
      (fun _ => Store.empty)).cl 0 "k".toList).locked_by = ⟨1, by decide⟩ := by
  decide

/-- C14, on three fresh replicas. When only the first can be reached by the lock request,
the operation fails for lack of a quorum, the first replica, which answered
`LOCK_GRANTED`, is in the held set, and after `get` the key is free on it. When all three
are reached and the reply of the third is processed last, the third replica is not in the
held set and after `put` still records client 1 as the holder of the key. -/
theorem blocking_held_locks_unlocked_witness :
    wfKey "k".toList ∧
    Blocking.joins 3 (Blocking.Net.allOk 3).sched ∧
    0 ∈ (Blocking.acquire_locks "k".toList ⟨1, by decide⟩ 3
      { Blocking.Net.allOk 3 with
        lock := fun i => if i = 0 then ABD.Rpc.ok else ABD.Rpc.connect_fails }
      (fun _ => Store.empty)).2 ∧
    (Blocking.get "k".toList ⟨1, by decide⟩ 3 []
      { Blocking.Net.allOk 3 with
        lock := fun i => if i = 0 then ABD.Rpc.ok else ABD.Rpc.connect_fails }
      (fun _ => Store.empty)).ok = false ∧
    ((Blocking.get "k".toList ⟨1, by decide⟩ 3 []
      { Blocking.Net.allOk 3 with
        lock := fun i => if i = 0 then ABD.Rpc.ok else ABD.Rpc.connect_fails }
      (fun _ => Store.empty)).cl 0 "k".toList).locked_by = CInt.negOne ∧
    2 ∉ (Blocking.acquire_locks "k".toList ⟨1, by decide⟩ 3 (Blocking.Net.allOk 3)
      (fun _ => Store.empty)).2 ∧
    ((Blocking.put "k".toList "v".toList ⟨1, by decide⟩ 3 (Blocking.Net.allOk 3)
      (fun _ => Store.empty)).cl 2 "k".toList).locked_by = ⟨1, by decide⟩ :=
  ⟨by decide, by decide,
    (blocking_held_locks_unlocked "k".toList [] ⟨1, by decide⟩ 3 []
      { Blocking.Net.allOk 3 with
        lock := fun i => if i = 0 then ABD.Rpc.ok else ABD.Rpc.connect_fails }
      (fun _ => Store.empty)
      (Blocking.acquire_locks "k".toList ⟨1, by decide⟩ 3
        { Blocking.Net.allOk 3 with
        lock := fun i => if i = 0 then ABD.Rpc.ok else ABD.Rpc.connect_fails }
        (fun _ => Store.empty)).1
      (Blocking.acquire_locks "k".toList ⟨1, by decide⟩ 3
        { Blocking.Net.allOk 3 with
        lock := fun i => if i = 0 then ABD.Rpc.ok else ABD.Rpc.connect_fails }
        (fun _ => Store.empty)).2
      (Blocking.get "k".toList ⟨1, by decide⟩ 3 []
        { Blocking.Net.allOk 3 with
        lock := fun i => if i = 0 then ABD.Rpc.ok else ABD.Rpc.connect_fails }
        (fun _ => Store.empty))
      Prod.mk.eta.symm (Or.inl rfl)).2.2.2.2.1
      (by decide) (by decide) 0 (by decide) (by decide),
    (blocking_held_locks_unlocked "k".toList [] ⟨1, by decide⟩ 3 []
      { Blocking.Net.allOk 3 with
        lock := fun i => if i = 0 then ABD.Rpc.ok else ABD.Rpc.connect_fails }
      (fun _ => Store.empty)
      (Blocking.acquire_locks "k".toList ⟨1, by decide⟩ 3
        { Blocking.Net.allOk 3 with
        lock := fun i => if i = 0 then ABD.Rpc.ok else ABD.Rpc.connect_fails }
        (fun _ => Store.empty)).1
      (Blocking.acquire_locks "k".toList ⟨1, by decide⟩ 3
        { Blocking.Net.allOk 3 with
        lock := fun i => if i = 0 then ABD.Rpc.ok else ABD.Rpc.connect_fails }
        (fun _ => Store.empty)).2
      (Blocking.get "k".toList ⟨1, by decide⟩ 3 []
        { Blocking.Net.allOk 3 with
        lock := fun i => if i = 0 then ABD.Rpc.ok else ABD.Rpc.connect_fails }
        (fun _ => Store.empty))
      Prod.mk.eta.symm (Or.inl rfl)).2.2.2.2.2.1 (by decide),
    (blocking_held_locks_unlocked "k".toList [] ⟨1, by decide⟩ 3 []
      { Blocking.Net.allOk 3 with
        lock := fun i => if i = 0 then ABD.Rpc.ok else ABD.Rpc.connect_fails }
      (fun _ => Store.empty)
      (Blocking.acquire_locks "k".toList ⟨1, by decide⟩ 3
        { Blocking.Net.allOk 3 with
        lock := fun i => if i = 0 then ABD.Rpc.ok else ABD.Rpc.connect_fails }
        (fun _ => Store.empty)).1
      (Blocking.acquire_locks "k".toList ⟨1, by decide⟩ 3
        { Blocking.Net.allOk 3 with
        lock := fun i => if i = 0 then ABD.Rpc.ok else ABD.Rpc.connect_fails }
        (fun _ => Store.empty)).2
      (Blocking.get "k".toList ⟨1, by decide⟩ 3 []
        { Blocking.Net.allOk 3 with
        lock := fun i => if i = 0 then ABD.Rpc.ok else ABD.Rpc.connect_fails }
        (fun _ => Store.empty))
      Prod.mk.eta.symm (Or.inl rfl)).2.2.2.2.2.2.2.1
      (by decide) 0 (by decide) (by decide),
    ((blocking_held_locks_unlocked "k".toList "v".toList ⟨1, by decide⟩ 3 []
      (Blocking.Net.allOk 3) (fun _ => Store.empty)
      (Blocking.acquire_locks "k".toList ⟨1, by decide⟩ 3 (Blocking.Net.allOk 3)
        (fun _ => Store.empty)).1
      (Blocking.acquire_locks "k".toList ⟨1, by decide⟩ 3 (Blocking.Net.allOk 3)
        (fun _ => Store.empty)).2
      (Blocking.put "k".toList "v".toList ⟨1, by decide⟩ 3 (Blocking.Net.allOk 3)
        (fun _ => Store.empty))
      Prod.mk.eta.symm (Or.inr rfl)).2.2.2.2.2.2.2.2.2.1
      [Blocking.Event.start 0, Blocking.Event.start 1, Blocking.Event.start 2,
        Blocking.Event.reply 0, Blocking.Event.reply 1] [] 2
      (by decide) (by decide) (by decide) (by decide)).1,
    (((blocking_held_locks_unlocked "k".toList "v".toList ⟨1, by decide⟩ 3 []
      (Blocking.Net.allOk 3) (fun _ => Store.empty)
      (Blocking.acquire_locks "k".toList ⟨1, by decide⟩ 3 (Blocking.Net.allOk 3)
        (fun _ => Store.empty)).1
      (Blocking.acquire_locks "k".toList ⟨1, by decide⟩ 3 (Blocking.Net.allOk 3)
        (fun _ => Store.empty)).2
      (Blocking.put "k".toList "v".toList ⟨1, by decide⟩ 3 (Blocking.Net.allOk 3)
        (fun _ => Store.empty))
      Prod.mk.eta.symm (Or.inr rfl)).2.2.2.2.2.2.2.2.2.1
      [Blocking.Event.start 0, Blocking.Event.start 1, Blocking.Event.start 2,
        Blocking.Event.reply 0, Blocking.Event.reply 1] [] 2
      (by decide) (by decide) (by decide) (by decide)).2.2 (by decide)).1⟩

end PA2
